import Mathlib

/-!
mdalyzer: mean squared displacement and the GRO trajectory reader.

Shallow embedding of `libmdalyzer/computes/MeanSquaredDisplacement.cc` and
`libmdalyzer/trajectories/GROTrajectory.cc`.

Conventions of the embedding.

* `float` / `double` values are exact rationals (`ℚ`): rounding is outside the model.
* `unsigned int` values are naturals; where the source's arithmetic can wrap it is written
  with an explicit `% 2 ^ 32`, and `(int)` casts go through `toInt`.
* A C++ exception and undefined behaviour (an out-of-range `operator[]`, a modulo by zero) are
  both results of type `Err`, kept apart by their constructor.
* A `for (i = 0; i < n; ++i)` loop over a state is `forLoop n body init`.
* An input file is the list of its lines, the only way `readFromFile` looks at it:
  `fileLines` cuts a text the way successive `std::getline` calls do, and `getline` takes the
  next line.
-/

namespace Mdalyzer

/-! ## Errors and machine integers -/

/-- Every way in which one of the embedded functions fails to return normally. -/
inductive Err where
  /-- `"MeanSquaredDisplacement needs data on time"` -/
  | needsTime
  /-- `"MeanSquaredDisplacement cannot remove type that doesn't exit"` -/
  | cannotRemoveType
  /-- an `operator[]` outside its vector, or `%` by zero: undefined behaviour -/
  | undefinedBehaviour
  /-- the frame loop's 32-bit counter can never reach `frames.size()` -/
  | nonTermination
  /-- `"GROTrajectory: cannot find GRO file "` -/
  | cannotFindFile
  /-- `"GROTrajectory: time step must follow t="` -/
  | timeMustFollow
  /-- `"GROTrajectory: time step is required in comment line"` -/
  | timeRequired
  /-- `"GROTrajectory: number of particles must be set"` -/
  | numberOfParticles
  /-- `"GROTrajectory: particle ids run 1 to N"` -/
  | idsRun1ToN
  /-- `"GROTrajectory: number of particles read does not match specified number"` -/
  | countMismatch
  /-- `"GROTrajectory: box must be specified"` -/
  | boxMustBeSpecified
  /-- `"GROTrajectory: particle line does not adhere to minimum gro fomatting"` -/
  | lineTooShort
  /-- `std::out_of_range` thrown by `std::string::substr` -/
  | substrOutOfRange
  /-- a `Frame` setter called with an index outside `[0, N)` -/
  | setterOutOfRange
  /-- the fuel of a fuelled loop ran out (never the case for `readFromFile`) -/
  | outOfFuel
  deriving DecidableEq, Repr

deriving instance DecidableEq for Except

/-- The cast `(int)u` of an `unsigned int` (two's complement, 32 bits). -/
def toInt (u : Nat) : Int :=
  if u % 2 ^ 32 < 2 ^ 31 then ((u % 2 ^ 32 : Nat) : Int) else ((u % 2 ^ 32 : Nat) : Int) - 2 ^ 32

/-- The conversion of an `int` to `unsigned int`. -/
def toUnsigned (i : Int) : Nat := (i % 2 ^ 32).toNat

/-- A counted loop `for (unsigned int i = 0; i < n; ++i) body(i)` threading a state; the
first failing iteration ends it. -/
def forLoop {σ : Type} (n : Nat) (body : Nat → σ → Except Err σ) (init : σ) : Except Err σ :=
  match n with
  | 0 => .ok init
  | k + 1 =>
    match forLoop k body init with
    | .error e => .error e
    | .ok st => body k st

/-- Unchecked `v[i]` on a `std::vector`: outside the vector it is undefined behaviour. -/
def index {α : Type} (v : List α) (i : Nat) : Except Err α :=
  match v[i]? with
  | some a => .ok a
  | none => .error .undefinedBehaviour

/-! ## Data model -/

/-- Modelled from the spec: `Vector3.h` is not among the sources. A three-component tuple
`{x, y, z}` with componentwise arithmetic, default-constructed to zero. -/
structure Vector3 where
  x : ℚ
  y : ℚ
  z : ℚ
  deriving DecidableEq

/-- The default-constructed vector. -/
def Vector3.zero : Vector3 := ⟨0, 0, 0⟩

/-- Componentwise difference, `a - b`. -/
def Vector3.sub (a b : Vector3) : Vector3 := ⟨a.x - b.x, a.y - b.y, a.z - b.z⟩

/-- Modelled from the spec: `TriclinicBox.h` is not among the sources. Three lattice vectors,
stored as given. -/
structure TriclinicBox where
  v1 : Vector3
  v2 : Vector3
  v3 : Vector3
  deriving DecidableEq

/-- Modelled from the spec: `Frame.h` is not among the sources. One snapshot of `N` particles:
positions, velocities and names (one slot per particle), a time with its presence flag, and
an optional box. -/
structure Frame where
  positions : List Vector3
  velocities : List Vector3
  names : List String
  time : ℚ
  hasTime : Bool
  box : Option TriclinicBox
  deriving DecidableEq

/-- Modelled from the spec: `Frame(n)`, a frame of `n` particles with every slot at its
default (zero vectors, empty names), no time and no box. -/
def Frame.new (n : Nat) : Frame :=
  { positions := List.replicate n Vector3.zero
    velocities := List.replicate n Vector3.zero
    names := List.replicate n ""
    time := 0
    hasTime := false
    box := none }

/-- `Frame::getN`. -/
def Frame.getN (f : Frame) : Nat := f.positions.length

/-- Modelled from the spec: `Frame::setTime`. -/
def Frame.setTime (f : Frame) (t : ℚ) : Frame := { f with time := t, hasTime := true }

/-- Modelled from the spec: `Frame::setBox`. -/
def Frame.setBox (f : Frame) (b : TriclinicBox) : Frame := { f with box := some b }

/-- Modelled from the spec: `Frame::setName(i, s)`, which requires `0 <= i < N`. -/
def Frame.setName (f : Frame) (i : Nat) (s : String) : Except Err Frame :=
  if i < f.names.length then .ok { f with names := f.names.set i s } else .error .setterOutOfRange

/-- Modelled from the spec: `Frame::setPosition(i, v)`, which requires `0 <= i < N`. -/
def Frame.setPosition (f : Frame) (i : Nat) (v : Vector3) : Except Err Frame :=
  if i < f.positions.length then .ok { f with positions := f.positions.set i v }
  else .error .setterOutOfRange

/-- Modelled from the spec: `Frame::setVelocity(i, v)`, which requires `0 <= i < N`. -/
def Frame.setVelocity (f : Frame) (i : Nat) (v : Vector3) : Except Err Frame :=
  if i < f.velocities.length then .ok { f with velocities := f.velocities.set i v }
  else .error .setterOutOfRange

/-- Modelled from the spec: `Trajectory.h` is not among the sources. What
`MeanSquaredDisplacement` reads from its trajectory: the frame sequence (`getFrames`), the
particle count (`getN`), the number of registered types (`getNumTypes`) and the index of a type
name (`getTypeByName`, stable: a name always has the same index). -/
structure Trajectory where
  frames : List Frame
  n : Nat
  numTypes : Nat
  typeByName : String → Nat

/-! ## MeanSquaredDisplacement -/

/-- The members of `MeanSquaredDisplacement`: the trajectory, the output stem `m_file_name`,
the origin spacing `m_origins` and the selection `m_type_names`. -/
structure MeanSquaredDisplacement where
  traj : Trajectory
  file_name : String
  origins : Nat
  type_names : List String

/-- `MeanSquaredDisplacement::addType`: append the name unless `std::find` finds it. -/
def MeanSquaredDisplacement.addType (m : MeanSquaredDisplacement) (name : String) :
    MeanSquaredDisplacement :=
  if name ∈ m.type_names then m else { m with type_names := m.type_names ++ [name] }

/-- `MeanSquaredDisplacement::deleteType`: erase the element `std::find` returns, or throw. -/
def MeanSquaredDisplacement.deleteType (m : MeanSquaredDisplacement) (name : String) :
    Except Err MeanSquaredDisplacement :=
  if name ∈ m.type_names then .ok { m with type_names := m.type_names.erase name }
  else .error .cannotRemoveType

/-- The accumulator `Vector3< std::vector< std::vector<float> > > msd`: per axis a table
indexed by type, then by lag. -/
structure Msd where
  x : List (List ℚ)
  y : List (List ℚ)
  z : List (List ℚ)
  deriving DecidableEq

/-- The mutable locals of the accumulation pass of `evaluate`. -/
structure EvalState where
  msd : Msd
  ntime : List Nat
  t0 : Nat
  time0 : List Nat
  deriving DecidableEq

/-- `unsigned int type_size = std::max((int)m_traj->getNumTypes(), 1)`. -/
def typeSize (numTypes : Nat) : Nat := toUnsigned (max (toInt numTypes) 1)

/-- `tbl[i][j] += v` on a `std::vector< std::vector<float> >`, unchecked. -/
def addAt (tbl : List (List ℚ)) (i j : Nat) (v : ℚ) : Except Err (List (List ℚ)) :=
  match tbl[i]? with
  | none => .error .undefinedBehaviour
  | some row =>
    match row[j]? with
    | none => .error .undefinedBehaviour
    | some old => .ok (tbl.set i (row.set j (old + v)))

/-- `ntime[delta_t] += 1`, unchecked. -/
def bump (ntime : List Nat) (j : Nat) : Except Err (List Nat) :=
  match ntime[j]? with
  | none => .error .undefinedBehaviour
  | some c => .ok (ntime.set j ((c + 1) % 2 ^ 32))

/-- Body of the particle loop (lines 81-91): look the particle's type up from its name in
`types`, and add the squared components of `pos[iatom] - origin_pos[iatom]` to the three
accumulators at `[n_type][delta_t]`. -/
def atomBody (traj : Trajectory) (types : List String) (pos origin_pos : List Vector3)
    (delta_t : Nat) (iatom : Nat) (msd : Msd) : Except Err Msd := do
  let name ← index types iatom
  let n_type := traj.typeByName name
  let cur_pos ← index pos iatom
  let cur_origin_pos ← index origin_pos iatom
  let diff_pos := cur_pos.sub cur_origin_pos
  let mx ← addAt msd.x n_type delta_t (diff_pos.x * diff_pos.x)
  let my ← addAt msd.y n_type delta_t (diff_pos.y * diff_pos.y)
  let mz ← addAt msd.z n_type delta_t (diff_pos.z * diff_pos.z)
  pure { x := mx, y := my, z := mz }

/-- The lag of line 73, `frame_idx - time0[tau] + 1` in `unsigned int` arithmetic. -/
def deltaT (frame_idx t : Nat) : Nat := ((frame_idx + 2 ^ 32 - t % 2 ^ 32) % 2 ^ 32 + 1) % 2 ^ 32

/-- Body of the origin loop (lines 72-92) for frame `frame_idx` and origin position `tau`. -/
def pairBody (traj : Trajectory) (frames : List Frame) (types : List String) (frame_idx : Nat)
    (tau : Nat) (st : EvalState) : Except Err EvalState := do
  let t ← index st.time0 tau
  let delta_t := deltaT frame_idx t
  if delta_t < frames.length then
    let ntime ← bump st.ntime delta_t
    let cur_frame ← index frames delta_t
    let origin_frame ← index frames tau
    let msd ← forLoop traj.n
      (atomBody traj types cur_frame.positions origin_frame.positions delta_t) st.msd
    pure { st with msd := msd, ntime := ntime }
  else
    pure st

/-- Body of the frame loop (lines 63-94): register a new origin when `frame_idx` is `0` or a
multiple of `m_origins`, then visit every origin registered so far. -/
def frameBody (traj : Trajectory) (origins : Nat) (frames : List Frame) (types : List String)
    (frame_idx : Nat) (st : EvalState) : Except Err EvalState :=
  if frame_idx ≠ 0 ∧ origins = 0 then
    .error .undefinedBehaviour
  else
    let st1 : EvalState :=
      if frame_idx = 0 ∨ frame_idx % origins = 0 then
        { st with t0 := (st.t0 + 1) % 2 ^ 32, time0 := st.time0 ++ [(st.t0 + 1) % 2 ^ 32] }
      else st
    forLoop st1.t0 (pairBody traj frames types frame_idx) st1

/-- The state before the frame loop (lines 50-61): zeroed tables of `type_size` rows and
`frames.size()` columns, zeroed pair counts, no origin. -/
def initState (traj : Trajectory) (frames : List Frame) : EvalState :=
  let tbl := List.replicate (typeSize traj.numTypes) (List.replicate frames.length (0 : ℚ))
  { msd := { x := tbl, y := tbl, z := tbl }
    ntime := List.replicate frames.length 0
    t0 := 0
    time0 := [] }

/-- Lines 43-94 of `evaluate`: the time check on the first frame and the accumulation pass. -/
def MeanSquaredDisplacement.accumulate (m : MeanSquaredDisplacement) : Except Err EvalState := do
  let frames := m.traj.frames
  let frame0 ← index frames 0
  if !frame0.hasTime then throw Err.needsTime
  let types := frame0.names
  if 2 ^ 32 ≤ frames.length then throw Err.nonTermination
  forLoop frames.length (frameBody m.traj m.origins frames types) (initState m.traj frames)

/-- A quotient `a / norm` of the output: `none` stands for the non-finite value the division
produces when `norm` is zero. -/
def divide (a : ℚ) (norm : Nat) : Option ℚ := if norm = 0 then none else some (a / norm)

/-- One line of an output file: the frame's time, then total, x, y and z. -/
structure Row where
  time : ℚ
  total : Option ℚ
  x : Option ℚ
  y : Option ℚ
  z : Option ℚ
  deriving DecidableEq

/-- One output file: its name and its lines after the header. -/
structure OutFile where
  name : String
  rows : List Row
  deriving DecidableEq

/-- Lines 108-116: the line of frame `frame_idx` in the file of selection position
`cur_type`. -/
def rowOf (frames : List Frame) (st : EvalState) (cur_type : Nat) (frame_idx : Nat) :
    Except Err Row := do
  let cur_frame ← index frames frame_idx
  let t := cur_frame.time
  let norm ← index st.ntime frame_idx
  let rx ← index st.msd.x cur_type
  let ry ← index st.msd.y cur_type
  let rz ← index st.msd.z cur_type
  let vx ← index rx frame_idx
  let vy ← index ry frame_idx
  let vz ← index rz frame_idx
  let msd_tot := vx + vy + vz
  pure { time := t, total := divide msd_tot norm, x := divide vx norm,
         y := divide vy norm, z := divide vz norm }

/-- Body of the row loop (lines 107-118): write the line of frame `frame_idx`. -/
def rowBody (frames : List Frame) (st : EvalState) (cur_type : Nat) (frame_idx : Nat)
    (rows : List Row) : Except Err (List Row) := do
  let row ← rowOf frames st cur_type frame_idx
  pure (rows ++ [row])

/-- Body of the output loop (lines 100-120): the file of selection position `cur_type`. -/
def fileBody (m : MeanSquaredDisplacement) (st : EvalState) (cur_type : Nat)
    (files : List OutFile) : Except Err (List OutFile) := do
  let name ← index m.type_names cur_type
  let outf_name := m.file_name ++ "_" ++ name ++ ".dat"
  let rows ← forLoop m.traj.frames.length (rowBody m.traj.frames st cur_type) []
  pure (files ++ [{ name := outf_name, rows := rows }])

/-- `MeanSquaredDisplacement::evaluate`: the accumulation pass, then one file per selected
name, in selection order. -/
def MeanSquaredDisplacement.evaluate (m : MeanSquaredDisplacement) :
    Except Err (List OutFile) := do
  let st ← m.accumulate
  forLoop m.type_names.length (fileBody m st) []

/-! ## Text and the C / C++ library functions the reader calls -/

/-- `std::isspace` in the "C" locale. -/
def isspace (c : Char) : Bool :=
  c = ' ' || c = '\t' || c = '\n' || c = '\x0b' || c = '\x0c' || c = '\r'

/-- `std::isdigit`. -/
def isdigit (c : Char) : Bool := '0' ≤ c && c ≤ '9'

/-- The lines successive `std::getline` calls read from a text: a newline ends a line, and
a last line need not be ended by one. -/
def fileLines : List Char → List (List Char)
  | [] => []
  | c :: cs =>
    if c = '\n' then [] :: fileLines cs
    else
      match fileLines cs with
      | [] => [[c]]
      | l :: ls => (c :: l) :: ls

/-- `std::getline(file, line)`: fails on an exhausted file, otherwise returns the next line and
the file after it. -/
def getline (file : List (List Char)) : Option (List Char × List (List Char)) :=
  match file with
  | [] => none
  | line :: rest => some (line, rest)

/-- `line.substr(pos, n)`: throws `std::out_of_range` when `pos > line.size()`. -/
def substr (line : List Char) (pos n : Nat) : Except Err (List Char) :=
  if pos > line.length then .error .substrOutOfRange else .ok ((line.drop pos).take n)

/-- `boost::algorithm::trim`: drop the white space at both ends. -/
def trim (s : List Char) : List Char :=
  ((s.dropWhile isspace).reverse.dropWhile isspace).reverse

/-- `line.find(pat)`: the first position at which `pat` occurs, `none` for `npos`. -/
def find (pat : List Char) : List Char → Option Nat
  | [] => if pat = [] then some 0 else none
  | c :: cs =>
    if pat.isPrefixOf (c :: cs) then some 0
    else (find pat cs).map (fun i => i + 1)

/-- Value of a string of decimal digits. -/
def digitsVal (ds : List Char) : Nat :=
  ds.foldl (fun a c => 10 * a + (c.toNat - '0'.toNat)) 0

/-- An optional sign: whether it was `-`, and the text after it. -/
def takeSign (s : List Char) : Bool × List Char :=
  match s with
  | '-' :: r => (true, r)
  | '+' :: r => (false, r)
  | _ => (false, s)

/-- An optional decimal exponent `e[+-]ddd`: the factor to apply (as "divide?" and a power
of ten) and the text after it; a malformed exponent is not consumed. -/
def takeExponent (s : List Char) : (Bool × Nat) × List Char :=
  match s with
  | [] => ((false, 0), s)
  | c :: r =>
    if c = 'e' ∨ c = 'E' then
      let sr := takeSign r
      let ds := sr.2.takeWhile isdigit
      if ds = [] then ((false, 0), s) else ((sr.1, digitsVal ds), sr.2.dropWhile isdigit)
    else ((false, 0), s)

/-- The longest decimal floating-point literal at the head of `s` (sign, digits, optional
fraction, optional exponent), with the text after it; `none` when there is no digit. The
hexadecimal, infinity and NaN spellings of the C library are outside the model. -/
def parseDecimal (s : List Char) : Option (ℚ × List Char) :=
  let sg := takeSign s
  let ip := sg.2.takeWhile isdigit
  let s2 := sg.2.dropWhile isdigit
  let fr : List Char × List Char :=
    match s2 with
    | '.' :: r => (r.takeWhile isdigit, r.dropWhile isdigit)
    | _ => ([], s2)
  if ip = [] ∧ fr.1 = [] then none
  else
    let mant : ℚ := (digitsVal (ip ++ fr.1) : ℚ) / 10 ^ fr.1.length
    let ex := takeExponent fr.2
    let scaled : ℚ := if ex.1.1 then mant / 10 ^ ex.1.2 else mant * 10 ^ ex.1.2
    some (if sg.1 then -scaled else scaled, ex.2)

/-- `strtod(s, NULL)`: skip white space, convert the longest literal, `0` when there is none. -/
def strtod (s : List Char) : ℚ :=
  match parseDecimal (s.dropWhile isspace) with
  | some (v, _) => v
  | none => 0

/-- `atoi(s)`: skip white space, an optional sign, then the digits; `0` when there is none. -/
def atoi (s : List Char) : Int :=
  let sg := takeSign (s.dropWhile isspace)
  let v : Int := (digitsVal (sg.2.takeWhile isdigit) : Nat)
  if sg.1 then -v else v

/-- The characters `std::num_get` gathers for a floating-point field after its optional sign
(the loop of `_M_extract_float`, "C" locale), with the text after them: digits, one decimal
point before any exponent, and one exponent marker once a digit was seen, with the sign that
may follow it. The marker is gathered whether or not digits follow. The flags are
`found_mantissa`, `found_dec` and `found_sci`; `sign` tells that the marker was gathered
last, the one place where a sign is taken. -/
def gatherFloat : Bool → Bool → Bool → Bool → List Char → List Char × List Char
  | _, _, _, _, [] => ([], [])
  | mant, dec, sci, sign, c :: cs =>
    if sign = true ∧ (c = '+' ∨ c = '-') then
      let r := gatherFloat mant dec sci false cs
      (c :: r.1, r.2)
    else if isdigit c then
      let r := gatherFloat true dec sci false cs
      (c :: r.1, r.2)
    else if c = '.' ∧ dec = false ∧ sci = false then
      let r := gatherFloat mant true sci false cs
      (c :: r.1, r.2)
    else if (c = 'e' ∨ c = 'E') ∧ sci = false ∧ mant = true then
      let r := gatherFloat mant dec true true cs
      (c :: r.1, r.2)
    else ([], c :: cs)

/-- The field `std::num_get` gathers for a `double`: an optional sign and the characters of
`gatherFloat`, with the text after the field. The library keeps one of several leading zeros
and writes the marker as `e`; here the characters are gathered as they stand, which is the
same number. -/
def floatField (t : List Char) : List Char × List Char :=
  match t with
  | c :: r =>
    if c = '+' ∨ c = '-' then
      let g := gatherFloat false false false false r
      (c :: g.1, g.2)
    else gatherFloat false false false false t
  | [] => ([], [])

/-- The conversion of a gathered field (`__convert_to_v`): the field is handed to `strtod`,
which has to use all of it. -/
def numberOf (field : List Char) : Option ℚ :=
  match parseDecimal field with
  | some (v, []) => some v
  | _ => none

/-- `stream >> d` for a `double` on a good stream, when it succeeds: white space is skipped,
the field of `floatField` is gathered and then converted as a whole, so a field that is not a
complete literal (no digit, or an exponent marker without digits as in `1.5e`) makes the
extraction fail (`none`) although it begins with a number. A value beyond the range of
`double`, which the library refuses, is outside the model. -/
def extractDouble (s : List Char) : Option (ℚ × List Char) :=
  let f := floatField (s.dropWhile isspace)
  match numberOf f.1 with
  | some v => some (v, f.2)
  | none => none

/-- What a failed `stream >> d` leaves in a `double` that held `old` (C++11 and later): when
only white space is left the stream fails before anything is gathered and `d` keeps its
value; when a field was gathered and did not convert, `0` is stored. -/
def failedDouble (old : ℚ) (s : List Char) : ℚ :=
  if s.dropWhile isspace = [] then old else 0

/-- `stream >> n` for an `unsigned int` on a good stream: skip white space, an optional `+`,
then digits whose value fits 32 bits. Negative input is outside the model and fails. -/
def extractUnsigned (s : List Char) : Option (Nat × List Char) :=
  let t := s.dropWhile isspace
  let u := match t with
    | '+' :: r => r
    | _ => t
  let ds := u.takeWhile isdigit
  if ds = [] ∨ 2 ^ 32 ≤ digitsVal ds then none else some (digitsVal ds, u.dropWhile isdigit)

/-! ## GROTrajectory -/

/-- The members of `GROTrajectory`. Modelled from the spec: `GROTrajectory.h` and
`Trajectory.h` are not among the sources; the two widths are `unsigned int` like the
constructor's argument, `m_files` are the attached file names, `m_frames` the frames read and
`m_must_read_from_file` the dirty flag. -/
structure GROTrajectory where
  n_gro_digits : Nat
  gro_line_length : Nat
  files : List String
  frames : List Frame
  must_read_from_file : Bool

/-- `GROTrajectory::GROTrajectory(precision)`, in `unsigned int` arithmetic. -/
def GROTrajectory.new (precision : Nat) : GROTrajectory :=
  let digits := (precision + 5) % 2 ^ 32
  { n_gro_digits := digits
    gro_line_length := (21 + 5 * digits) % 2 ^ 32
    files := []
    frames := []
    must_read_from_file := true }

/-- What `readLine` hands back through its reference arguments. -/
structure ParticleLine where
  name : List Char
  particle_id : Int
  pos : Vector3
  vel : Vector3
  deriving DecidableEq

/-- `GROTrajectory::readLine`: the length check, then the fixed-column fields. -/
def GROTrajectory.readLine (g : GROTrajectory) (line : List Char) : Except Err ParticleLine := do
  if line.length < g.gro_line_length then throw Err.lineTooShort
  let name := trim (← substr line 10 5)
  let particle_id := atoi (← substr line 15 5)
  let extract := 20
  let posx := strtod (← substr line extract g.n_gro_digits)
  let extract := (extract + g.n_gro_digits) % 2 ^ 32
  let posy := strtod (← substr line extract g.n_gro_digits)
  let extract := (extract + g.n_gro_digits) % 2 ^ 32
  let posz := strtod (← substr line extract g.n_gro_digits)
  let extract := (extract + g.n_gro_digits) % 2 ^ 32
  let velx := strtod (← substr line extract g.n_gro_digits)
  let extract := (extract + g.n_gro_digits) % 2 ^ 32
  let vely := strtod (← substr line extract g.n_gro_digits)
  let extract := (extract + g.n_gro_digits) % 2 ^ 32
  let velz := strtod (← substr line extract g.n_gro_digits)
  pure { name := name, particle_id := particle_id,
         pos := ⟨posx, posy, posz⟩, vel := ⟨velx, vely, velz⟩ }

/-- Lines 113-129 of `readFromFile`: from the id read, the count `n` of the frame, the number
`cur_particle` of lines stored so far and the `auto_number` flag, the `particle_id` used as
slot and the new flag. -/
def reconcile (n cur_particle : Nat) (auto_number : Bool) (particle_id : Int) :
    Except Err (Int × Bool) :=
  if !auto_number && (decide (particle_id > 0) && decide (particle_id ≤ toInt n)) then
    .ok (particle_id - 1, auto_number)
  else if auto_number || (decide (cur_particle = 0) && decide (particle_id = 0)) then
    .ok (toInt cur_particle, true)
  else
    .error .idsRun1ToN

/-- Lines 131-138 of `readFromFile`: store one parsed line in slot `slot`, the value of
`particle_id` as the setters' unsigned index. -/
def store (frame : Frame) (slot : Nat) (p : ParticleLine) : Except Err Frame := do
  let frame ← if p.name.length > 0 then frame.setName slot (String.mk p.name) else pure frame
  let frame ← frame.setPosition slot p.pos
  frame.setVelocity slot p.vel

/-- The state of the particle loop: the frame, `cur_particle`, `auto_number` and the rest of
the file. -/
structure ParticleLoop where
  frame : Frame
  cur_particle : Nat
  auto_number : Bool
  rest : List (List Char)
  deriving DecidableEq

/-- Body of the particle loop (lines 108-140) on the line just read. -/
def GROTrajectory.particleBody (g : GROTrajectory) (st : ParticleLoop) (line : List Char)
    (rest : List (List Char)) : Except Err ParticleLoop := do
  let p ← g.readLine line
  let r ← reconcile st.frame.getN st.cur_particle st.auto_number p.particle_id
  let frame ← store st.frame (toUnsigned r.1) p
  pure { frame := frame, cur_particle := st.cur_particle + 1, auto_number := r.2, rest := rest }

/-- The particle loop `while (cur_particle < N && getline(file, line))` (lines 106-141);
`todo` is `N - cur_particle`, the number of lines still wanted. -/
def GROTrajectory.particleLoop (g : GROTrajectory) : Nat → ParticleLoop → Except Err ParticleLoop
  | 0, st => .ok st
  | todo + 1, st =>
    match getline st.rest with
    | none => .ok st
    | some (line, rest) =>
      match g.particleBody st line rest with
      | .error e => .error e
      | .ok st1 => g.particleLoop todo st1

/-- Lines 62-79: the time that follows the first `t=` of the comment line. The position found
and the length of the line are held in `int`: `npos` becomes `-1`, and `found_time + 2`
beyond the largest `int` is undefined behaviour. -/
def readTime (line : List Char) : Except Err ℚ :=
  let found_time : Int :=
    match find ['t', '='] line with
    | some pos => toInt pos
    | none => -1
  if found_time ≥ 0 then
    if 2 ^ 31 ≤ found_time + 2 then .error .undefinedBehaviour
    else if found_time + 2 < toInt line.length then
      match extractDouble (line.drop (found_time + 2).toNat) with
      | some (time_step, _) => .ok time_step
      | none => .error .timeMustFollow
    else .error .timeRequired
  else .error .timeRequired

/-- Lines 156-184: the box of a box line. The first three fields are required; the nested
extractions stop at the first one that fails, each of them storing into its target also when
it fails, and the last of them has `v3.z` as target again. -/
def readBox (line : List Char) : Except Err TriclinicBox :=
  match extractDouble line with
  | none => .error .boxMustBeSpecified
  | some (v1x, s1) =>
  match extractDouble s1 with
  | none => .error .boxMustBeSpecified
  | some (v2y, s2) =>
  match extractDouble s2 with
  | none => .error .boxMustBeSpecified
  | some (v3z, s3) =>
    let v1 : Vector3 := ⟨v1x, 0, 0⟩
    let v2 : Vector3 := ⟨0, v2y, 0⟩
    let v3 : Vector3 := ⟨0, 0, v3z⟩
    match extractDouble s3 with
    | none => .ok ⟨{ v1 with y := failedDouble v1.y s3 }, v2, v3⟩
    | some (v1y, s4) =>
    let v1 := { v1 with y := v1y }
    match extractDouble s4 with
    | none => .ok ⟨{ v1 with z := failedDouble v1.z s4 }, v2, v3⟩
    | some (v1z, s5) =>
    let v1 := { v1 with z := v1z }
    match extractDouble s5 with
    | none => .ok ⟨v1, { v2 with x := failedDouble v2.x s5 }, v3⟩
    | some (v2x, s6) =>
    let v2 := { v2 with x := v2x }
    match extractDouble s6 with
    | none => .ok ⟨v1, { v2 with z := failedDouble v2.z s6 }, v3⟩
    | some (v2z, s7) =>
    let v2 := { v2 with z := v2z }
    match extractDouble s7 with
    | none => .ok ⟨v1, v2, { v3 with x := failedDouble v3.x s7 }⟩
    | some (v3x, s8) =>
    let v3 := { v3 with x := v3x }
    match extractDouble s8 with
    | none => .ok ⟨v1, v2, { v3 with z := failedDouble v3.z s8 }⟩
    | some (v3z9, _) =>
    let v3 := { v3 with z := v3z9 }
    .ok ⟨v1, v2, v3⟩

/-- One snapshot (lines 62-191), from its non-empty comment line `line` and the file `rest`
after it: the completed frame and the file after the box line. -/
def GROTrajectory.readSnapshot (g : GROTrajectory) (line : List Char) (rest : List (List Char)) :
    Except Err (Frame × List (List Char)) := do
  let time_step ← readTime line
  let (cur_frame, rest) ←
    match getline rest with
    | none => throw Err.numberOfParticles
    | some (line, rest) =>
      match extractUnsigned line with
      | none => throw Err.numberOfParticles
      | some (n_particles, _) => pure ((Frame.new n_particles).setTime time_step, rest)
  let st ← g.particleLoop cur_frame.getN
    { frame := cur_frame, cur_particle := 0, auto_number := false, rest := rest }
  if st.cur_particle < st.frame.getN then throw Err.countMismatch
  match getline st.rest with
  | none => throw Err.boxMustBeSpecified
  | some (line, rest) =>
    let box ← readBox line
    pure (st.frame.setBox box, rest)

/-- The loop `while (getline(file, line))` of `readFromFile` (lines 56-192) with `fuel`
iterations at most, appending to the frames already held. -/
def GROTrajectory.readLoop (g : GROTrajectory) : Nat → List (List Char) → List Frame →
    Except Err (List Frame)
  | 0, _, _ => .error .outOfFuel
  | fuel + 1, s, frames =>
    match getline s with
    | none => .ok frames
    | some (line, rest) =>
      if line.isEmpty then g.readLoop fuel rest frames
      else
        match g.readSnapshot line rest with
        | .error e => .error e
        | .ok (frame, rest1) => g.readLoop fuel rest1 (frames ++ [frame])

/-- `GROTrajectory::readFromFile` on the text of a file: every iteration consumes a line, so
one more iteration than there are lines is enough. -/
def GROTrajectory.readFromFile (g : GROTrajectory) (file : List Char) :
    Except Err GROTrajectory :=
  match g.readLoop ((fileLines file).length + 1) (fileLines file) g.frames with
  | .error e => .error e
  | .ok frames => .ok { g with frames := frames }

/-- The loop of `GROTrajectory::read` over the attached files; `fs` gives the text of a file
that can be opened. The counter `cur_f` is taken not to wrap: fewer than 2^32 files. -/
def GROTrajectory.readFiles (fs : String → Option (List Char)) :
    List String → GROTrajectory → Except Err GROTrajectory
  | [], g => .ok g
  | f :: files, g =>
    match fs f with
    | none => .error .cannotFindFile
    | some text =>
      match g.readFromFile text with
      | .error e => .error e
      | .ok g1 => readFiles fs files g1

/-- `GROTrajectory::read`: read every attached file, then clear the dirty flag. -/
def GROTrajectory.read (g : GROTrajectory) (fs : String → Option (List Char)) :
    Except Err GROTrajectory :=
  match GROTrajectory.readFiles fs g.files g with
  | .error e => .error e
  | .ok g1 => .ok { g1 with must_read_from_file := false }

/-! ## Helper definitions and the inputs the theorems are evaluated at -/

/-- The values the first `n` successive `>> double` extractions obtain from a line; the list
ends at the first extraction that fails. -/
def leadingFields : Nat → List Char → List ℚ
  | 0, _ => []
  | n + 1, s =>
    match extractDouble s with
    | none => []
    | some (v, r) => v :: leadingFields n r

/-- The text left after the first `n` successive `>> double` extractions from a line, or
after those that succeed when one of them fails. -/
def afterFields : Nat → List Char → List Char
  | 0, s => s
  | n + 1, s =>
    match extractDouble s with
    | none => s
    | some (_, r) => afterFields n r

/-- Frame `k` of a single particle named `A` that sits at `(k * s, 0, 0)`, with time `k`. -/
def uniformFrame (s : ℚ) (k : Nat) : Frame :=
  { positions := [⟨k * s, 0, 0⟩]
    velocities := [Vector3.zero]
    names := ["A"]
    time := k
    hasTime := true
    box := none }

/-- The compute of a trajectory of `F` frames in which one particle of the single type `A`
advances by `s` along x each frame, with origin spacing 1 and `A` selected for output. -/
def uniformMsd (F : Nat) (s : ℚ) : MeanSquaredDisplacement :=
  { traj :=
      { frames := (List.range F).map (uniformFrame s)
        n := 1
        numTypes := 1
        typeByName := fun _ => 0 }
    file_name := "msd"
    origins := 1
    type_names := ["A"] }

/-- Frame `k` of two particles: `A`, at `(k, 0, 0)`, and `B`, at rest at the origin. -/
def twoTypeFrame (k : Nat) : Frame :=
  { positions := [⟨k, 0, 0⟩, ⟨0, 0, 0⟩]
    velocities := [Vector3.zero, Vector3.zero]
    names := ["A", "B"]
    time := k
    hasTime := true
    box := none }

/-- A compute over two frames of `twoTypeFrame`, type `A` having index 0 and type `B` index 1,
with the given selection of output names. -/
def twoTypeMsd (selection : List String) : MeanSquaredDisplacement :=
  { traj :=
      { frames := [twoTypeFrame 0, twoTypeFrame 1]
        n := 2
        numTypes := 2
        typeByName := fun name => if name = "B" then 1 else 0 }
    file_name := "msd"
    origins := 1
    type_names := selection }

/-- The fixed-column field of width `w` that starts at column `20 + i * w` of a particle
line, converted by `strtod`. -/
def fieldAt (line : List Char) (w i : Nat) : ℚ := strtod ((line.drop (20 + i * w)).take w)

/-- The particle line of the spec's example, 53 characters long. -/
def specExampleLine : List Char :=
  "    1  Na    1    1.000 2.000 3.000 0.000 0.000 0.000".toList

/-- The same record laid out in the fixed columns of precision 3: residue number in `[0,5)`,
residue name in `[5,10)`, particle name in `[10,15)`, id in `[15,20)`, then six fields of
width 8. -/
def alignedExampleLine : List Char :=
  "    1Na      Na    1   1.000   2.000   3.000   0.000   0.000   0.000".toList

/-- Specification of the id reconciliation, in the words of the spec: line `k` of a snapshot
whose ids may run up to `bound` goes to slot `k` when the first line's id read 0, otherwise to
slot `id - 1` when `1 <= id <= bound`, and anything else is an error. -/
def specSlot (bound : Int) (first_id : Int) (k : Nat) (particle_id : Int) : Except Err Nat :=
  if first_id = 0 then .ok k
  else if 1 ≤ particle_id ∧ particle_id ≤ bound then .ok (particle_id - 1).toNat
  else .error .idsRun1ToN

/-- Specification of the particle loop on the lines it consumes: the lines, numbered from
`k`, are parsed by `readLine` and stored in the slot `specSlot` gives them. -/
def specParticles (g : GROTrajectory) (bound : Int) (first_id : Int) :
    Nat → Frame → List (List Char) → Except Err Frame
  | _, frame, [] => .ok frame
  | k, frame, line :: lines =>
    match g.readLine line with
    | .error e => .error e
    | .ok p =>
      match specSlot bound first_id k p.particle_id with
      | .error e => .error e
      | .ok slot =>
        match store frame slot p with
        | .error e => .error e
        | .ok frame1 => specParticles g bound first_id (k + 1) frame1 lines

/-- Specification of the particle loop of a snapshot: the first `N` lines of the file (fewer
if the file ends) are stored as `specParticles` says, the mode being set by the id of the
first of them; the result is the frame, the number of lines stored and the rest of the file. -/
def specParticleLoop (g : GROTrajectory) (bound : Int) (frame : Frame)
    (file : List (List Char)) : Except Err (Frame × Nat × List (List Char)) :=
  match file.take frame.getN with
  | [] => .ok (frame, 0, file)
  | line :: lines =>
    match g.readLine line with
    | .error e => .error e
    | .ok p =>
      match specParticles g bound p.particle_id 0 frame (line :: lines) with
      | .error e => .error e
      | .ok frame1 => .ok (frame1, (line :: lines).length, file.drop frame.getN)

/-- The part of the particle loop's state that outlives the loop. -/
def ParticleLoop.result (st : ParticleLoop) : Frame × Nat × List (List Char) :=
  (st.frame, st.cur_particle, st.rest)

/-- The mode of a snapshot whose first line read `first_id`, as the particle loop holds it
before line `k`: `auto_number` is on exactly when that id was 0, and line 0 is behind. -/
def ModeOf (auto_number : Bool) (first_id : Int) (k : Nat) : Prop :=
  (auto_number = true ∧ first_id = 0) ∨ (auto_number = false ∧ first_id ≠ 0 ∧ 0 < k)

/-- A frame of `n` particles: each of its three per-particle sequences has `n` slots. -/
def Frame.Sized (f : Frame) (n : Nat) : Prop :=
  f.positions.length = n ∧ f.velocities.length = n ∧ f.names.length = n

/-- A file of one snapshot of two particles whose ids read 1 and 2, at precision 3. -/
def twoParticleFile : List Char :=
  ("frame 0, t= 1.5\n2\n" ++
   "    1Na      Na    1   1.000   2.000   3.000   0.000   0.000   0.000\n" ++
   "    2Cl      Cl    2   4.000   5.000   6.000   0.000   0.000   0.000\n" ++
   "2.0 2.0 2.0\n").toList

/-- The same snapshot with the id 1 on both particle lines. -/
def duplicateIdFile : List Char :=
  ("frame 0, t= 1.5\n2\n" ++
   "    1Na      Na    1   1.000   2.000   3.000   0.100   0.200   0.300\n" ++
   "    2Cl      Cl    1   4.000   5.000   6.000   0.400   0.500   0.600\n" ++
   "2.0 2.0 2.0\n").toList

/-- The particle lines of a snapshot, parsed by `readLine`; `none` when one does not parse. -/
def parseLines (g : GROTrajectory) : List (List Char) → Option (List ParticleLine)
  | [] => some []
  | line :: lines =>
    match g.readLine line, parseLines g lines with
    | .ok p, some ps => some (p :: ps)
    | _, _ => none

/-- The id of the first particle line (`0` when there is no line). -/
def firstId (ps : List ParticleLine) : Int :=
  match ps with
  | [] => 0
  | p :: _ => p.particle_id

/-- The slot in which a successful read stores line `k`: `k` under auto-numbering (the first
id read 0), `id - 1` otherwise. -/
def slotOfLine (first_id : Int) (k : Nat) (p : ParticleLine) : Nat :=
  if first_id = 0 then k else (p.particle_id - 1).toNat

/-- The frame `readFromFile` builds from `twoParticleFile`. -/
def twoParticleFrame : Frame :=
  { positions := [⟨1, 2, 3⟩, ⟨4, 5, 6⟩]
    velocities := [⟨0, 0, 0⟩, ⟨0, 0, 0⟩]
    names := ["Na", "Cl"]
    time := 3 / 2
    hasTime := true
    box := some { v1 := ⟨2, 0, 0⟩, v2 := ⟨0, 2, 0⟩, v3 := ⟨0, 0, 2⟩ } }

/-- The three axes of the accumulators. -/
inductive Axis where
  | x
  | y
  | z
  deriving DecidableEq

/-- The component of a vector along an axis. -/
def Vector3.get (v : Vector3) : Axis → ℚ
  | .x => v.x
  | .y => v.y
  | .z => v.z

/-- The table of an axis. -/
def Msd.get (m : Msd) : Axis → List (List ℚ)
  | .x => m.x
  | .y => m.y
  | .z => m.z

/-- The entry `tbl[a][b]` of a table (`0` outside it). -/
def cell (tbl : List (List ℚ)) (a b : Nat) : ℚ := (tbl.getD a []).getD b 0

/-- A table of `rows` rows of `cols` entries each. -/
def Shaped (tbl : List (List ℚ)) (rows cols : Nat) : Prop :=
  tbl.length = rows ∧ ∀ row ∈ tbl, row.length = cols

/-- The position of particle `i` in frame `f` (zero outside the data). -/
def posAt (frames : List Frame) (f i : Nat) : Vector3 :=
  match frames[f]? with
  | some frame => frame.positions.getD i Vector3.zero
  | none => Vector3.zero

/-- The squared components of `p - q`. -/
def sqOf (p q : Vector3) : Vector3 :=
  ⟨(p.sub q).x * (p.sub q).x, (p.sub q).y * (p.sub q).y, (p.sub q).z * (p.sub q).z⟩

/-- The squared components of the displacement of particle `i` between frame `tau` and
frame `d`. -/
def sqDisp (frames : List Frame) (d tau i : Nat) : Vector3 :=
  sqOf (posAt frames d i) (posAt frames tau i)

/-- The type index of particle `i`: that of its name in the first frame. -/
def typeOf (traj : Trajectory) (i : Nat) : Nat :=
  match traj.frames[0]? with
  | some frame0 => traj.typeByName (frame0.names.getD i "")
  | none => 0

/-- What the particle loop of one (frame, origin) pair adds to the accumulator of axis `ax`
at type `a`: the squared displacements between frame `tau` and frame `d` of the particles
of type `a`. -/
def pairSum (traj : Trajectory) (ax : Axis) (a d tau : Nat) : ℚ :=
  Finset.sum (Finset.range traj.n)
    (fun i => if typeOf traj i = a then (sqDisp traj.frames d tau i).get ax else 0)

/-- The number of time origins registered up to and including frame `f`, for spacing `s`. -/
def originCount (s f : Nat) : Nat := f / s + 1

/-- The accumulator of axis `ax` at type `a` and lag `d` after the frames below `upto`, in
closed form: one term per pair `(f, tau)` with `tau` an origin position registered by frame
`f` and `f - tau = d`. -/
def accSpec (traj : Trajectory) (s : Nat) (ax : Axis) (upto a d : Nat) : ℚ :=
  Finset.sum (Finset.range upto) (fun f =>
    Finset.sum (Finset.range (originCount s f)) (fun tau =>
      if f - tau = d then pairSum traj ax a d tau else 0))

/-- The pair count of lag `d` after the frames below `upto`, in closed form. -/
def ntimeSpec (s upto d : Nat) : Nat :=
  Finset.sum (Finset.range upto) (fun f =>
    Finset.sum (Finset.range (originCount s f)) (fun tau => if f - tau = d then 1 else 0))

/-- What `evaluate` relies on: between 1 and `2 ^ 32 - 1` frames, a time on the first, every
frame holding the `getN()` particles of the trajectory, the type index of every particle below
the number of accumulator rows, and a non-zero origin spacing. -/
structure MeanSquaredDisplacement.WellFormed (m : MeanSquaredDisplacement) : Prop where
  frames_pos : 0 < m.traj.frames.length
  frames_lt : m.traj.frames.length < 2 ^ 32
  has_time : ∀ frame0, m.traj.frames[0]? = some frame0 → frame0.hasTime = true
  sized : ∀ frame, frame ∈ m.traj.frames → frame.Sized m.traj.n
  types_lt : ∀ i, i < m.traj.n → typeOf m.traj i < typeSize m.traj.numTypes
  origins_pos : 0 < m.origins

/-- The state of the accumulation pass before frame `f`: the tables have their allocated
shape, the origins registered so far are numbered `1, 2, ...`, and accumulators and pair
counts have their closed form. -/
structure EvalInv (m : MeanSquaredDisplacement) (f : Nat) (st : EvalState) : Prop where
  shaped : ∀ ax, Shaped (st.msd.get ax) (typeSize m.traj.numTypes) m.traj.frames.length
  ntime_len : st.ntime.length = m.traj.frames.length
  t0_eq : st.t0 = if f = 0 then 0 else originCount m.origins (f - 1)
  time0_eq : st.time0 = (List.range st.t0).map (fun t => t + 1)
  acc_eq : ∀ ax a b, cell (st.msd.get ax) a b = accSpec m.traj m.origins ax f a b
  ntime_eq : ∀ b, st.ntime.getD b 0 = ntimeSpec m.origins f b

/-- The line `evaluate` writes for frame (lag) `frame_idx` in the file of selection position
`cur_type`, which reports row `cur_type` of the accumulators. -/
def MeanSquaredDisplacement.reported (m : MeanSquaredDisplacement) (cur_type frame_idx : Nat) :
    Except Err Row :=
  match m.accumulate with
  | .error e => .error e
  | .ok st => rowOf m.traj.frames st cur_type frame_idx

/-- The accumulator of one particle that sits at `p f` in frame `f`, for `F` frames and origin
spacing `s`, at lag `d` of axis `ax`, in closed form. -/
def singleAcc (p : Nat → Vector3) (s F : Nat) (ax : Axis) (d : Nat) : ℚ :=
  Finset.sum (Finset.range F) (fun f =>
    Finset.sum (Finset.range (originCount s f)) (fun tau =>
      if f - tau = d then (sqOf (p d) (p tau)).get ax else 0))

/-- Frame `k` of `c` particles of type `A` that all sit at `(k, 0, 0)`, with time `k`. -/
def copiesFrame (c k : Nat) : Frame :=
  { positions := List.replicate c ⟨k, 0, 0⟩
    velocities := List.replicate c Vector3.zero
    names := List.replicate c "A"
    time := k
    hasTime := true
    box := none }

/-- The compute of two frames of `c` identical particles of the single type `A`, with origin
spacing 1 and `A` selected. -/
def copiesMsd (c : Nat) : MeanSquaredDisplacement :=
  { traj :=
      { frames := [copiesFrame c 0, copiesFrame c 1]
        n := c
        numTypes := 1
        typeByName := fun _ => 0 }
    file_name := "msd"
    origins := 1
    type_names := ["A"] }

/-- The trajectory holds exactly `c` particles of type index `k`, and each of them sits at
`p f` in every frame `f`. -/
def HasCopies (traj : Trajectory) (k c : Nat) (p : Nat → Vector3) : Prop :=
  ((Finset.range traj.n).filter (fun i => typeOf traj i = k)).card = c ∧
  ∀ i f, i < traj.n → typeOf traj i = k → f < traj.frames.length → posAt traj.frames f i = p f

/-- `MeanSquaredDisplacement::MeanSquaredDisplacement` (lines 11-15): the selection starts
empty (`reserve` allocates, it adds no name). -/
def MeanSquaredDisplacement.new (traj : Trajectory) (file_name : String) (origins : Nat) :
    MeanSquaredDisplacement :=
  { traj := traj, file_name := file_name, origins := origins, type_names := [] }

/-- The compute after a call of `deleteType`, whether it returned or threw: the throwing
branch (line 31) assigns nothing. -/
def MeanSquaredDisplacement.afterDeleteType (m : MeanSquaredDisplacement) (name : String) :
    MeanSquaredDisplacement :=
  match m.deleteType name with
  | .ok m1 => m1
  | .error _ => m

/-- A call of one of the two methods that change the selection. -/
inductive TypeCall where
  | add (name : String)
  | delete (name : String)

/-- The compute after one call. -/
def MeanSquaredDisplacement.afterCall (m : MeanSquaredDisplacement) :
    TypeCall → MeanSquaredDisplacement
  | .add name => m.addType name
  | .delete name => m.afterDeleteType name

/-- The compute after a sequence of calls, made in order. -/
def MeanSquaredDisplacement.afterCalls (m : MeanSquaredDisplacement)
    (calls : List TypeCall) : MeanSquaredDisplacement :=
  calls.foldl MeanSquaredDisplacement.afterCall m

/-- A trajectory of one frame without particles, for computes whose selection alone is of
interest. -/
def emptyTrajectory : Trajectory :=
  { frames := [Frame.new 0], n := 0, numTypes := 0, typeByName := fun _ => 0 }

/-- Frame `k` of one particle that sits at `(k, 0, 0)` and carries the given name. -/
def namedFrame (name : String) (k : Nat) : Frame :=
  { positions := [⟨k, 0, 0⟩]
    velocities := [Vector3.zero]
    names := [name]
    time := k
    hasTime := true
    box := none }

/-- A compute over two frames of one particle whose name is `A` (type index 0) in frame 0
and `second` in frame 1, type `B` having index 1. -/
def renamedMsd (second : String) : MeanSquaredDisplacement :=
  { traj :=
      { frames := [namedFrame "A" 0, namedFrame second 1]
        n := 1
        numTypes := 2
        typeByName := fun name => if name = "B" then 1 else 0 }
    file_name := "msd"
    origins := 1
    type_names := ["A", "B"] }

/-- The checks of lines 43-48 and the first `upto` iterations of the frame loop of `evaluate`
(`accumulate` is the walk over all frames). -/
def MeanSquaredDisplacement.walk (m : MeanSquaredDisplacement) (upto : Nat) :
    Except Err EvalState := do
  let frames := m.traj.frames
  let frame0 ← index frames 0
  if !frame0.hasTime then throw Err.needsTime
  let types := frame0.names
  if 2 ^ 32 ≤ frames.length then throw Err.nonTermination
  forLoop upto (frameBody m.traj m.origins frames types) (initState m.traj frames)

/-- Specification of the time origins, in the words of the spec: the frame indices below
`upto` that are 0 or evenly divisible by the spacing `s`, in order; its entry `tau` is the
frame registered as origin number `tau`. -/
def registeredFrames (s upto : Nat) : List Nat :=
  (List.range upto).filter (fun f => f = 0 ∨ f % s = 0)

/-- The number of frames `f` in `[d, F)` with `f - d <= floor(f / s)`. -/
def lagPairs (s F d : Nat) : Nat :=
  ((Finset.range F).filter (fun f => d ≤ f ∧ f - d ≤ f / s)).card

/-- The squared displacement along `ax` of particle `i` between frame `tau` and frame `d`,
written out. -/
def sqAlong (frames : List Frame) (ax : Axis) (d tau i : Nat) : ℚ :=
  ((posAt frames d i).get ax - (posAt frames tau i).get ax) ^ 2

/-- The part of the accumulation state that does not depend on the particles, before frame
`f`: the origin counter and list, and the pair counts in closed form. -/
structure CountInv (s F f : Nat) (st : EvalState) : Prop where
  ntime_len : st.ntime.length = F
  t0_eq : st.t0 = if f = 0 then 0 else originCount s (f - 1)
  time0_eq : st.time0 = (List.range st.t0).map (fun t => t + 1)
  ntime_eq : ∀ b, st.ntime.getD b 0 = ntimeSpec s f b

/-- Five frames of one particle of type `A` that advances by 1 along x each frame, with
origin spacing 2. -/
def spacedMsd : MeanSquaredDisplacement := { uniformMsd 5 1 with origins := 2 }

/-- The frames held when the loop of `readFromFile` (lines 56-192) ends or raises: a snapshot
is pushed once it is complete (line 191), and an exception leaves the frames pushed before. -/
def GROTrajectory.framesAfterLoop (g : GROTrajectory) :
    Nat → List (List Char) → List Frame → List Frame
  | 0, _, frames => frames
  | fuel + 1, s, frames =>
    match getline s with
    | none => frames
    | some (line, rest) =>
      if line.isEmpty then g.framesAfterLoop fuel rest frames
      else
        match g.readSnapshot line rest with
        | .error _ => frames
        | .ok (frame, rest1) => g.framesAfterLoop fuel rest1 (frames ++ [frame])

/-- The object the loop of `GROTrajectory::read` (lines 31-41) leaves behind, and whether the
loop ran to its end: an exception leaves the loop with the members as they are then. -/
def GROTrajectory.afterReadFiles (fs : String → Option (List Char)) :
    List String → GROTrajectory → GROTrajectory × Bool
  | [], g => (g, true)
  | f :: files, g =>
    match fs f with
    | none => (g, false)
    | some text =>
      match g.readFromFile text with
      | .error _ =>
        ({ g with frames :=
            g.framesAfterLoop ((fileLines text).length + 1) (fileLines text) g.frames }, false)
      | .ok g1 => afterReadFiles fs files g1

/-- The object a call of `GROTrajectory::read` leaves behind, whether the call returns or
raises: the assignment of line 42 is reached only when the loop ran to its end. -/
def GROTrajectory.afterRead (g : GROTrajectory) (fs : String → Option (List Char)) :
    GROTrajectory :=
  let r := GROTrajectory.afterReadFiles fs g.files g
  if r.2 then { r.1 with must_read_from_file := false } else r.1

/-- The frames of one file: what `readFromFile` pushes when it parses the text. -/
def GROTrajectory.fileFrames (g : GROTrajectory) (text : List Char) : Except Err (List Frame) :=
  g.readLoop ((fileLines text).length + 1) (fileLines text) []

/-- The frames of the files of a list, file after file; `none` when a file cannot be opened
or does not parse. -/
def GROTrajectory.attachedFrames (g : GROTrajectory) (fs : String → Option (List Char)) :
    List String → Option (List Frame)
  | [] => some []
  | f :: files =>
    match fs f with
    | none => none
    | some text =>
      match g.fileFrames text with
      | .error _ => none
      | .ok frames => (attachedFrames g fs files).map (fun later => frames ++ later)

/-- Two readers of the same precision. -/
def SameFormat (g1 g2 : GROTrajectory) : Prop :=
  g1.n_gro_digits = g2.n_gro_digits ∧ g1.gro_line_length = g2.gro_line_length

/-- The snapshot of `twoParticleFile` at a later time. -/
def laterFile : List Char :=
  ("frame 1, t= 2.5\n2\n" ++
   "    1Na      Na    1   1.000   2.000   3.000   0.000   0.000   0.000\n" ++
   "    2Cl      Cl    2   4.000   5.000   6.000   0.000   0.000   0.000\n" ++
   "2.0 2.0 2.0\n").toList

/-- The frame of `laterFile`. -/
def laterFrame : Frame := { twoParticleFrame with time := 5 / 2 }

/-- Two files that open, `a.gro` and `b.gro`; no other file does. -/
def exampleFiles (f : String) : Option (List Char) :=
  if f = "a.gro" then some twoParticleFile
  else if f = "b.gro" then some laterFile
  else none

/-- A reader of precision 3 that holds `held` and has the files `files` attached. -/
def attachedReader (files : List String) (held : List Frame) : GROTrajectory :=
  { GROTrajectory.new 3 with files := files, frames := held }

/-! ## Theorems -/

/-- C1 (evaluation at the failing input). For three frames of one particle at x = 0, 1, 2 and
origin spacing 1, `evaluate` writes x-values 5/3, 1/2 and 4 for the lags 0, 1 and 2: the lag 1
value is 1/2, not 1, and the lag 0 value is 5/3, not 0, because the displacement of the pair
(frame, origin) is taken between frame `delta_t` and frame `tau`. -/
theorem C1_uniform_motion_three_frames :
    (uniformMsd 3 1).evaluate = .ok [
      { name := "msd_A.dat"
        rows := [
          { time := 0, total := some (5 / 3), x := some (5 / 3), y := some 0, z := some 0 },
          { time := 1, total := some (1 / 2), x := some (1 / 2), y := some 0, z := some 0 },
          { time := 2, total := some 4, x := some 4, y := some 0, z := some 0 }] }] := by
  decide!

/-- C2 (evaluation at the failing input). With types `A` (index 0, moving) and `B` (index 1,
at rest) and only `B` selected, the file `msd_B.dat` reports row 0 of the accumulators, the
sums of `A`, while the sums of `B`, row `getTypeByName("B") = 1`, are all zero. -/
theorem C2_file_reports_row_of_selection_position :
    (twoTypeMsd ["B"]).evaluate = .ok [
      { name := "msd_B.dat"
        rows := [
          { time := 0, total := some (1 / 2), x := some (1 / 2), y := some 0, z := some 0 },
          { time := 1, total := some 1, x := some 1, y := some 0, z := some 0 }] }] ∧
    (twoTypeMsd ["B"]).traj.typeByName "B" = 1 ∧
    (twoTypeMsd ["B"]).accumulate.toOption.map (fun st => st.msd.x[1]?) = some (some [0, 0]) := by
  decide!

/-! ### `readLine` -/

theorem substr_ok (line : List Char) (pos n : Nat) (h : pos ≤ line.length) :
    substr line pos n = .ok ((line.drop pos).take n) := by
  unfold substr
  rw [if_neg (by omega)]

theorem new_widths (p : Nat) (hp : 21 + 5 * (p + 5) < 2 ^ 32) :
    (GROTrajectory.new p).n_gro_digits = p + 5 ∧
    (GROTrajectory.new p).gro_line_length = 21 + 5 * (p + 5) := by
  have h1 : (p + 5) % 2 ^ 32 = p + 5 := Nat.mod_eq_of_lt (by omega)
  have h2 : (21 + 5 * (p + 5)) % 2 ^ 32 = 21 + 5 * (p + 5) := Nat.mod_eq_of_lt hp
  simp only [GROTrajectory.new, h1, h2, and_self]

/-- C7 (as amended). For every precision `p` whose widths do not wrap around, that is with
`21 + 5 * (p + 5) < 2 ^ 32`, and every line, `readLine` raises the format error when the line
is shorter than `21 + 5 * (p + 5)` characters and otherwise returns normally, with the name
from columns `[10,15)`, the id from `[15,20)` and the six numbers from the fields of width
`p + 5` that start at `20`, `20 + (p + 5)`, ..., `20 + 5 * (p + 5)`: no extraction fails. -/
theorem C7_readLine_error_iff_short (p : Nat) (hp : 21 + 5 * (p + 5) < 2 ^ 32)
    (line : List Char) :
    (GROTrajectory.new p).readLine line =
      if line.length < 21 + 5 * (p + 5) then .error .lineTooShort
      else .ok
        { name := trim ((line.drop 10).take 5)
          particle_id := atoi ((line.drop 15).take 5)
          pos := ⟨fieldAt line (p + 5) 0, fieldAt line (p + 5) 1, fieldAt line (p + 5) 2⟩
          vel := ⟨fieldAt line (p + 5) 3, fieldAt line (p + 5) 4, fieldAt line (p + 5) 5⟩ } := by
  obtain ⟨hd, hl⟩ := new_widths p hp
  unfold GROTrajectory.readLine
  rw [hd, hl]
  by_cases hs : line.length < 21 + 5 * (p + 5)
  · simp [hs]
    rfl
  · have e1 : (20 + (p + 5)) % 2 ^ 32 = 20 + (p + 5) := Nat.mod_eq_of_lt (by omega)
    have e2 : (20 + (p + 5) + (p + 5)) % 2 ^ 32 = 20 + (p + 5) + (p + 5) :=
      Nat.mod_eq_of_lt (by omega)
    have e3 : (20 + (p + 5) + (p + 5) + (p + 5)) % 2 ^ 32 = 20 + (p + 5) + (p + 5) + (p + 5) :=
      Nat.mod_eq_of_lt (by omega)
    have e4 : (20 + (p + 5) + (p + 5) + (p + 5) + (p + 5)) % 2 ^ 32
        = 20 + (p + 5) + (p + 5) + (p + 5) + (p + 5) := Nat.mod_eq_of_lt (by omega)
    have e5 : (20 + (p + 5) + (p + 5) + (p + 5) + (p + 5) + (p + 5)) % 2 ^ 32
        = 20 + (p + 5) + (p + 5) + (p + 5) + (p + 5) + (p + 5) := Nat.mod_eq_of_lt (by omega)
    simp only [e1, e2, e3, e4, e5]
    rw [substr_ok line 10 5 (by omega), substr_ok line 15 5 (by omega),
      substr_ok line 20 _ (by omega), substr_ok line (20 + (p + 5)) _ (by omega),
      substr_ok line (20 + (p + 5) + (p + 5)) _ (by omega),
      substr_ok line (20 + (p + 5) + (p + 5) + (p + 5)) _ (by omega),
      substr_ok line (20 + (p + 5) + (p + 5) + (p + 5) + (p + 5)) _ (by omega),
      substr_ok line (20 + (p + 5) + (p + 5) + (p + 5) + (p + 5) + (p + 5)) _ (by omega)]
    have a0 : 20 + 0 * (p + 5) = 20 := by omega
    have a1 : 20 + 1 * (p + 5) = 20 + (p + 5) := by omega
    have a2 : 20 + 2 * (p + 5) = 20 + (p + 5) + (p + 5) := by omega
    have a3 : 20 + 3 * (p + 5) = 20 + (p + 5) + (p + 5) + (p + 5) := by omega
    have a4 : 20 + 4 * (p + 5) = 20 + (p + 5) + (p + 5) + (p + 5) + (p + 5) := by omega
    have a5 : 20 + 5 * (p + 5) = 20 + (p + 5) + (p + 5) + (p + 5) + (p + 5) + (p + 5) := by
      omega
    simp only [fieldAt, a0, a1, a2, a3, a4, a5, if_neg hs]
    rfl

/-- C7, witness: precision 3 and the aligned example line, 68 characters against a minimum
of 61. -/
theorem C7_readLine_error_iff_short_witness :
    21 + 5 * (3 + 5) < 2 ^ 32 ∧
    (GROTrajectory.new 3).readLine alignedExampleLine =
      if alignedExampleLine.length < 21 + 5 * (3 + 5) then .error .lineTooShort
      else .ok
        { name := trim ((alignedExampleLine.drop 10).take 5)
          particle_id := atoi ((alignedExampleLine.drop 15).take 5)
          pos := ⟨fieldAt alignedExampleLine (3 + 5) 0, fieldAt alignedExampleLine (3 + 5) 1,
                  fieldAt alignedExampleLine (3 + 5) 2⟩
          vel := ⟨fieldAt alignedExampleLine (3 + 5) 3, fieldAt alignedExampleLine (3 + 5) 4,
                  fieldAt alignedExampleLine (3 + 5) 5⟩ } :=
  ⟨by decide, C7_readLine_error_iff_short 3 (by decide) alignedExampleLine⟩

/-- C7 (counterexample). The widths are computed in `unsigned int`. With precision
`4294967291` the width `p + 5` wraps to `0` and the minimum length to `21`, so a line of 21
blanks is read although it is shorter than `21 + 5 * (p + 5)`; with precision `858993455` the
minimum length wraps to `25`, and a line of 25 blanks passes the length check but its second
numeric field starts outside the line, so `substr` throws. -/
theorem C7_counterexample_wrapped_widths :
    (21 < 21 + 5 * (4294967291 + 5) ∧
      (GROTrajectory.new 4294967291).readLine (List.replicate 21 ' ') =
        .ok { name := [], particle_id := 0, pos := ⟨0, 0, 0⟩, vel := ⟨0, 0, 0⟩ }) ∧
    ((GROTrajectory.new 858993455).gro_line_length = 25 ∧
      (GROTrajectory.new 858993455).readLine (List.replicate 25 ' ') =
        .error .substrOutOfRange) := by
  decide!

/-- C8 (counterexample). The line of the claim has 53 characters, fewer than the 61 that
precision 3 requires, so `readLine` raises the format error and yields no position. -/
theorem C8_counterexample_example_line_too_short :
    (GROTrajectory.new 3).readLine specExampleLine = .error .lineTooShort ∧
    ¬ ∃ r, (GROTrajectory.new 3).readLine specExampleLine = .ok r := by
  have h : (GROTrajectory.new 3).readLine specExampleLine = .error .lineTooShort := by decide!
  refine ⟨h, ?_⟩
  rintro ⟨r, hr⟩
  rw [h] at hr
  cases hr

/-- C8 (as amended). With precision 3 the minimum line length is 61; the 53-character line
of the claim is rejected with the format error, and the same record laid out in the fixed
columns parses to name `Na`, id 1, position (1, 2, 3) and velocity (0, 0, 0). -/
theorem C8_readLine_example_lines :
    (GROTrajectory.new 3).gro_line_length = 61 ∧
    specExampleLine.length = 53 ∧
    (GROTrajectory.new 3).readLine specExampleLine = .error .lineTooShort ∧
    (GROTrajectory.new 3).readLine alignedExampleLine =
      .ok { name := ['N', 'a'], particle_id := 1, pos := ⟨1, 2, 3⟩, vel := ⟨0, 0, 0⟩ } := by
  decide!

/-! ### The box line -/

theorem failedDouble_zero (s : List Char) : failedDouble 0 s = 0 := by
  unfold failedDouble
  split <;> rfl

theorem readBox_eq_fields (line : List Char) :
    readBox line =
      if (leadingFields 9 line).length < 3 then .error .boxMustBeSpecified
      else .ok
        { v1 := ⟨(leadingFields 9 line).getD 0 0, (leadingFields 9 line).getD 3 0,
                 (leadingFields 9 line).getD 4 0⟩
          v2 := ⟨(leadingFields 9 line).getD 5 0, (leadingFields 9 line).getD 1 0,
                 (leadingFields 9 line).getD 6 0⟩
          v3 := ⟨(leadingFields 9 line).getD 7 0, 0,
                 if (leadingFields 9 line).length = 8 then
                   failedDouble ((leadingFields 9 line).getD 2 0) (afterFields 8 line)
                 else (leadingFields 9 line).getD 8 ((leadingFields 9 line).getD 2 0)⟩ } := by
  unfold readBox
  simp only [leadingFields, afterFields]
  rcases h1 : extractDouble line with _ | ⟨a1, s1⟩
  · simp
  rcases h2 : extractDouble s1 with _ | ⟨a2, s2⟩
  · simp [h2]
  rcases h3 : extractDouble s2 with _ | ⟨a3, s3⟩
  · simp [h2, h3]
  rcases h4 : extractDouble s3 with _ | ⟨a4, s4⟩
  · simp [h2, h3, h4, failedDouble_zero]
  rcases h5 : extractDouble s4 with _ | ⟨a5, s5⟩
  · simp [h2, h3, h4, h5, failedDouble_zero]
  rcases h6 : extractDouble s5 with _ | ⟨a6, s6⟩
  · simp [h2, h3, h4, h5, h6, failedDouble_zero]
  rcases h7 : extractDouble s6 with _ | ⟨a7, s7⟩
  · simp [h2, h3, h4, h5, h6, h7, failedDouble_zero]
  rcases h8 : extractDouble s7 with _ | ⟨a8, s8⟩
  · simp [h2, h3, h4, h5, h6, h7, h8, failedDouble_zero]
  rcases h9 : extractDouble s8 with _ | ⟨a9, s9⟩
  · simp [h2, h3, h4, h5, h6, h7, h8, h9]
  · simp [h2, h3, h4, h5, h6, h7, h8, h9]

/-- C9 (evaluation at the failing input). On a box line of nine fields the ninth is written
to `v3.z`, replacing the third: `1 2 3 4 5 6 7 8 9` gives `v3 = (8, 0, 9)`. -/
theorem C9_ninth_field_overwrites_v3z :
    readBox "1 2 3 4 5 6 7 8 9".toList =
      .ok { v1 := ⟨1, 4, 5⟩, v2 := ⟨6, 2, 7⟩, v3 := ⟨8, 0, 9⟩ } := by
  decide!

theorem toInt_of_lt {u : Nat} (h : u < 2 ^ 31) : toInt u = (u : Int) := by
  unfold toInt
  have h1 : u % 2 ^ 32 = u := Nat.mod_eq_of_lt (by omega)
  rw [h1, if_pos h]

theorem toInt_le (u : Nat) : toInt u ≤ (u : Int) := by
  unfold toInt
  have h1 : u % 2 ^ 32 ≤ u := Nat.mod_le _ _
  split <;> omega

theorem toUnsigned_toInt {u : Nat} (h : u < 2 ^ 32) : toUnsigned (toInt u) = u := by
  unfold toUnsigned toInt
  have h1 : u % 2 ^ 32 = u := Nat.mod_eq_of_lt h
  rw [h1]
  split <;> omega

theorem toUnsigned_of_nonneg {i : Int} (h0 : 0 ≤ i) (h : i < 2 ^ 32) :
    toUnsigned i = i.toNat := by
  unfold toUnsigned
  rw [Int.emod_eq_of_lt h0 h]

theorem toInt_lt (u : Nat) : toInt u < 2 ^ 31 := by
  unfold toInt
  have h1 : u % 2 ^ 32 < 2 ^ 32 := Nat.mod_lt _ (by decide)
  split <;> omega

theorem reconcile_eq_spec (n k : Nat) (auto_number : Bool) (particle_id first_id : Int)
    (hk : k < 2 ^ 32) (hmode : ModeOf auto_number first_id k) :
    (reconcile n k auto_number particle_id).map (fun r => (toUnsigned r.1, r.2)) =
      (specSlot (toInt n) first_id k particle_id).map (fun s => (s, auto_number)) := by
  have hb := toInt_lt n
  rcases hmode with ⟨ha, hf⟩ | ⟨ha, hf, hk0⟩
  · subst ha
    simp [reconcile, specSlot, hf, Except.map, toUnsigned_toInt hk]
  · subst ha
    have hk1 : k ≠ 0 := by omega
    by_cases hid : 0 < particle_id ∧ particle_id ≤ toInt n
    · have h1 : 1 ≤ particle_id ∧ particle_id ≤ toInt n := ⟨by omega, hid.2⟩
      have hu : toUnsigned (particle_id - 1) = (particle_id - 1).toNat :=
        toUnsigned_of_nonneg (by omega) (by omega)
      simp [reconcile, specSlot, hf, Except.map, hid.1, hid.2, h1.1, hu]
    · have h1 : ¬ (1 ≤ particle_id ∧ particle_id ≤ toInt n) := fun h => hid ⟨by omega, h.2⟩
      simp only [reconcile, specSlot, hf, Except.map, if_false, if_neg h1]
      have : (decide (particle_id > 0) && decide (particle_id ≤ toInt n)) = false := by
        simpa using fun h => by simpa using fun h2 => hid ⟨h, h2⟩
      simp [this, hk1]

theorem reconcile_first_eq_spec (n : Nat) (particle_id : Int) :
    (reconcile n 0 false particle_id).map (fun r => (toUnsigned r.1, r.2)) =
      (specSlot (toInt n) particle_id 0 particle_id).map
        (fun s => (s, decide (particle_id = 0))) := by
  have hb := toInt_lt n
  by_cases h0 : particle_id = 0
  · subst h0
    simp [reconcile, specSlot, Except.map, toInt, toUnsigned]
  · by_cases hid : 0 < particle_id ∧ particle_id ≤ toInt n
    · have hu : toUnsigned (particle_id - 1) = (particle_id - 1).toNat :=
        toUnsigned_of_nonneg (by omega) (by omega)
      have h1 : 1 ≤ particle_id := by omega
      simp [reconcile, specSlot, h0, Except.map, hid.1, hid.2, h1, hu]
    · have h1 : ¬ (1 ≤ particle_id ∧ particle_id ≤ toInt n) := fun h => hid ⟨by omega, h.2⟩
      simp only [reconcile, specSlot, h0, Except.map, if_false, if_neg h1]
      have : (decide (particle_id > 0) && decide (particle_id ≤ toInt n)) = false := by
        simpa using fun h => by simpa using fun h2 => hid ⟨h, h2⟩
      simp [this, h0]

theorem store_eq (frame : Frame) (slot : Nat) (p : ParticleLine) :
    store frame slot p =
      if (0 < p.name.length → slot < frame.names.length) ∧ slot < frame.positions.length ∧
          slot < frame.velocities.length then
        .ok { frame with
              names := if 0 < p.name.length then frame.names.set slot (String.mk p.name)
                       else frame.names
              positions := frame.positions.set slot p.pos
              velocities := frame.velocities.set slot p.vel }
      else .error .setterOutOfRange := by
  unfold store
  by_cases hn : 0 < p.name.length <;> by_cases h1 : slot < frame.names.length <;>
    by_cases h2 : slot < frame.positions.length <;>
    by_cases h3 : slot < frame.velocities.length <;>
    simp [Frame.setName, Frame.setPosition, Frame.setVelocity, bind, Except.bind, pure,
      Except.pure, hn, h1, h2, h3]

theorem store_ok {frame frame1 : Frame} {slot : Nat} {p : ParticleLine}
    (h : store frame slot p = .ok frame1) :
    slot < frame.positions.length ∧ slot < frame.velocities.length ∧
    frame1.positions = frame.positions.set slot p.pos ∧
    frame1.velocities = frame.velocities.set slot p.vel ∧
    frame1.names.length = frame.names.length ∧
    frame1.time = frame.time ∧ frame1.hasTime = frame.hasTime ∧ frame1.box = frame.box := by
  rw [store_eq] at h
  split at h
  · rename_i hc
    cases h
    refine ⟨hc.2.1, hc.2.2, rfl, rfl, ?_, rfl, rfl, rfl⟩
    simp only []
    split <;> simp
  · cases h

theorem store_getN {frame frame1 : Frame} {slot : Nat} {p : ParticleLine}
    (h : store frame slot p = .ok frame1) : frame1.getN = frame.getN := by
  have := store_ok h
  simp [Frame.getN, this.2.2.1]

theorem particleLoop_eq_spec (g : GROTrajectory) (n : Nat) (first_id : Int) :
    ∀ (todo : Nat) (st : ParticleLoop), st.frame.getN = n →
      st.cur_particle + todo ≤ 2 ^ 32 → ModeOf st.auto_number first_id st.cur_particle →
      (g.particleLoop todo st).map ParticleLoop.result =
        (specParticles g (toInt n) first_id st.cur_particle st.frame (st.rest.take todo)).map
          (fun f => (f, st.cur_particle + (st.rest.take todo).length, st.rest.drop todo)) := by
  intro todo
  induction todo with
  | zero =>
    intro st _ _ _
    simp [GROTrajectory.particleLoop, specParticles, Except.map, ParticleLoop.result]
  | succ todo ih =>
    intro st hn hk hmode
    rcases hrest : st.rest with _ | ⟨line, rest⟩
    · simp [GROTrajectory.particleLoop, hrest, getline, specParticles, Except.map,
        ParticleLoop.result]
    · simp only [GROTrajectory.particleLoop, hrest, getline, List.take_succ_cons, specParticles,
        GROTrajectory.particleBody, bind, Except.bind, pure, Except.pure]
      rcases hp : g.readLine line with e | p
      · simp [Except.map]
      · have hrec := reconcile_eq_spec n st.cur_particle st.auto_number p.particle_id first_id
          (by omega) hmode
        rw [hn]
        simp only []
        rcases hr : reconcile n st.cur_particle st.auto_number p.particle_id with e | r <;>
          rcases hs : specSlot (toInt n) first_id st.cur_particle p.particle_id with e1 | s <;>
          rw [hr, hs] at hrec <;> simp only [Except.map, Except.error.injEq, Except.ok.injEq,
            Prod.mk.injEq, reduceCtorEq] at hrec
        · simp [Except.map, hrec]
        · obtain ⟨hslot, hauto⟩ := hrec
          simp only [hslot]
          rcases hst : store st.frame s p with e2 | frame1
          · simp [Except.map]
          · simp only []
            have hmode1 : ModeOf r.2 first_id (st.cur_particle + 1) := by
              rw [hauto]
              rcases hmode with h | ⟨h1, h2, _⟩
              · exact Or.inl h
              · exact Or.inr ⟨h1, h2, by omega⟩
            have := ih { frame := frame1, cur_particle := st.cur_particle + 1,
                         auto_number := r.2, rest := rest }
              (by simpa [hn] using store_getN hst) (by simp only; omega) hmode1
            simp only [] at this
            rw [this]
            cases specParticles g (toInt n) first_id (st.cur_particle + 1) frame1
              (List.take todo rest) <;> simp [Except.map]
            omega

theorem substr_error {line : List Char} {pos n : Nat} {e : Err}
    (h : substr line pos n = .error e) : e = .substrOutOfRange := by
  unfold substr at h
  split at h
  · cases h
    rfl
  · cases h

theorem readLine_error {g : GROTrajectory} {line : List Char} {e : Err}
    (h : g.readLine line = .error e) : e = .lineTooShort ∨ e = .substrOutOfRange := by
  unfold GROTrajectory.readLine at h
  simp only [bind, Except.bind, pure, Except.pure, throw, throwThe, MonadExceptOf.throw] at h
  split at h
  · cases h
    exact Or.inl rfl
  · repeat' split at h
    all_goals first
      | (cases h; exact Or.inr (substr_error (by assumption)))
      | cases h

theorem readTime_error {line : List Char} {e : Err}
    (h : readTime line = .error e) :
    e = .timeMustFollow ∨ e = .timeRequired ∨ e = .undefinedBehaviour := by
  unfold readTime at h
  simp only [] at h
  repeat' split at h
  all_goals first
    | (cases h; simp)
    | cases h

theorem readBox_error {line : List Char} {e : Err}
    (h : readBox line = .error e) : e = .boxMustBeSpecified := by
  rw [readBox_eq_fields] at h
  split at h
  · cases h
    rfl
  · cases h

theorem Frame.new_sized (n : Nat) (t : ℚ) : ((Frame.new n).setTime t).Sized n := by
  simp [Frame.Sized, Frame.new, Frame.setTime]

theorem toUnsigned_toInt_le (u : Nat) : toUnsigned (toInt u) ≤ u := by
  unfold toUnsigned toInt
  have h1 : u % 2 ^ 32 ≤ u := Nat.mod_le _ _
  have h2 : u % 2 ^ 32 < 2 ^ 32 := Nat.mod_lt _ (by decide)
  split <;> omega

theorem reconcile_slot_lt {n k : Nat} {auto_number : Bool} {particle_id : Int}
    {r : Int × Bool} (hk : k < n)
    (h : reconcile n k auto_number particle_id = .ok r) : toUnsigned r.1 < n := by
  have hb := toInt_lt n
  have hle := toInt_le n
  unfold reconcile at h
  split at h
  · rename_i hc
    simp only [Bool.and_eq_true, Bool.not_eq_true', decide_eq_true_eq] at hc
    cases h
    simp only []
    rw [toUnsigned_of_nonneg (by omega) (by omega)]
    omega
  · split at h
    · cases h
      simp only []
      have := toUnsigned_toInt_le k
      omega
    · cases h

theorem store_sized {frame : Frame} {n slot : Nat} (p : ParticleLine)
    (hs : frame.Sized n) (hslot : slot < n) :
    ∃ frame1, store frame slot p = .ok frame1 ∧ frame1.Sized n := by
  obtain ⟨h1, h2, h3⟩ := hs
  rw [store_eq, if_pos ⟨fun _ => by omega, by omega, by omega⟩]
  refine ⟨_, rfl, ?_⟩
  refine ⟨by simp [h1], by simp [h2], ?_⟩
  simp only []
  split <;> simp [h3]

theorem particleLoop_sized (g : GROTrajectory) (n : Nat) :
    ∀ (todo : Nat) (st : ParticleLoop), st.frame.Sized n → st.cur_particle + todo ≤ n →
      g.particleLoop todo st ≠ .error .setterOutOfRange ∧
      ∀ st1, g.particleLoop todo st = .ok st1 → st1.frame.Sized n := by
  intro todo
  induction todo with
  | zero =>
    intro st hs _
    simp only [GROTrajectory.particleLoop]
    refine ⟨by simp, ?_⟩
    intro st1 h
    cases h
    exact hs
  | succ todo ih =>
    intro st hs hk
    rcases hrest : st.rest with _ | ⟨line, rest⟩
    · simp only [GROTrajectory.particleLoop, hrest, getline]
      refine ⟨by simp, ?_⟩
      intro st1 h
      cases h
      exact hs
    · simp only [GROTrajectory.particleLoop, hrest, getline, GROTrajectory.particleBody, bind,
        Except.bind, pure, Except.pure]
      rcases hp : g.readLine line with e | p
      · simp only []
        refine ⟨?_, by simp⟩
        intro h
        cases h
        rcases readLine_error hp with h | h <;> cases h
      · simp only []
        have hgetN : st.frame.getN = n := hs.1
        rw [hgetN]
        rcases hr : reconcile n st.cur_particle st.auto_number p.particle_id with e | r
        · simp only []
          refine ⟨?_, by simp⟩
          intro h
          cases h
          unfold reconcile at hr
          repeat' split at hr
          all_goals cases hr
        · simp only []
          obtain ⟨frame1, hst, hs1⟩ := store_sized p hs (reconcile_slot_lt (by omega) hr)
          rw [hst]
          exact ih { frame := frame1, cur_particle := st.cur_particle + 1,
                     auto_number := r.2, rest := rest } hs1 (by simp only; omega)

theorem readSnapshot_no_setter_error (g : GROTrajectory) (line : List Char)
    (rest : List (List Char)) : g.readSnapshot line rest ≠ .error .setterOutOfRange := by
  intro h
  unfold GROTrajectory.readSnapshot at h
  simp only [bind, Except.bind, pure, Except.pure, throw, throwThe, MonadExceptOf.throw] at h
  rcases ht : readTime line with e | t
  · rw [ht] at h
    cases h
    rcases readTime_error ht with h | h | h <;> cases h
  · rw [ht] at h
    simp only [] at h
    rcases hg : getline rest with _ | ⟨cline, rest1⟩
    · rw [hg] at h
      cases h
    · rw [hg] at h
      simp only [] at h
      rcases hn : extractUnsigned cline with _ | ⟨n, r⟩
      · rw [hn] at h
        cases h
      · rw [hn] at h
        simp only [] at h
        have hs := Frame.new_sized n t
        have hgetN : ((Frame.new n).setTime t).getN = n := hs.1
        rw [hgetN] at h
        have hloop := particleLoop_sized g n n
          { frame := (Frame.new n).setTime t, cur_particle := 0, auto_number := false,
            rest := rest1 } hs (by simp)
        rcases hl : g.particleLoop n
          { frame := (Frame.new n).setTime t, cur_particle := 0, auto_number := false,
            rest := rest1 } with e | st
        · rw [hl] at h
          cases h
          exact hloop.1 hl
        · rw [hl] at h
          simp only [] at h
          split at h
          · cases h
          · rcases hb : getline st.rest with _ | ⟨bline, rest2⟩
            · rw [hb] at h
              cases h
            · rw [hb] at h
              simp only [] at h
              rcases hbox : readBox bline with e | box
              · rw [hbox] at h
                cases h
                cases readBox_error hbox
              · rw [hbox] at h
                cases h

theorem readLoop_no_setter_error (g : GROTrajectory) :
    ∀ (fuel : Nat) (file : List (List Char)) (frames : List Frame),
      g.readLoop fuel file frames ≠ .error .setterOutOfRange := by
  intro fuel
  induction fuel with
  | zero =>
    intro file frames h
    cases h
  | succ fuel ih =>
    intro file frames h
    unfold GROTrajectory.readLoop at h
    rcases hg : getline file with _ | ⟨line, rest⟩
    · rw [hg] at h
      cases h
    · rw [hg] at h
      simp only [] at h
      split at h
      · exact ih _ _ h
      · rcases hs : g.readSnapshot line rest with e | ⟨frame, rest1⟩
        · rw [hs] at h
          cases h
          exact readSnapshot_no_setter_error g line rest hs
        · rw [hs] at h
          exact ih _ _ h

/-- C6. Whatever the text of the file, `readFromFile` never calls `Frame::setName`,
`Frame::setPosition` or `Frame::setVelocity` with an index outside `[0, N)`: the read never
ends in the setters' out-of-range failure, because the slot `reconcile` returns for line
`k < N` is below `N` in the literal-id branch as in the auto-numbering branch. -/
theorem C6_setter_indices_in_range (g : GROTrajectory) (file : List Char) :
    g.readFromFile file ≠ .error .setterOutOfRange ∧
    ∀ (n k : Nat) (auto_number : Bool) (particle_id : Int) (r : Int × Bool), k < n →
      reconcile n k auto_number particle_id = .ok r → toUnsigned r.1 < n := by
  refine ⟨?_, fun n k a i r hk h => reconcile_slot_lt hk h⟩
  intro h
  unfold GROTrajectory.readFromFile at h
  rcases hl : g.readLoop ((fileLines file).length + 1) (fileLines file) g.frames with e | fs
  · rw [hl] at h
    cases h
    exact readLoop_no_setter_error g _ _ _ hl
  · rw [hl] at h
    cases h

/-- C6, witness: the two-particle file is read without a setter failure, and the second of
two lines (`k = 1`, `N = 2`) with id 2 goes to slot 1. -/
theorem C6_setter_indices_in_range_witness :
    (GROTrajectory.new 3).readFromFile twoParticleFile ≠ .error .setterOutOfRange ∧
    (1 < 2 ∧ reconcile 2 1 false 2 = .ok (1, false) ∧ toUnsigned ((1, false) : Int × Bool).1 < 2) :=
  ⟨(C6_setter_indices_in_range (GROTrajectory.new 3) twoParticleFile).1,
   by decide, by decide,
   (C6_setter_indices_in_range (GROTrajectory.new 3) twoParticleFile).2 2 1 false 2 (1, false)
     (by decide) (by decide)⟩

theorem particleLoop_eq_specParticleLoop (g : GROTrajectory) (frame : Frame)
    (file : List (List Char)) (hN : frame.getN ≤ 2 ^ 32) :
    (g.particleLoop frame.getN
        { frame := frame, cur_particle := 0, auto_number := false, rest := file }).map
        ParticleLoop.result
      = specParticleLoop g (toInt frame.getN) frame file := by
  unfold specParticleLoop
  rcases hn : frame.getN with _ | m
  · simp [GROTrajectory.particleLoop, Except.map, ParticleLoop.result]
  · rcases file with _ | ⟨line, rest⟩
    · simp [GROTrajectory.particleLoop, getline, Except.map, ParticleLoop.result]
    · simp only [GROTrajectory.particleLoop, getline, List.take_succ_cons, specParticles,
        GROTrajectory.particleBody, bind, Except.bind, pure, Except.pure]
      rcases hp : g.readLine line with e | p
      · simp [Except.map]
      · simp only []
        have hrec := reconcile_first_eq_spec (m + 1) p.particle_id
        rw [hn]
        rcases hr : reconcile (m + 1) 0 false p.particle_id with e | r <;>
          rcases hs : specSlot (toInt (m + 1)) p.particle_id 0 p.particle_id with e1 | s <;>
          rw [hr, hs] at hrec <;> simp only [Except.map, Except.error.injEq,
            Except.ok.injEq, Prod.mk.injEq, reduceCtorEq] at hrec
        · simp [Except.map, hrec]
        · obtain ⟨hslot, hauto⟩ := hrec
          simp only [hslot]
          rcases hst : store frame s p with e2 | frame1
          · simp [Except.map]
          · simp only []
            have hmode1 : ModeOf r.2 p.particle_id (0 + 1) := by
              rw [hauto]
              by_cases h0 : p.particle_id = 0
              · exact Or.inl ⟨by simp [h0], h0⟩
              · exact Or.inr ⟨by simp [h0], h0, by omega⟩
            have := particleLoop_eq_spec g (m + 1) p.particle_id m
              { frame := frame1, cur_particle := 0 + 1, auto_number := r.2, rest := rest }
              (by simpa [hn] using store_getN hst) (by simp only; omega) hmode1
            simp only [] at this
            rw [this]
            cases specParticles g (toInt (m + 1)) p.particle_id (0 + 1) frame1
              (List.take m rest) <;> simp [Except.map]
            omega

/-- C4 (as amended). For a snapshot of `N < 2 ^ 31` particles, the particle loop of
`readFromFile` does what the specification `specParticleLoop` says: line `k` is stored at slot
`k` when the id of the first line read 0, whatever the later ids read; otherwise at slot
`id - 1` when `1 <= id <= N`; any other id ends the read with "particle ids run 1 to N". In
particular an id of 0 on a later line (`k > 0`) without auto-numbering is that error. -/
theorem C4_particle_loop_refines_spec (g : GROTrajectory) (frame : Frame)
    (file : List (List Char)) (hN : frame.getN < 2 ^ 31) :
    (g.particleLoop frame.getN
        { frame := frame, cur_particle := 0, auto_number := false, rest := file }).map
        ParticleLoop.result
      = specParticleLoop g (frame.getN : Int) frame file ∧
    ∀ k, 0 < k → reconcile frame.getN k false 0 = .error .idsRun1ToN := by
  constructor
  · rw [← toInt_of_lt hN]
    exact particleLoop_eq_specParticleLoop g frame file (by omega)
  · intro k hk
    have hk0 : k ≠ 0 := by omega
    simp [reconcile, hk0]

/-- C4, witness: the particle lines of the two-particle file, read into a frame of two
particles. -/
theorem C4_particle_loop_refines_spec_witness :
    (Frame.new 2).getN < 2 ^ 31 ∧
    ((GROTrajectory.new 3).particleLoop (Frame.new 2).getN
        { frame := Frame.new 2, cur_particle := 0, auto_number := false,
          rest := (fileLines twoParticleFile).drop 2 }).map ParticleLoop.result
      = specParticleLoop (GROTrajectory.new 3) ((Frame.new 2).getN : Int) (Frame.new 2)
          ((fileLines twoParticleFile).drop 2) :=
  ⟨by decide,
   (C4_particle_loop_refines_spec (GROTrajectory.new 3) (Frame.new 2)
     ((fileLines twoParticleFile).drop 2) (by decide)).1⟩

/-- C4 (counterexample). The comparison `particle_id <= (int)N` is made in `int`: for a
snapshot of `N = 2 ^ 31` particles the cast is negative, so the id 1 on the first line, which
the claim sends to slot 0, ends the read with "particle ids run 1 to N". -/
theorem C4_counterexample_count_beyond_int :
    reconcile 2147483648 0 false 1 = .error .idsRun1ToN ∧
    specSlot 2147483648 1 0 1 = .ok 0 := by
  decide

theorem specSlot_ok {bound first_id : Int} {k s : Nat} {p : ParticleLine}
    (h : specSlot bound first_id k p.particle_id = .ok s) :
    s = slotOfLine first_id k p ∧ (first_id ≠ 0 → 1 ≤ p.particle_id) := by
  unfold specSlot at h
  unfold slotOfLine
  split at h
  · rename_i h0
    cases h
    simp [h0]
  · rename_i h0
    split at h
    · rename_i hc
      cases h
      simp [h0, hc.1]
    · cases h

theorem specParticles_ok (g : GROTrajectory) (bound first_id : Int) (n : Nat) :
    ∀ (lines : List (List Char)) (k : Nat) (frame frame1 : Frame), frame.Sized n →
      specParticles g bound first_id k frame lines = .ok frame1 →
      ∃ ps, parseLines g lines = some ps ∧ ps.length = lines.length ∧ frame1.Sized n ∧
        (∀ j p, ps[j]? = some p →
          slotOfLine first_id (k + j) p < n ∧ (first_id ≠ 0 → 1 ≤ p.particle_id)) ∧
        (∀ i, (∀ j p, ps[j]? = some p → slotOfLine first_id (k + j) p ≠ i) →
          frame1.positions[i]? = frame.positions[i]? ∧
          frame1.velocities[i]? = frame.velocities[i]?) ∧
        ((∀ j1 j2 p1 p2, ps[j1]? = some p1 → ps[j2]? = some p2 →
            slotOfLine first_id (k + j1) p1 = slotOfLine first_id (k + j2) p2 → j1 = j2) →
          ∀ j p, ps[j]? = some p →
            frame1.positions[slotOfLine first_id (k + j) p]? = some p.pos ∧
            frame1.velocities[slotOfLine first_id (k + j) p]? = some p.vel) := by
  intro lines
  induction lines with
  | nil =>
    intro k frame frame1 hs h
    simp only [specParticles] at h
    cases h
    exact ⟨[], rfl, rfl, hs, by simp, by simp, by simp⟩
  | cons line lines ih =>
    intro k frame frame1 hs h
    simp only [specParticles] at h
    rcases hp : g.readLine line with e | p0
    · rw [hp] at h
      cases h
    rw [hp] at h
    simp only [] at h
    rcases hsl : specSlot bound first_id k p0.particle_id with e | s0
    · rw [hsl] at h
      cases h
    rw [hsl] at h
    simp only [] at h
    rcases hst : store frame s0 p0 with e | frameA
    · rw [hst] at h
      cases h
    rw [hst] at h
    simp only [] at h
    obtain ⟨hs0, hid0⟩ := specSlot_ok hsl
    obtain ⟨hlt1, hlt2, hpos, hvel, hnames, -, -, -⟩ := store_ok hst
    have hsA : frameA.Sized n := by
      refine ⟨?_, ?_, ?_⟩
      · rw [hpos, List.length_set]
        exact hs.1
      · rw [hvel, List.length_set]
        exact hs.2.1
      · rw [hnames]
        exact hs.2.2
    obtain ⟨ps, hparse, hlen, hs1, hbound, hkeep, hwrite⟩ := ih (k + 1) frameA frame1 hsA h
    have hshift : ∀ j, k + 1 + j = k + (j + 1) := fun j => by omega
    refine ⟨p0 :: ps, ?_, by simp [hlen], hs1, ?_, ?_, ?_⟩
    · simp [parseLines, hp, hparse]
    · intro j p hj
      rcases j with _ | j
      · simp only [List.getElem?_cons_zero, Option.some.injEq] at hj
        subst hj
        rw [Nat.add_zero, ← hs0]
        exact ⟨by rw [← hs.1]; exact hlt1, hid0⟩
      · rw [List.getElem?_cons_succ] at hj
        rw [← hshift]
        exact hbound j p hj
    · intro i hi
      have h0 : s0 ≠ i := by
        have := hi 0 p0 (by simp)
        rwa [Nat.add_zero, ← hs0] at this
      have hrest := hkeep i (fun j p hj => by
        have := hi (j + 1) p (by simpa using hj)
        rwa [← hshift] at this)
      rw [hrest.1, hrest.2, hpos, hvel]
      exact ⟨List.getElem?_set_ne h0, List.getElem?_set_ne h0⟩
    · intro hinj j p hj
      rcases j with _ | j
      · simp only [List.getElem?_cons_zero, Option.some.injEq] at hj
        subst hj
        rw [Nat.add_zero, ← hs0]
        have hrest := hkeep s0 (fun j p hj heq => by
          have := hinj (j + 1) 0 p p0 (by simpa using hj) (by simp)
            (by rw [← hshift, heq, Nat.add_zero, hs0])
          omega)
        rw [hrest.1, hrest.2, hpos, hvel]
        exact ⟨List.getElem?_set_self hlt1, List.getElem?_set_self hlt2⟩
      · rw [List.getElem?_cons_succ] at hj
        rw [← hshift]
        refine hwrite (fun j1 j2 p1 p2 h1 h2 heq => ?_) j p hj
        have := hinj (j1 + 1) (j2 + 1) p1 p2 (by simpa using h1) (by simpa using h2)
          (by rw [← hshift j1, ← hshift j2]; exact heq)
        omega

theorem extractUnsigned_lt {s r : List Char} {n : Nat}
    (h : extractUnsigned s = some (n, r)) : n < 2 ^ 32 := by
  unfold extractUnsigned at h
  simp only [] at h
  split at h
  · cases h
  · rename_i hc
    cases h
    omega

theorem readSnapshot_ok {g : GROTrajectory} {comment : List Char} {file rest : List (List Char)}
    {frame : Frame} (h : g.readSnapshot comment file = .ok (frame, rest)) :
    ∃ t cline file1 n r st bline box,
      readTime comment = .ok t ∧ file = cline :: file1 ∧ extractUnsigned cline = some (n, r) ∧
      g.particleLoop n
        { frame := (Frame.new n).setTime t, cur_particle := 0, auto_number := false,
          rest := file1 } = .ok st ∧
      ¬ st.cur_particle < st.frame.getN ∧ st.rest = bline :: rest ∧ readBox bline = .ok box ∧
      frame = st.frame.setBox box := by
  unfold GROTrajectory.readSnapshot at h
  simp only [bind, Except.bind, pure, Except.pure, throw, throwThe, MonadExceptOf.throw] at h
  rcases ht : readTime comment with e | t
  · rw [ht] at h
    cases h
  rw [ht] at h
  simp only [] at h
  rcases file with _ | ⟨cline, file1⟩
  · simp only [getline] at h
    cases h
  simp only [getline] at h
  rcases hn : extractUnsigned cline with _ | ⟨n, r⟩
  · rw [hn] at h
    cases h
  rw [hn] at h
  simp only [] at h
  have hgetN : ((Frame.new n).setTime t).getN = n := (Frame.new_sized n t).1
  rw [hgetN] at h
  rcases hl : g.particleLoop n
      { frame := (Frame.new n).setTime t, cur_particle := 0, auto_number := false,
        rest := file1 } with e | st
  · rw [hl] at h
    cases h
  rw [hl] at h
  simp only [] at h
  split at h
  · cases h
  rename_i hcount
  rcases hb : st.rest with _ | ⟨bline, rest2⟩
  · rw [hb] at h
    simp only [getline] at h
    cases h
  rw [hb] at h
  simp only [getline] at h
  rcases hbox : readBox bline with e | box
  · rw [hbox] at h
    cases h
  rw [hbox] at h
  cases h
  exact ⟨t, cline, file1, n, r, st, bline, box, rfl, rfl, hn, hl, hcount, hb, hbox, rfl⟩

theorem surj_of_inj_below (n : Nat) (f : Nat → Nat) (hlt : ∀ j, j < n → f j < n)
    (hinj : ∀ j1 j2, j1 < n → j2 < n → f j1 = f j2 → j1 = j2) :
    ∀ i, i < n → ∃ j, j < n ∧ f j = i := by
  intro i hi
  let F : Fin n → Fin n := fun j => ⟨f j.1, hlt j.1 j.2⟩
  have hF : Function.Injective F := by
    intro a b hab
    have : f a.1 = f b.1 := congrArg Fin.val hab
    exact Fin.ext (hinj a.1 b.1 a.2 b.2 this)
  obtain ⟨j, hj⟩ := (Finite.injective_iff_surjective.mp hF) ⟨i, hi⟩
  exact ⟨j.1, j.2, congrArg Fin.val hj⟩

theorem parseLines_cons_first {g : GROTrajectory} {line : List Char}
    {lines : List (List Char)} {p : ParticleLine} {ps : List ParticleLine}
    (hp : g.readLine line = .ok p) (h : parseLines g (line :: lines) = some ps) :
    firstId ps = p.particle_id := by
  simp only [parseLines, hp] at h
  split at h
  · rename_i heq1 _
    cases h
    cases heq1
    rfl
  · cases h

theorem slot_injective_of_distinct {ps : List ParticleLine} {first_id : Int}
    (hid : ∀ (j : Nat) (p : ParticleLine), ps[j]? = some p → first_id ≠ 0 →
      1 ≤ p.particle_id)
    (hd : first_id = 0 ∨ (ps.map (fun p => p.particle_id)).Nodup) :
    ∀ j1 j2 p1 p2, ps[j1]? = some p1 → ps[j2]? = some p2 →
      slotOfLine first_id j1 p1 = slotOfLine first_id j2 p2 → j1 = j2 := by
  intro j1 j2 p1 p2 h1 h2 heq
  unfold slotOfLine at heq
  by_cases h0 : first_id = 0
  · simpa [h0] using heq
  · simp only [h0, if_false] at heq
    have hnd : (ps.map (fun p => p.particle_id)).Nodup := by
      rcases hd with h | h
      · exact absurd h h0
      · exact h
    have e1 := hid j1 p1 h1 h0
    have e2 := hid j2 p2 h2 h0
    have hids : p1.particle_id = p2.particle_id := by omega
    have hj1 : j1 < (ps.map (fun p => p.particle_id)).length := by
      rw [List.length_map]
      exact (List.getElem?_eq_some.mp h1).1
    have g1 : (ps.map (fun p => p.particle_id))[j1]? = some p1.particle_id := by
      simp [List.getElem?_map, h1]
    have g2 : (ps.map (fun p => p.particle_id))[j2]? = some p1.particle_id := by
      simp [List.getElem?_map, h2, hids]
    exact List.getElem?_inj hj1 hnd (g1.trans g2.symm)

/-- C5 (as amended). For every snapshot that `readFromFile` parses, of `N` particles, the `N`
lines after the count line all parse, and, provided their ids are pairwise distinct or the
first id reads 0 (auto-numbering), every slot `i` in `[0, N)` is the slot of exactly one of
them, line `k` say, and holds the position and the velocity of that line. -/
theorem C5_slots_assigned_once (g : GROTrajectory) (comment : List Char)
    (file rest : List (List Char)) (frame : Frame)
    (h : g.readSnapshot comment file = .ok (frame, rest)) :
    ∃ ps : List ParticleLine,
      parseLines g ((file.drop 1).take frame.getN) = some ps ∧ ps.length = frame.getN ∧
      (firstId ps = 0 ∨ (ps.map (fun p => p.particle_id)).Nodup →
        ∀ i, i < frame.getN →
          ∃! k, ∃ p, ps[k]? = some p ∧ slotOfLine (firstId ps) k p = i ∧
            frame.positions[i]? = some p.pos ∧ frame.velocities[i]? = some p.vel) := by
  obtain ⟨t, cline, file1, n, r, st, bline, box, -, hfile, hn, hl, hcount, -, -, hframe⟩ :=
    readSnapshot_ok h
  have hs0 := Frame.new_sized n t
  have hgetN0 : ((Frame.new n).setTime t).getN = n := hs0.1
  have heq := particleLoop_eq_specParticleLoop g ((Frame.new n).setTime t) file1
    (by rw [hgetN0]; exact Nat.le_of_lt (extractUnsigned_lt hn))
  rw [hgetN0, hl] at heq
  simp only [Except.map, ParticleLoop.result] at heq
  unfold specParticleLoop at heq
  rw [hgetN0] at heq
  have hpos : frame.positions = st.frame.positions := by rw [hframe]; rfl
  have hvel : frame.velocities = st.frame.velocities := by rw [hframe]; rfl
  have hN : frame.getN = st.frame.getN := by simp [Frame.getN, hpos]
  have hdrop : List.drop 1 file = file1 := by rw [hfile]; rfl
  rcases hlines : List.take n file1 with _ | ⟨line, lines⟩
  · rw [hlines] at heq
    simp only [Except.ok.injEq, Prod.mk.injEq] at heq
    obtain ⟨hf, hc, -⟩ := heq
    have hn0 : st.frame.getN = 0 := by
      rw [hf, hgetN0]
      rw [hc, hf, hgetN0] at hcount
      omega
    refine ⟨[], ?_, by rw [hN, hn0]; rfl, ?_⟩
    · rw [hN, hn0]
      rfl
    · intro _ i hi
      rw [hN, hn0] at hi
      omega
  · rw [hlines] at heq
    simp only [] at heq
    rcases hp : g.readLine line with e | p
    · rw [hp] at heq
      cases heq
    rw [hp] at heq
    simp only [] at heq
    rcases hspec : specParticles g (toInt n) p.particle_id 0 ((Frame.new n).setTime t)
        (line :: lines) with e | frameS
    · rw [hspec] at heq
      cases heq
    rw [hspec] at heq
    simp only [Except.ok.injEq, Prod.mk.injEq] at heq
    obtain ⟨hf, hc, -⟩ := heq
    obtain ⟨ps, hparse, hlen, hs1, hbound, -, hwrite⟩ :=
      specParticles_ok g (toInt n) p.particle_id n (line :: lines) 0 _ _ hs0 hspec
    have hfirst : firstId ps = p.particle_id := parseLines_cons_first hp hparse
    have hNn : st.frame.getN = n := by rw [hf]; exact hs1.1
    have hlenle : (line :: lines).length ≤ n := by
      rw [← hlines, List.length_take]
      exact Nat.min_le_left _ _
    have hpsn : ps.length = n := by
      rw [hc, hNn] at hcount
      omega
    simp only [Nat.zero_add] at hbound hwrite
    refine ⟨ps, ?_, by rw [hN, hNn, hpsn], ?_⟩
    · rw [hN, hNn, hdrop, hlines]
      exact hparse
    · intro hd i hi
      rw [hN, hNn] at hi
      rw [hfirst] at hd ⊢
      have hinj := slot_injective_of_distinct (fun j q hq => (hbound j q hq).2) hd
      have hsome : ∀ j, j < n → ∃ q, ps[j]? = some q := fun j hj =>
        ⟨ps[j], List.getElem?_eq_getElem (by omega)⟩
      obtain ⟨k, hk, hki⟩ := surj_of_inj_below n
        (fun j => match ps[j]? with
          | some q => slotOfLine p.particle_id j q
          | none => 0)
        (fun j hj => by
          obtain ⟨q, hq⟩ := hsome j hj
          simp only [hq]
          exact (hbound j q hq).1)
        (fun j1 j2 hj1 hj2 he => by
          obtain ⟨q1, hq1⟩ := hsome j1 hj1
          obtain ⟨q2, hq2⟩ := hsome j2 hj2
          simp only [hq1, hq2] at he
          exact hinj j1 j2 q1 q2 hq1 hq2 he) i hi
      obtain ⟨q, hq⟩ := hsome k hk
      simp only [hq] at hki
      have hw := hwrite hinj k q hq
      rw [hki, ← hf] at hw
      refine ⟨k, ⟨q, hq, hki, by rw [hpos]; exact hw.1, by rw [hvel]; exact hw.2⟩, ?_⟩
      rintro k1 ⟨q1, hq1, hk1, -, -⟩
      exact hinj k1 k q1 q hq1 hq (hk1.trans hki.symm)

/-- C5, witness: the snapshot of `twoParticleFile`, whose ids 1 and 2 are distinct. -/
theorem C5_slots_assigned_once_witness :
    (GROTrajectory.new 3).readSnapshot "frame 0, t= 1.5".toList
        ((fileLines twoParticleFile).drop 1) = .ok (twoParticleFrame, []) ∧
    ∃ ps : List ParticleLine,
      parseLines (GROTrajectory.new 3)
        ((((fileLines twoParticleFile).drop 1).drop 1).take twoParticleFrame.getN) = some ps ∧
      ps.length = twoParticleFrame.getN ∧
      (firstId ps = 0 ∨ (ps.map (fun p => p.particle_id)).Nodup →
        ∀ i, i < twoParticleFrame.getN →
          ∃! k, ∃ p, ps[k]? = some p ∧ slotOfLine (firstId ps) k p = i ∧
            twoParticleFrame.positions[i]? = some p.pos ∧
            twoParticleFrame.velocities[i]? = some p.vel) :=
  ⟨by decide!,
   C5_slots_assigned_once (GROTrajectory.new 3) "frame 0, t= 1.5".toList
     ((fileLines twoParticleFile).drop 1) [] twoParticleFrame (by decide!)⟩

/-- C5 (counterexample). A snapshot of two particles whose lines both carry the id 1 parses:
slot 0 is written twice and ends with the data of the second line, and slot 1 keeps the
default zero position and velocity, which are those of neither line. -/
theorem C5_counterexample_duplicate_ids :
    ((GROTrajectory.new 3).readFromFile duplicateIdFile).toOption.map
        (fun g => g.frames.map (fun f => (f.positions, f.velocities))) =
      some [([⟨4, 5, 6⟩, ⟨0, 0, 0⟩], [⟨2 / 5, 1 / 2, 3 / 5⟩, ⟨0, 0, 0⟩])] := by
  decide!

/-! ### The accumulation pass of `evaluate` -/

theorem cell_set (tbl : List (List ℚ)) (k : Nat) (row : List ℚ) (a b : Nat)
    (hk : k < tbl.length) :
    cell (tbl.set k row) a b = if a = k then row.getD b 0 else cell tbl a b := by
  unfold cell
  by_cases h : a = k
  · subst h
    simp [List.getD_eq_getElem?_getD, List.getElem?_set_self hk]
  · have h1 : k ≠ a := fun e => h e.symm
    simp [List.getD_eq_getElem?_getD, List.getElem?_set_ne h1, h]

theorem addAt_cell {tbl : List (List ℚ)} {rows cols k d : Nat} (v : ℚ)
    (hs : Shaped tbl rows cols) (hk : k < rows) (hd : d < cols) :
    ∃ tbl1, addAt tbl k d v = .ok tbl1 ∧ Shaped tbl1 rows cols ∧
      ∀ a b, cell tbl1 a b = cell tbl a b + if a = k ∧ b = d then v else 0 := by
  obtain ⟨hlen, hrows⟩ := hs
  have hk1 : k < tbl.length := by omega
  have hrow : tbl[k]? = some tbl[k] := List.getElem?_eq_getElem hk1
  have hcols : tbl[k].length = cols := hrows _ (List.getElem_mem _)
  have hd1 : d < tbl[k].length := by omega
  have hold : tbl[k][d]? = some tbl[k][d] := List.getElem?_eq_getElem hd1
  refine ⟨tbl.set k (tbl[k].set d (tbl[k][d] + v)), ?_, ⟨?_, ?_⟩, ?_⟩
  · simp only [addAt, hrow, hold]
  · rw [List.length_set]
    exact hlen
  · intro row hmem
    rcases List.mem_or_eq_of_mem_set hmem with h | h
    · exact hrows row h
    · rw [h, List.length_set]
      exact hcols
  · intro a b
    rw [cell_set _ _ _ _ _ hk1]
    by_cases ha : a = k
    · subst ha
      simp only [true_and, if_true]
      by_cases hb : b = d
      · subst hb
        simp [cell, List.getD_eq_getElem?_getD, List.getElem?_set_self hd1, hrow, hold]
      · have hb1 : d ≠ b := fun e => hb e.symm
        simp [cell, List.getD_eq_getElem?_getD, List.getElem?_set_ne hb1, hrow, hb]
    · simp [ha]

theorem index_ok {α : Type} {v : List α} {i : Nat} (h : i < v.length) :
    index v i = .ok v[i] := by
  simp [index, List.getElem?_eq_getElem h]

theorem atomBody_cell (traj : Trajectory) (types : List String) (pos origin_pos : List Vector3)
    (rows cols d i : Nat) (msd : Msd)
    (hty : i < types.length) (hpos : i < pos.length) (hopos : i < origin_pos.length)
    (hrow : traj.typeByName (types.getD i "") < rows) (hd : d < cols)
    (hs : ∀ ax, Shaped (msd.get ax) rows cols) :
    ∃ msd1, atomBody traj types pos origin_pos d i msd = .ok msd1 ∧
      (∀ ax, Shaped (msd1.get ax) rows cols) ∧
      ∀ ax a b, cell (msd1.get ax) a b = cell (msd.get ax) a b +
        if a = traj.typeByName (types.getD i "") ∧ b = d then
          (sqOf (pos.getD i Vector3.zero) (origin_pos.getD i Vector3.zero)).get ax
        else 0 := by
  have e1 : types.getD i "" = types[i] := by
    simp [List.getD_eq_getElem?_getD, List.getElem?_eq_getElem hty]
  have e2 : pos.getD i Vector3.zero = pos[i] := by
    simp [List.getD_eq_getElem?_getD, List.getElem?_eq_getElem hpos]
  have e3 : origin_pos.getD i Vector3.zero = origin_pos[i] := by
    simp [List.getD_eq_getElem?_getD, List.getElem?_eq_getElem hopos]
  rw [e1] at hrow
  rw [e1, e2, e3]
  obtain ⟨tx, hx, hsx, hcx⟩ := addAt_cell
    ((pos[i].sub origin_pos[i]).x * (pos[i].sub origin_pos[i]).x) (hs .x) hrow hd
  obtain ⟨ty, hy, hsy, hcy⟩ := addAt_cell
    ((pos[i].sub origin_pos[i]).y * (pos[i].sub origin_pos[i]).y) (hs .y) hrow hd
  obtain ⟨tz, hz, hsz, hcz⟩ := addAt_cell
    ((pos[i].sub origin_pos[i]).z * (pos[i].sub origin_pos[i]).z) (hs .z) hrow hd
  simp only [Msd.get] at hx hy hz
  refine ⟨{ x := tx, y := ty, z := tz }, ?_, ?_, ?_⟩
  · simp only [atomBody, index_ok hty, index_ok hpos, index_ok hopos, bind, Except.bind, hx,
      hy, hz, pure, Except.pure]
  · intro ax
    cases ax
    · exact hsx
    · exact hsy
    · exact hsz
  · intro ax a b
    cases ax
    · exact hcx a b
    · exact hcy a b
    · exact hcz a b

theorem atomLoop_cell (traj : Trajectory) (types : List String) (pos origin_pos : List Vector3)
    (rows cols d : Nat)
    (hty : traj.n ≤ types.length) (hpos : traj.n ≤ pos.length)
    (hopos : traj.n ≤ origin_pos.length)
    (hrow : ∀ i, i < traj.n → traj.typeByName (types.getD i "") < rows) (hd : d < cols) :
    ∀ (upto : Nat) (msd : Msd), upto ≤ traj.n → (∀ ax, Shaped (msd.get ax) rows cols) →
      ∃ msd1, forLoop upto (atomBody traj types pos origin_pos d) msd = .ok msd1 ∧
        (∀ ax, Shaped (msd1.get ax) rows cols) ∧
        ∀ ax a b, cell (msd1.get ax) a b = cell (msd.get ax) a b +
          if b = d then
            Finset.sum (Finset.range upto) (fun i =>
              if traj.typeByName (types.getD i "") = a then
                (sqOf (pos.getD i Vector3.zero) (origin_pos.getD i Vector3.zero)).get ax
              else 0)
          else 0 := by
  intro upto
  induction upto with
  | zero =>
    intro msd _ hs
    exact ⟨msd, rfl, hs, by simp⟩
  | succ upto ih =>
    intro msd hle hs
    obtain ⟨msd1, hrun, hs1, hc1⟩ := ih msd (by omega) hs
    obtain ⟨msd2, hrun2, hs2, hc2⟩ := atomBody_cell traj types pos origin_pos rows cols d upto
      msd1 (by omega) (by omega) (by omega) (hrow upto (by omega)) hd hs1
    refine ⟨msd2, ?_, hs2, ?_⟩
    · simp only [forLoop, hrun, hrun2]
    · intro ax a b
      rw [hc2, hc1, Finset.sum_range_succ]
      by_cases hb : b = d
      · by_cases ha : a = traj.typeByName (types.getD upto "")
        · have ha' : traj.typeByName (types.getD upto "") = a := ha.symm
          simp only [hb, ha, and_self, if_true]
          ring
        · have ha' : ¬ traj.typeByName (types.getD upto "") = a := fun e => ha e.symm
          simp only [hb, ha, ha', false_and, and_true, if_true, if_false]
          ring
      · simp [hb]

theorem deltaT_eq {f j : Nat} (hj : j ≤ f) (hf : f + 1 < 2 ^ 32) : deltaT f (j + 1) = f - j := by
  unfold deltaT
  have h1 : (j + 1) % 2 ^ 32 = j + 1 := Nat.mod_eq_of_lt (by omega)
  rw [h1]
  omega

theorem lag_count_le_one (f b T : Nat) (hT : T ≤ f + 1) :
    Finset.sum (Finset.range T) (fun tau => if f - tau = b then 1 else 0) ≤ 1 := by
  rw [Finset.sum_boole]
  simp only [Nat.cast_id]
  apply Finset.card_le_one.mpr
  intro x hx y hy
  simp only [Finset.mem_filter, Finset.mem_range] at hx hy
  omega

theorem originCount_le (s f : Nat) : originCount s f ≤ f + 1 := by
  unfold originCount
  have := Nat.div_le_self f s
  omega

theorem ntimeSpec_le (s f b : Nat) : ntimeSpec s f b ≤ f := by
  unfold ntimeSpec
  calc Finset.sum (Finset.range f) (fun f1 =>
        Finset.sum (Finset.range (originCount s f1)) (fun tau => if f1 - tau = b then 1 else 0))
      ≤ Finset.sum (Finset.range f) (fun _ => 1) :=
        Finset.sum_le_sum (fun f1 _ => lag_count_le_one f1 b _ (originCount_le s f1))
    _ = f := by simp

theorem pairSum_eq (m : MeanSquaredDisplacement) (frame0 cur origin : Frame) (d tau : Nat)
    (h0 : m.traj.frames[0]? = some frame0) (hd : m.traj.frames[d]? = some cur)
    (ht : m.traj.frames[tau]? = some origin) (ax : Axis) (a : Nat) :
    Finset.sum (Finset.range m.traj.n) (fun i =>
        if m.traj.typeByName (frame0.names.getD i "") = a then
          (sqOf (cur.positions.getD i Vector3.zero)
            (origin.positions.getD i Vector3.zero)).get ax
        else 0)
      = pairSum m.traj ax a d tau := by
  unfold pairSum typeOf sqDisp posAt
  simp only [h0, hd, ht]

theorem bump_getD {ntime : List Nat} {j : Nat} (hj : j < ntime.length)
    (hc : ntime.getD j 0 + 1 < 2 ^ 32) :
    ∃ nt, bump ntime j = .ok nt ∧ nt.length = ntime.length ∧
      ∀ b, nt.getD b 0 = ntime.getD b 0 + if b = j then 1 else 0 := by
  have hget : ntime[j]? = some ntime[j] := List.getElem?_eq_getElem hj
  have hval : ntime.getD j 0 = ntime[j] := by
    simp [List.getD_eq_getElem?_getD, hget]
  rw [hval] at hc
  refine ⟨ntime.set j ((ntime[j] + 1) % 2 ^ 32), ?_, by simp, ?_⟩
  · simp only [bump, hget]
  · intro b
    rw [Nat.mod_eq_of_lt hc]
    by_cases hb : b = j
    · subst hb
      simp [List.getD_eq_getElem?_getD, List.getElem?_set_self hj, hget]
    · have hb1 : j ≠ b := fun e => hb e.symm
      simp [List.getD_eq_getElem?_getD, List.getElem?_set_ne hb1, hb]

theorem pairBody_step (m : MeanSquaredDisplacement) (hwf : m.WellFormed) (frame0 : Frame)
    (h0 : m.traj.frames[0]? = some frame0) (f j : Nat) (hf : f < m.traj.frames.length)
    (st : EvalState) (hj : j < st.t0) (ht0 : st.t0 ≤ f + 1)
    (htime0 : st.time0 = (List.range st.t0).map (fun t => t + 1))
    (hshape : ∀ ax, Shaped (st.msd.get ax) (typeSize m.traj.numTypes) m.traj.frames.length)
    (hlen : st.ntime.length = m.traj.frames.length)
    (hcount : st.ntime.getD (f - j) 0 + 1 < 2 ^ 32) :
    ∃ st1, pairBody m.traj m.traj.frames frame0.names f j st = .ok st1 ∧
      st1.t0 = st.t0 ∧ st1.time0 = st.time0 ∧
      (∀ ax, Shaped (st1.msd.get ax) (typeSize m.traj.numTypes) m.traj.frames.length) ∧
      st1.ntime.length = m.traj.frames.length ∧
      (∀ ax a b, cell (st1.msd.get ax) a b = cell (st.msd.get ax) a b +
        if f - j = b then pairSum m.traj ax a b j else 0) ∧
      (∀ b, st1.ntime.getD b 0 = st.ntime.getD b 0 + if f - j = b then 1 else 0) := by
  have hF := hwf.frames_lt
  have hjf : j ≤ f := by omega
  have htime : index st.time0 j = .ok (j + 1) := by
    have hlt : j < st.time0.length := by rw [htime0]; simpa using hj
    rw [index_ok hlt]
    simp [htime0]
  have hdelta : deltaT f (j + 1) = f - j := deltaT_eq hjf (by omega)
  have hdF : f - j < m.traj.frames.length := by omega
  have hjF : j < m.traj.frames.length := by omega
  obtain ⟨nt, hbump, hntlen, hnt⟩ := bump_getD (by rw [hlen]; exact hdF) hcount
  have hcur : m.traj.frames[f - j]? = some m.traj.frames[f - j] :=
    List.getElem?_eq_getElem hdF
  have horg : m.traj.frames[j]? = some m.traj.frames[j] := List.getElem?_eq_getElem hjF
  have hscur := hwf.sized _ (List.getElem_mem hdF)
  have hsorg := hwf.sized _ (List.getElem_mem hjF)
  have hs0 := hwf.sized _ (List.getElem?_mem h0)
  obtain ⟨msd1, hloop, hshape1, hcell⟩ := atomLoop_cell m.traj frame0.names
    m.traj.frames[f - j].positions m.traj.frames[j].positions (typeSize m.traj.numTypes)
    m.traj.frames.length (f - j) (by rw [hs0.2.2]) (by rw [hscur.1]) (by rw [hsorg.1])
    (fun i hi => by
      have := hwf.types_lt i hi
      simpa [typeOf, h0] using this) hdF m.traj.n st.msd (Nat.le_refl _) hshape
  refine ⟨{ st with msd := msd1, ntime := nt }, ?_, rfl, rfl, hshape1, by rw [hntlen, hlen],
    ?_, ?_⟩
  · simp only [pairBody, htime, bind, Except.bind, hdelta, if_pos hdF, hbump, index_ok hdF,
      index_ok hjF, hloop, pure, Except.pure]
  · intro ax a b
    simp only []
    rw [hcell, pairSum_eq m frame0 _ _ (f - j) j h0 hcur horg]
    by_cases hb : b = f - j
    · subst hb
      simp
    · have hb1 : ¬ f - j = b := fun e => hb e.symm
      simp [hb, hb1]
  · intro b
    simp only []
    rw [hnt b]
    by_cases hb : b = f - j
    · subst hb
      simp
    · have hb1 : ¬ f - j = b := fun e => hb e.symm
      simp [hb, hb1]

theorem pairLoop_inv (m : MeanSquaredDisplacement) (hwf : m.WellFormed) (frame0 : Frame)
    (h0 : m.traj.frames[0]? = some frame0) (f : Nat) (hf : f < m.traj.frames.length)
    (st : EvalState) (ht0 : st.t0 ≤ f + 1)
    (htime0 : st.time0 = (List.range st.t0).map (fun t => t + 1))
    (hshape : ∀ ax, Shaped (st.msd.get ax) (typeSize m.traj.numTypes) m.traj.frames.length)
    (hlen : st.ntime.length = m.traj.frames.length)
    (hcount : ∀ b, st.ntime.getD b 0 ≤ f) :
    ∀ j, j ≤ st.t0 →
      ∃ st1, forLoop j (pairBody m.traj m.traj.frames frame0.names f) st = .ok st1 ∧
        st1.t0 = st.t0 ∧ st1.time0 = st.time0 ∧
        (∀ ax, Shaped (st1.msd.get ax) (typeSize m.traj.numTypes) m.traj.frames.length) ∧
        st1.ntime.length = m.traj.frames.length ∧
        (∀ ax a b, cell (st1.msd.get ax) a b = cell (st.msd.get ax) a b +
          Finset.sum (Finset.range j)
            (fun tau => if f - tau = b then pairSum m.traj ax a b tau else 0)) ∧
        (∀ b, st1.ntime.getD b 0 = st.ntime.getD b 0 +
          Finset.sum (Finset.range j) (fun tau => if f - tau = b then 1 else 0)) := by
  intro j
  induction j with
  | zero =>
    intro _
    exact ⟨st, rfl, rfl, rfl, hshape, hlen, by simp, by simp⟩
  | succ j ih =>
    intro hj
    obtain ⟨st1, hrun, ht, htm, hsh, hl, hacc, hnt⟩ := ih (by omega)
    have hzero : Finset.sum (Finset.range j)
        (fun tau => if f - tau = f - j then 1 else 0) = 0 := by
      apply Finset.sum_eq_zero
      intro tau htau
      have : tau < j := Finset.mem_range.mp htau
      have hne : ¬ f - tau = f - j := by omega
      simp [hne]
    have hF := hwf.frames_lt
    have hc : st1.ntime.getD (f - j) 0 + 1 < 2 ^ 32 := by
      rw [hnt, hzero]
      have := hcount (f - j)
      omega
    obtain ⟨st2, hstep, ht2, htm2, hsh2, hl2, hacc2, hnt2⟩ := pairBody_step m hwf frame0 h0 f j
      hf st1 (by omega) (by omega) (by rw [htm, ht]; exact htime0) hsh hl hc
    refine ⟨st2, ?_, by rw [ht2, ht], by rw [htm2, htm], hsh2, hl2, ?_, ?_⟩
    · simp only [forLoop, hrun, hstep]
    · intro ax a b
      rw [hacc2, hacc, Finset.sum_range_succ]
      ring
    · intro b
      rw [hnt2, hnt, Finset.sum_range_succ]
      ring

theorem origin_step (s f : Nat) :
    (if f = 0 ∨ f % s = 0 then (if f = 0 then 0 else originCount s (f - 1)) + 1
     else (if f = 0 then 0 else originCount s (f - 1))) = originCount s f := by
  unfold originCount
  rcases f with _ | g
  · simp
  · have hdiv := Nat.succ_div g s
    simp only [Nat.succ_eq_add_one] at hdiv
    have hg : ¬ g + 1 = 0 := by omega
    simp only [hg, false_or, if_false, Nat.add_sub_cancel]
    rw [hdiv]
    by_cases hd : s ∣ g + 1
    · have : (g + 1) % s = 0 := Nat.mod_eq_zero_of_dvd hd
      simp [this, hd]
    · have : ¬ (g + 1) % s = 0 := fun h => hd (Nat.dvd_of_mod_eq_zero h)
      simp [this, hd]

theorem cell_replicate (rows cols a b : Nat) :
    cell (List.replicate rows (List.replicate cols (0 : ℚ))) a b = 0 := by
  unfold cell
  rw [List.getD_eq_getElem?_getD, List.getD_eq_getElem?_getD]
  by_cases ha : a < rows
  · rw [List.getElem?_replicate, if_pos ha]
    simp only [Option.getD_some]
    by_cases hb : b < cols
    · rw [List.getElem?_replicate, if_pos hb]
      rfl
    · rw [List.getElem?_replicate, if_neg hb]
      rfl
  · rw [List.getElem?_replicate, if_neg ha]
    rfl

theorem initState_inv (m : MeanSquaredDisplacement) :
    EvalInv m 0 (initState m.traj m.traj.frames) := by
  refine ⟨?_, ?_, rfl, rfl, ?_, ?_⟩
  · intro ax
    cases ax <;>
      exact ⟨by simp [initState, Msd.get], fun row hrow => by
        simp only [initState, Msd.get] at hrow
        rw [List.eq_of_mem_replicate hrow]
        simp⟩
  · simp [initState]
  · intro ax a b
    cases ax <;> simp [initState, Msd.get, cell_replicate, accSpec]
  · intro b
    simp only [initState, ntimeSpec, Finset.range_zero, Finset.sum_empty]
    rw [List.getD_eq_getElem?_getD, List.getElem?_replicate]
    split <;> rfl

theorem frameBody_inv (m : MeanSquaredDisplacement) (hwf : m.WellFormed) (frame0 : Frame)
    (h0 : m.traj.frames[0]? = some frame0) (f : Nat) (hf : f < m.traj.frames.length)
    (st : EvalState) (hinv : EvalInv m f st) :
    ∃ st1, frameBody m.traj m.origins m.traj.frames frame0.names f st = .ok st1 ∧
      EvalInv m (f + 1) st1 := by
  have hF := hwf.frames_lt
  have hs := hwf.origins_pos
  have hguard : ¬ (f ≠ 0 ∧ m.origins = 0) := fun h => by omega
  have hT := origin_step m.origins f
  have hTle := originCount_le m.origins f
  rw [← hinv.t0_eq] at hT
  -- the state after the registration of the origin
  obtain ⟨stR, hstR, hR0, hRtime, hRmsd, hRntime⟩ :
      ∃ stR : EvalState,
        (if f = 0 ∨ f % m.origins = 0 then
          { st with t0 := (st.t0 + 1) % 2 ^ 32, time0 := st.time0 ++ [(st.t0 + 1) % 2 ^ 32] }
         else st) = stR ∧
        stR.t0 = originCount m.origins f ∧
        stR.time0 = (List.range stR.t0).map (fun t => t + 1) ∧
        stR.msd = st.msd ∧ stR.ntime = st.ntime := by
    by_cases hreg : f = 0 ∨ f % m.origins = 0
    · rw [if_pos hreg] at hT ⊢
      have hmod : (st.t0 + 1) % 2 ^ 32 = st.t0 + 1 := Nat.mod_eq_of_lt (by omega)
      refine ⟨_, rfl, ?_, ?_, rfl, rfl⟩
      · simp only [hmod]
        exact hT
      · simp only [hmod, List.range_succ, List.map_append, List.map_cons, List.map_nil]
        rw [← hinv.time0_eq]
    · rw [if_neg hreg] at hT ⊢
      exact ⟨_, rfl, hT, hinv.time0_eq, rfl, rfl⟩
  obtain ⟨st1, hrun, ht1, htm1, hsh1, hl1, hacc1, hnt1⟩ := pairLoop_inv m hwf frame0 h0 f hf stR
    (by omega) hRtime (by rw [hRmsd]; exact hinv.shaped) (by rw [hRntime]; exact hinv.ntime_len)
    (fun b => by rw [hRntime, hinv.ntime_eq]; exact ntimeSpec_le _ _ _) stR.t0 (Nat.le_refl _)
  refine ⟨st1, ?_, ⟨hsh1, hl1, ?_, ?_, ?_, ?_⟩⟩
  · unfold frameBody
    rw [if_neg hguard]
    simp only []
    rw [hstR]
    exact hrun
  · rw [ht1, hR0]
    simp
  · rw [htm1, ht1]
    exact hRtime
  · intro ax a b
    rw [hacc1, hRmsd, hinv.acc_eq, hR0]
    simp only [accSpec, Finset.sum_range_succ]
  · intro b
    rw [hnt1, hRntime, hinv.ntime_eq, hR0]
    simp only [ntimeSpec, Finset.sum_range_succ]

theorem frameLoop_inv (m : MeanSquaredDisplacement) (hwf : m.WellFormed) (frame0 : Frame)
    (h0 : m.traj.frames[0]? = some frame0) :
    ∀ f, f ≤ m.traj.frames.length →
      ∃ st, forLoop f (frameBody m.traj m.origins m.traj.frames frame0.names)
          (initState m.traj m.traj.frames) = .ok st ∧ EvalInv m f st := by
  intro f
  induction f with
  | zero =>
    intro _
    exact ⟨_, rfl, initState_inv m⟩
  | succ f ih =>
    intro hf
    obtain ⟨st, hrun, hinv⟩ := ih (by omega)
    obtain ⟨st1, hstep, hinv1⟩ := frameBody_inv m hwf frame0 h0 f (by omega) st hinv
    exact ⟨st1, by simp only [forLoop, hrun, hstep], hinv1⟩

theorem accumulate_ok (m : MeanSquaredDisplacement) (hwf : m.WellFormed) :
    ∃ st, m.accumulate = .ok st ∧ EvalInv m m.traj.frames.length st := by
  have hpos := hwf.frames_pos
  have h0 : m.traj.frames[0]? = some m.traj.frames[0] := List.getElem?_eq_getElem hpos
  obtain ⟨st, hrun, hinv⟩ := frameLoop_inv m hwf _ h0 _ (Nat.le_refl _)
  refine ⟨st, ?_, hinv⟩
  have htime := hwf.has_time _ h0
  have hlt : ¬ 2 ^ 32 ≤ m.traj.frames.length := by
    have := hwf.frames_lt
    omega
  simp only [MeanSquaredDisplacement.accumulate, index_ok hpos, bind, Except.bind, htime,
    Bool.not_true, Bool.false_eq_true, if_false, hlt, pure, Except.pure, hrun]

/-! ### The reported values -/

theorem index_cell {tbl : List (List ℚ)} {rows cols k d : Nat} (hs : Shaped tbl rows cols)
    (hk : k < rows) (hd : d < cols) :
    ∃ row, index tbl k = .ok row ∧ index row d = .ok (cell tbl k d) := by
  obtain ⟨hlen, hrows⟩ := hs
  have hk1 : k < tbl.length := by omega
  have hcols : tbl[k].length = cols := hrows _ (List.getElem_mem _)
  have hd1 : d < tbl[k].length := by omega
  refine ⟨tbl[k], index_ok hk1, ?_⟩
  rw [index_ok hd1]
  simp [cell, List.getD_eq_getElem?_getD, List.getElem?_eq_getElem hk1,
    List.getElem?_eq_getElem hd1]

theorem rowOf_eq (m : MeanSquaredDisplacement) (st : EvalState)
    (hinv : EvalInv m m.traj.frames.length st) (k d : Nat)
    (hk : k < typeSize m.traj.numTypes) (hd : d < m.traj.frames.length) :
    rowOf m.traj.frames st k d = .ok
      { time := m.traj.frames[d].time
        total := divide (accSpec m.traj m.origins .x m.traj.frames.length k d +
                         accSpec m.traj m.origins .y m.traj.frames.length k d +
                         accSpec m.traj m.origins .z m.traj.frames.length k d)
                   (ntimeSpec m.origins m.traj.frames.length d)
        x := divide (accSpec m.traj m.origins .x m.traj.frames.length k d)
               (ntimeSpec m.origins m.traj.frames.length d)
        y := divide (accSpec m.traj m.origins .y m.traj.frames.length k d)
               (ntimeSpec m.origins m.traj.frames.length d)
        z := divide (accSpec m.traj m.origins .z m.traj.frames.length k d)
               (ntimeSpec m.origins m.traj.frames.length d) } := by
  obtain ⟨rx, hrx, hvx⟩ := index_cell (hinv.shaped .x) hk hd
  obtain ⟨ry, hry, hvy⟩ := index_cell (hinv.shaped .y) hk hd
  obtain ⟨rz, hrz, hvz⟩ := index_cell (hinv.shaped .z) hk hd
  simp only [Msd.get] at hrx hry hrz
  have hnt : index st.ntime d = .ok (ntimeSpec m.origins m.traj.frames.length d) := by
    have hlt : d < st.ntime.length := by rw [hinv.ntime_len]; exact hd
    rw [index_ok hlt, ← hinv.ntime_eq d]
    simp [List.getD_eq_getElem?_getD, List.getElem?_eq_getElem hlt]
  simp only [rowOf, index_ok hd, bind, Except.bind, hnt, hrx, hry, hrz, hvx, hvy, hvz, pure,
    Except.pure, hinv.acc_eq]

theorem reported_eq (m : MeanSquaredDisplacement) (hwf : m.WellFormed) (k d : Nat)
    (hk : k < typeSize m.traj.numTypes) (hd : d < m.traj.frames.length) :
    m.reported k d = .ok
      { time := m.traj.frames[d].time
        total := divide (accSpec m.traj m.origins .x m.traj.frames.length k d +
                         accSpec m.traj m.origins .y m.traj.frames.length k d +
                         accSpec m.traj m.origins .z m.traj.frames.length k d)
                   (ntimeSpec m.origins m.traj.frames.length d)
        x := divide (accSpec m.traj m.origins .x m.traj.frames.length k d)
               (ntimeSpec m.origins m.traj.frames.length d)
        y := divide (accSpec m.traj m.origins .y m.traj.frames.length k d)
               (ntimeSpec m.origins m.traj.frames.length d)
        z := divide (accSpec m.traj m.origins .z m.traj.frames.length k d)
               (ntimeSpec m.origins m.traj.frames.length d) } := by
  obtain ⟨st, hacc, hinv⟩ := accumulate_ok m hwf
  simp only [MeanSquaredDisplacement.reported, hacc]
  exact rowOf_eq m st hinv k d hk hd

theorem pairSum_of_identical (traj : Trajectory) (k c : Nat) (p : Nat → Vector3)
    (d tau : Nat) (hd : d < traj.frames.length) (htau : tau < traj.frames.length)
    (hp : ∀ i f, i < traj.n → typeOf traj i = k → f < traj.frames.length →
      posAt traj.frames f i = p f)
    (hcount : ((Finset.range traj.n).filter (fun i => typeOf traj i = k)).card = c)
    (ax : Axis) :
    pairSum traj ax k d tau = c * (sqOf (p d) (p tau)).get ax := by
  unfold pairSum
  rw [← Finset.sum_filter]
  have hconst : ∀ i ∈ (Finset.range traj.n).filter (fun i => typeOf traj i = k),
      (sqDisp traj.frames d tau i).get ax = (sqOf (p d) (p tau)).get ax := by
    intro i hi
    simp only [Finset.mem_filter, Finset.mem_range] at hi
    unfold sqDisp
    rw [hp i d hi.1 hi.2 hd, hp i tau hi.1 hi.2 htau]
  rw [Finset.sum_congr rfl hconst, Finset.sum_const, hcount]
  simp

theorem accSpec_of_identical (traj : Trajectory) (s k c : Nat) (p : Nat → Vector3) (d : Nat)
    (hd : d < traj.frames.length)
    (hp : ∀ i f, i < traj.n → typeOf traj i = k → f < traj.frames.length →
      posAt traj.frames f i = p f)
    (hcount : ((Finset.range traj.n).filter (fun i => typeOf traj i = k)).card = c)
    (ax : Axis) :
    accSpec traj s ax traj.frames.length k d = c * singleAcc p s traj.frames.length ax d := by
  unfold accSpec singleAcc
  rw [Finset.mul_sum]
  apply Finset.sum_congr rfl
  intro f hf
  rw [Finset.mul_sum]
  apply Finset.sum_congr rfl
  intro tau htau
  have hf1 : f < traj.frames.length := Finset.mem_range.mp hf
  have ht1 : tau < originCount s f := Finset.mem_range.mp htau
  have := originCount_le s f
  by_cases hlag : f - tau = d
  · rw [if_pos hlag, if_pos hlag]
    exact pairSum_of_identical traj k c p d tau hd (by omega) hp hcount ax
  · rw [if_neg hlag, if_neg hlag]
    simp

theorem divide_mul (c : Nat) (a : ℚ) (norm : Nat) :
    divide ((c : ℚ) * a) norm = (divide a norm).map (fun v => (c : ℚ) * v) := by
  unfold divide
  split
  · rfl
  · simp [mul_div_assoc]

/-- C3 (as amended). The value `evaluate` reports is summed over the particles of a type and
averaged over the (frame, origin) pairs only. For two well-formed computes with the same
number of frames and the same origin spacing, the first holding `c` particles of type `k`
that all sit at `p f` in frame `f`, the second a single such particle, every line `d` of
row `k` is reported by both, and each value of the first is `c` times the value of the
second (both are the non-finite value when the lag has no pair). -/
theorem C3_reported_value_sums_over_particles (m m1 : MeanSquaredDisplacement)
    (hwf : m.WellFormed) (hwf1 : m1.WellFormed)
    (hF : m1.traj.frames.length = m.traj.frames.length) (hs : m1.origins = m.origins)
    (k c : Nat) (p : Nat → Vector3)
    (hk : k < typeSize m.traj.numTypes) (hk1 : k < typeSize m1.traj.numTypes)
    (hc : HasCopies m.traj k c p) (h1 : HasCopies m1.traj k 1 p)
    (d : Nat) (hd : d < m.traj.frames.length) :
    ∃ row row1, m.reported k d = .ok row ∧ m1.reported k d = .ok row1 ∧
      row.x = row1.x.map (fun v => (c : ℚ) * v) ∧
      row.y = row1.y.map (fun v => (c : ℚ) * v) ∧
      row.z = row1.z.map (fun v => (c : ℚ) * v) ∧
      row.total = row1.total.map (fun v => (c : ℚ) * v) := by
  have hd1 : d < m1.traj.frames.length := by rw [hF]; exact hd
  have e := fun ax => accSpec_of_identical m.traj m.origins k c p d hd hc.2 hc.1 ax
  have e1 := fun ax => accSpec_of_identical m1.traj m1.origins k 1 p d hd1 h1.2 h1.1 ax
  simp only [hF, hs, Nat.cast_one, one_mul] at e1
  refine ⟨_, _, reported_eq m hwf k d hk hd, reported_eq m1 hwf1 k d hk1 hd1, ?_, ?_, ?_, ?_⟩
  · simp only [e, e1, hF, hs, divide_mul]
  · simp only [e, e1, hF, hs, divide_mul]
  · simp only [e, e1, hF, hs, divide_mul]
  · simp only [e, e1, hF, hs, ← mul_add, divide_mul]

theorem copiesMsd_wellFormed (c : Nat) : (copiesMsd c).WellFormed := by
  refine ⟨by simp [copiesMsd], by simp [copiesMsd], ?_, ?_, ?_, by simp [copiesMsd]⟩
  · intro frame0 h
    simp only [copiesMsd, List.getElem?_cons_zero, Option.some.injEq] at h
    rw [← h]
    rfl
  · intro frame h
    simp only [copiesMsd, List.mem_cons, List.mem_singleton, List.not_mem_nil, or_false] at h
    rcases h with h | h <;> rw [h] <;> simp [Frame.Sized, copiesFrame, copiesMsd]
  · intro i _
    simp [typeOf, copiesMsd, typeSize, toInt, toUnsigned]

theorem copiesMsd_hasCopies (c : Nat) :
    HasCopies (copiesMsd c).traj 0 c (fun f => ⟨f, 0, 0⟩) := by
  constructor
  · simp [typeOf, copiesMsd]
  · intro i f hi _ hf
    simp only [copiesMsd, List.length_cons, List.length_nil] at hi hf
    have hf2 : f = 0 ∨ f = 1 := by omega
    rcases hf2 with h | h <;> subst h <;>
      simp [posAt, copiesMsd, copiesFrame, List.getD_eq_getElem?_getD, List.getElem?_replicate,
        hi]

/-- C3, witness: two identical particles against one, over two frames, at lag 1. -/
theorem C3_reported_value_sums_over_particles_witness :
    ∃ row row1, (copiesMsd 2).reported 0 1 = .ok row ∧ (copiesMsd 1).reported 0 1 = .ok row1 ∧
      row.x = row1.x.map (fun v => ((2 : Nat) : ℚ) * v) ∧
      row.y = row1.y.map (fun v => ((2 : Nat) : ℚ) * v) ∧
      row.z = row1.z.map (fun v => ((2 : Nat) : ℚ) * v) ∧
      row.total = row1.total.map (fun v => ((2 : Nat) : ℚ) * v) :=
  C3_reported_value_sums_over_particles (copiesMsd 2) (copiesMsd 1) (copiesMsd_wellFormed 2)
    (copiesMsd_wellFormed 1) rfl rfl 0 2 (fun f => ⟨f, 0, 0⟩) (by decide) (by decide)
    (copiesMsd_hasCopies 2) (copiesMsd_hasCopies 1) 1 (by decide)

/-- C3 (counterexample). Two particles of type `A` with identical positions, moving from
x = 0 to x = 1 over two frames: the value reported at lag 1 is 2, and with one such particle
it is 1, so the reported value grows with the number of particles of the type. -/
theorem C3_counterexample_two_identical_particles :
    ((copiesMsd 2).reported 0 1).toOption.map (fun row => row.x) = some (some 2) ∧
    ((copiesMsd 1).reported 0 1).toOption.map (fun row => row.x) = some (some 1) ∧
    (copiesMsd 2).evaluate.toOption.map (fun fs => fs.map (fun f => f.rows.map (fun r => r.x)))
      = some [[some 1, some 2]] ∧
    (copiesMsd 1).evaluate.toOption.map (fun fs => fs.map (fun f => f.rows.map (fun r => r.x)))
      = some [[some (1 / 2), some 1]] := by
  decide!

/-! ### The files written by `evaluate` -/

theorem rowLoop_ok (frames : List Frame) (st : EvalState) (k : Nat)
    (hrow : ∀ d, d < frames.length → ∃ row, rowOf frames st k d = .ok row) :
    ∀ n, n ≤ frames.length →
      ∃ rows, forLoop n (rowBody frames st k) [] = .ok rows ∧ rows.length = n ∧
        ∀ d, d < n → ∃ row, rows[d]? = some row ∧ rowOf frames st k d = .ok row := by
  intro n
  induction n with
  | zero =>
    intro _
    exact ⟨[], rfl, rfl, fun d hd => by omega⟩
  | succ n ih =>
    intro hn
    obtain ⟨rows, hrun, hlen, hrows⟩ := ih (by omega)
    obtain ⟨row, hr⟩ := hrow n (by omega)
    refine ⟨rows ++ [row], ?_, by simp [hlen], ?_⟩
    · simp only [forLoop, hrun, rowBody, hr, bind, Except.bind, pure, Except.pure]
    · intro d hd
      by_cases hdn : d < n
      · obtain ⟨r, h1, h2⟩ := hrows d hdn
        exact ⟨r, by rw [List.getElem?_append_left (by omega)]; exact h1, h2⟩
      · have hdn1 : d = n := by omega
        subst hdn1
        refine ⟨row, ?_, hr⟩
        rw [List.getElem?_append_right (by omega)]
        simp [hlen]

theorem evaluate_files (m : MeanSquaredDisplacement) (hwf : m.WellFormed)
    (hsel : m.type_names.length ≤ typeSize m.traj.numTypes) :
    ∃ files, m.evaluate = .ok files ∧ files.length = m.type_names.length ∧
      ∀ j, j < m.type_names.length →
        ∃ file, files[j]? = some file ∧
          file.name = m.file_name ++ "_" ++ m.type_names.getD j "" ++ ".dat" ∧
          file.rows.length = m.traj.frames.length ∧
          ∀ d, d < m.traj.frames.length →
            ∃ row, file.rows[d]? = some row ∧ m.reported j d = .ok row := by
  obtain ⟨st, hacc, hinv⟩ := accumulate_ok m hwf
  have hrep : ∀ j d, m.reported j d = rowOf m.traj.frames st j d := fun j d => by
    simp only [MeanSquaredDisplacement.reported, hacc]
  have hfiles : ∀ n, n ≤ m.type_names.length →
      ∃ files, forLoop n (fileBody m st) [] = .ok files ∧ files.length = n ∧
        ∀ j, j < n →
          ∃ file, files[j]? = some file ∧
            file.name = m.file_name ++ "_" ++ m.type_names.getD j "" ++ ".dat" ∧
            file.rows.length = m.traj.frames.length ∧
            ∀ d, d < m.traj.frames.length →
              ∃ row, file.rows[d]? = some row ∧ m.reported j d = .ok row := by
    intro n
    induction n with
    | zero =>
      intro _
      exact ⟨[], rfl, rfl, fun j hj => by omega⟩
    | succ n ih =>
      intro hn
      obtain ⟨files, hrun, hlen, hall⟩ := ih (by omega)
      have hn1 : n < m.type_names.length := by omega
      obtain ⟨rows, hrows, hrlen, hrall⟩ := rowLoop_ok m.traj.frames st n
        (fun d hd => ⟨_, rowOf_eq m st hinv n d (by omega) hd⟩) m.traj.frames.length
        (Nat.le_refl _)
      have hname : m.type_names.getD n "" = m.type_names[n] := by
        simp [List.getD_eq_getElem?_getD, List.getElem?_eq_getElem hn1]
      refine ⟨files ++ [{ name := m.file_name ++ "_" ++ m.type_names[n] ++ ".dat",
                          rows := rows }], ?_, by simp [hlen], ?_⟩
      · simp only [forLoop, hrun, fileBody, index_ok hn1, bind, Except.bind, hrows, pure,
          Except.pure]
      · intro j hj
        by_cases hjn : j < n
        · obtain ⟨file, h1, h2⟩ := hall j hjn
          exact ⟨file, by rw [List.getElem?_append_left (by omega)]; exact h1, h2⟩
        · have hjn1 : j = n := by omega
          subst hjn1
          refine ⟨{ name := m.file_name ++ "_" ++ m.type_names[j] ++ ".dat", rows := rows },
            ?_, ?_, hrlen, ?_⟩
          · rw [List.getElem?_append_right (by omega)]
            simp [hlen]
          · rw [hname]
          · intro d hd
            obtain ⟨row, h1, h2⟩ := hrall d hd
            exact ⟨row, h1, by rw [hrep]; exact h2⟩
  obtain ⟨files, hrun, hlen, hall⟩ := hfiles m.type_names.length (Nat.le_refl _)
  refine ⟨files, ?_, hlen, hall⟩
  simp only [MeanSquaredDisplacement.evaluate, hacc, bind, Except.bind, hrun]

/-! ### The fuel of `readFromFile` is enough -/

theorem store_error {frame : Frame} {slot : Nat} {p : ParticleLine} {e : Err}
    (h : store frame slot p = .error e) : e = .setterOutOfRange := by
  rw [store_eq] at h
  split at h
  · cases h
  · cases h
    rfl

theorem reconcile_error {n k : Nat} {auto_number : Bool} {particle_id : Int} {e : Err}
    (h : reconcile n k auto_number particle_id = .error e) : e = .idsRun1ToN := by
  unfold reconcile at h
  repeat' split at h
  all_goals first
    | (cases h; rfl)
    | cases h

theorem particleLoop_rest (g : GROTrajectory) :
    ∀ (todo : Nat) (st : ParticleLoop),
      (∀ st1, g.particleLoop todo st = .ok st1 → st1.rest.length ≤ st.rest.length) ∧
      g.particleLoop todo st ≠ .error .outOfFuel := by
  intro todo
  induction todo with
  | zero =>
    intro st
    simp only [GROTrajectory.particleLoop]
    refine ⟨?_, by simp⟩
    intro st1 h
    cases h
    exact Nat.le_refl _
  | succ todo ih =>
    intro st
    rcases hrest : st.rest with _ | ⟨line, rest⟩
    · simp only [GROTrajectory.particleLoop, hrest, getline]
      refine ⟨?_, by simp⟩
      intro st1 h
      cases h
      simp [hrest]
    · simp only [GROTrajectory.particleLoop, hrest, getline, GROTrajectory.particleBody, bind,
        Except.bind, pure, Except.pure]
      rcases hp : g.readLine line with e | p
      · refine ⟨by simp, ?_⟩
        intro h
        cases h
        rcases readLine_error hp with h | h <;> cases h
      · simp only []
        rcases hr : reconcile st.frame.getN st.cur_particle st.auto_number p.particle_id
          with e | r
        · refine ⟨by simp, ?_⟩
          intro h
          cases h
          cases reconcile_error hr
        · simp only []
          rcases hst : store st.frame (toUnsigned r.1) p with e | frame1
          · refine ⟨by simp, ?_⟩
            intro h
            cases h
            cases store_error hst
          · simp only []
            have := ih { frame := frame1, cur_particle := st.cur_particle + 1,
                         auto_number := r.2, rest := rest }
            refine ⟨fun st1 h => ?_, this.2⟩
            have := this.1 st1 h
            simp only [List.length_cons] at this ⊢
            omega

theorem readSnapshot_rest (g : GROTrajectory) (line : List Char) (rest : List (List Char)) :
    (∀ frame rest1, g.readSnapshot line rest = .ok (frame, rest1) →
      rest1.length ≤ rest.length) ∧
    g.readSnapshot line rest ≠ .error .outOfFuel := by
  constructor
  · intro frame rest1 h
    obtain ⟨t, cline, file1, n, r, st, bline, box, -, hfile, -, hl, -, hb, -, -⟩ :=
      readSnapshot_ok h
    have := (particleLoop_rest g n _).1 st hl
    simp only [hb, List.length_cons] at this
    rw [hfile, List.length_cons]
    omega
  · intro h
    unfold GROTrajectory.readSnapshot at h
    simp only [bind, Except.bind, pure, Except.pure, throw, throwThe, MonadExceptOf.throw] at h
    rcases ht : readTime line with e | t
    · rw [ht] at h
      cases h
      rcases readTime_error ht with h | h | h <;> cases h
    rw [ht] at h
    simp only [] at h
    rcases hg : getline rest with _ | ⟨cline, rest1⟩
    · rw [hg] at h
      cases h
    rw [hg] at h
    simp only [] at h
    rcases hn : extractUnsigned cline with _ | ⟨n, r⟩
    · rw [hn] at h
      cases h
    rw [hn] at h
    simp only [] at h
    rcases hl : g.particleLoop ((Frame.new n).setTime t).getN
        { frame := (Frame.new n).setTime t, cur_particle := 0, auto_number := false,
          rest := rest1 } with e | st
    · rw [hl] at h
      cases h
      exact (particleLoop_rest g _ _).2 hl
    rw [hl] at h
    simp only [] at h
    split at h
    · cases h
    rcases hb : getline st.rest with _ | ⟨bline, rest2⟩
    · rw [hb] at h
      cases h
    rw [hb] at h
    simp only [] at h
    rcases hbox : readBox bline with e | box
    · rw [hbox] at h
      cases h
      cases readBox_error hbox
    · rw [hbox] at h
      cases h

theorem readLoop_fuel (g : GROTrajectory) :
    ∀ (fuel : Nat) (file : List (List Char)) (frames : List Frame), file.length < fuel →
      g.readLoop fuel file frames ≠ .error .outOfFuel ∧
      g.readLoop (fuel + 1) file frames = g.readLoop fuel file frames := by
  intro fuel
  induction fuel with
  | zero =>
    intro file frames h
    omega
  | succ fuel ih =>
    intro file frames hlen
    rcases file with _ | ⟨line, rest⟩
    · simp [GROTrajectory.readLoop, getline]
    · simp only [List.length_cons] at hlen
      by_cases hempty : line.isEmpty = true
      · have := ih rest frames (by omega)
        constructor
        · rw [GROTrajectory.readLoop]
          simp only [getline, hempty, if_true]
          exact this.1
        · rw [GROTrajectory.readLoop, GROTrajectory.readLoop]
          simp only [getline, hempty, if_true]
          exact this.2
      · rcases hs : g.readSnapshot line rest with e | ⟨frame, rest1⟩
        · constructor
          · rw [GROTrajectory.readLoop]
            simp only [getline, hempty, if_false, hs, Bool.false_eq_true]
            intro h
            cases h
            exact (readSnapshot_rest g line rest).2 hs
          · rw [GROTrajectory.readLoop, GROTrajectory.readLoop]
            simp only [getline, hempty, if_false, hs, Bool.false_eq_true]
        · have hle := (readSnapshot_rest g line rest).1 frame rest1 hs
          have := ih rest1 (frames ++ [frame]) (by omega)
          constructor
          · rw [GROTrajectory.readLoop]
            simp only [getline, hempty, if_false, hs, Bool.false_eq_true]
            exact this.1
          · rw [GROTrajectory.readLoop, GROTrajectory.readLoop]
            simp only [getline, hempty, if_false, hs, Bool.false_eq_true]
            exact this.2

theorem readFromFile_fuel (g : GROTrajectory) (file : List Char) :
    g.readFromFile file ≠ .error .outOfFuel := by
  intro h
  unfold GROTrajectory.readFromFile at h
  rcases hl : g.readLoop ((fileLines file).length + 1) (fileLines file) g.frames with e | fs
  · rw [hl] at h
    cases h
    exact (readLoop_fuel g _ _ _ (Nat.lt_succ_self _)).1 hl
  · rw [hl] at h
    cases h

/-! ### The selection of output types -/

theorem addType_names (m : MeanSquaredDisplacement) (name : String) :
    (m.addType name).type_names =
      if name ∈ m.type_names then m.type_names else m.type_names ++ [name] := by
  unfold MeanSquaredDisplacement.addType
  split <;> rfl

theorem afterDeleteType_names (m : MeanSquaredDisplacement) (name : String) :
    (m.afterDeleteType name).type_names = m.type_names.erase name := by
  unfold MeanSquaredDisplacement.afterDeleteType MeanSquaredDisplacement.deleteType
  by_cases h : name ∈ m.type_names
  · simp [h]
  · simp [h, List.erase_of_not_mem h]

theorem afterCall_nodup (m : MeanSquaredDisplacement) (call : TypeCall)
    (h : m.type_names.Nodup) : (m.afterCall call).type_names.Nodup := by
  cases call with
  | add name =>
    simp only [MeanSquaredDisplacement.afterCall, addType_names]
    split
    · exact h
    · rename_i hn
      exact List.Nodup.append h (List.nodup_singleton _) (by simpa using hn)
  | delete name =>
    simp only [MeanSquaredDisplacement.afterCall, afterDeleteType_names]
    exact h.erase _

theorem afterCalls_nodup (calls : List TypeCall) :
    ∀ m : MeanSquaredDisplacement, m.type_names.Nodup → (m.afterCalls calls).type_names.Nodup := by
  induction calls with
  | nil =>
    intro m h
    exact h
  | cons call calls ih =>
    intro m h
    exact ih (m.afterCall call) (afterCall_nodup m call h)

/-- C12. `deleteType(n)` raises exactly when `n` is not selected, and the selection is then
what it was. When `n` is selected, the selection having been built from the empty one by
calls of `addType` and `deleteType`, it returns, `n` is no longer selected, and the selection
is the former one without `n`, the other names in their order. -/
theorem C12_deleteType (m0 : MeanSquaredDisplacement) (calls : List TypeCall) (n : String)
    (h0 : m0.type_names = []) :
    ((m0.afterCalls calls).deleteType n = .error .cannotRemoveType ↔
      n ∉ (m0.afterCalls calls).type_names) ∧
    (n ∉ (m0.afterCalls calls).type_names →
      ((m0.afterCalls calls).afterDeleteType n).type_names = (m0.afterCalls calls).type_names) ∧
    (n ∈ (m0.afterCalls calls).type_names →
      ∃ m1, (m0.afterCalls calls).deleteType n = .ok m1 ∧ n ∉ m1.type_names ∧
        m1.type_names = (m0.afterCalls calls).type_names.filter (fun x => x ≠ n)) := by
  have hnd : (m0.afterCalls calls).type_names.Nodup :=
    afterCalls_nodup calls m0 (by rw [h0]; exact List.nodup_nil)
  refine ⟨?_, ?_, ?_⟩
  · unfold MeanSquaredDisplacement.deleteType
    by_cases h : n ∈ (m0.afterCalls calls).type_names <;> simp [h]
  · intro h
    rw [afterDeleteType_names, List.erase_of_not_mem h]
  · intro h
    refine ⟨{ (m0.afterCalls calls) with
              type_names := (m0.afterCalls calls).type_names.erase n }, ?_, ?_, ?_⟩
    · unfold MeanSquaredDisplacement.deleteType
      rw [if_pos h]
    · exact hnd.not_mem_erase
    · simp only []
      rw [hnd.erase_eq_filter]
      congr 1
      funext x
      by_cases hx : x = n <;> simp [hx]

/-- C12, witness: after `addType("A")`, `deleteType("B")` raises and `deleteType("A")`
empties the selection. -/
theorem C12_deleteType_witness :
    (MeanSquaredDisplacement.new emptyTrajectory "msd" 1).type_names = [] ∧
    (((MeanSquaredDisplacement.new emptyTrajectory "msd" 1).afterCalls
        [TypeCall.add "A"]).deleteType "B" = .error .cannotRemoveType ↔
      "B" ∉ ((MeanSquaredDisplacement.new emptyTrajectory "msd" 1).afterCalls
        [TypeCall.add "A"]).type_names) ∧
    "B" ∉ ((MeanSquaredDisplacement.new emptyTrajectory "msd" 1).afterCalls
        [TypeCall.add "A"]).type_names ∧
    ((MeanSquaredDisplacement.new emptyTrajectory "msd" 1).deleteType "B").toOption.isNone ∧
    (((MeanSquaredDisplacement.new emptyTrajectory "msd" 1).afterCalls
        [TypeCall.add "A"]).afterDeleteType "A").type_names = [] :=
  ⟨rfl,
   (C12_deleteType (MeanSquaredDisplacement.new emptyTrajectory "msd" 1) [TypeCall.add "A"]
     "B" rfl).1,
   by decide, by decide, by decide⟩

/-- C13. `addType(n)` appends `n` at the end of the selection when `n` is not selected and
leaves the selection as it is otherwise, so a second `addType(n)` changes nothing; and after
any sequence of `addType` and `deleteType` calls on an empty selection no name occurs twice. -/
theorem C13_addType (m m0 : MeanSquaredDisplacement) (n : String) (calls : List TypeCall)
    (h0 : m0.type_names = []) :
    (n ∉ m.type_names → (m.addType n).type_names = m.type_names ++ [n]) ∧
    (n ∈ m.type_names → (m.addType n).type_names = m.type_names) ∧
    (m.addType n).addType n = m.addType n ∧
    (m0.afterCalls calls).type_names.Nodup := by
  refine ⟨fun h => ?_, fun h => ?_, ?_, ?_⟩
  · rw [addType_names, if_neg h]
  · rw [addType_names, if_pos h]
  · have hmem : n ∈ (m.addType n).type_names := by
      rw [addType_names]
      split
      · assumption
      · simp
    rw [MeanSquaredDisplacement.addType.eq_1 (m.addType n), if_pos hmem]
  · exact afterCalls_nodup calls m0 (by rw [h0]; exact List.nodup_nil)

/-- C13, witness: `addType("A")`, `addType("A")`, `addType("B")`, `deleteType("C")` on the
empty selection leave `A`, `B`. -/
theorem C13_addType_witness :
    (MeanSquaredDisplacement.new emptyTrajectory "msd" 1).type_names = [] ∧
    ((MeanSquaredDisplacement.new emptyTrajectory "msd" 1).afterCalls
      [TypeCall.add "A", TypeCall.add "A", TypeCall.add "B", TypeCall.delete "C"]).type_names
      = ["A", "B"] ∧
    ((MeanSquaredDisplacement.new emptyTrajectory "msd" 1).afterCalls
      [TypeCall.add "A", TypeCall.add "A", TypeCall.add "B",
       TypeCall.delete "C"]).type_names.Nodup :=
  ⟨rfl, by decide,
   (C13_addType (MeanSquaredDisplacement.new emptyTrajectory "msd" 1)
     (MeanSquaredDisplacement.new emptyTrajectory "msd" 1) "A"
     [TypeCall.add "A", TypeCall.add "A", TypeCall.add "B", TypeCall.delete "C"] rfl).2.2.2⟩

/-! ### Which names and which rows `evaluate` uses -/

/-- C20 (evaluation at the failing input). One type is registered, so the tables have one
row, and the type index of the only particle is 0; with `A` and `B` selected by `addType`
the output loop reads row 1 for the second file, outside the tables. -/
theorem C20_output_row_outside_table :
    typeSize (copiesMsd 1).traj.numTypes = 1 ∧
    typeOf (copiesMsd 1).traj 0 = 0 ∧
    ((MeanSquaredDisplacement.new (copiesMsd 1).traj "msd" 1).afterCalls
      [TypeCall.add "A", TypeCall.add "B"]).type_names = ["A", "B"] ∧
    ((MeanSquaredDisplacement.new (copiesMsd 1).traj "msd" 1).afterCalls
      [TypeCall.add "A", TypeCall.add "B"]).evaluate = .error .undefinedBehaviour := by
  decide!

theorem forLoop_congr {σ : Type} (body body1 : Nat → σ → Except Err σ)
    (h : ∀ i st, body i st = body1 i st) :
    ∀ n init, forLoop n body init = forLoop n body1 init := by
  intro n
  induction n with
  | zero =>
    intro init
    rfl
  | succ n ih =>
    intro init
    simp only [forLoop, ih, h]

theorem index_positions_congr {frames frames1 : List Frame} {k : Nat}
    (h : (frames1[k]?).map (fun f => f.positions) = (frames[k]?).map (fun f => f.positions)) :
    (index frames1 k).map (fun f => f.positions) = (index frames k).map (fun f => f.positions) := by
  unfold index
  rcases h1 : frames1[k]? with _ | f1 <;> rcases h2 : frames[k]? with _ | f2 <;>
    simp [h1, h2, Except.map] at h ⊢
  exact h

theorem pairBody_congr (traj : Trajectory) (frames1 : List Frame) (types : List String)
    (hlen : frames1.length = traj.frames.length)
    (hpos : ∀ k : Nat, (frames1[k]?).map (fun f : Frame => f.positions) =
      (traj.frames[k]?).map (fun f : Frame => f.positions))
    (f tau : Nat) (st : EvalState) :
    pairBody { traj with frames := frames1 } frames1 types f tau st =
      pairBody traj traj.frames types f tau st := by
  unfold pairBody
  simp only [bind, Except.bind, pure, Except.pure, hlen]
  rcases index st.time0 tau with e | t
  · rfl
  simp only []
  split
  · rcases bump st.ntime (deltaT f t) with e | nt
    · rfl
    simp only []
    have hc := index_positions_congr (hpos (deltaT f t))
    have ho := index_positions_congr (hpos tau)
    rcases h1 : index frames1 (deltaT f t) with e1 | c1 <;>
      rcases h2 : index traj.frames (deltaT f t) with e2 | c2 <;>
      rw [h1, h2] at hc <;> simp only [Except.map, Except.error.injEq, Except.ok.injEq,
        reduceCtorEq] at hc
    · simp only [hc]
    · simp only []
      rcases h3 : index frames1 tau with e3 | o1 <;>
        rcases h4 : index traj.frames tau with e4 | o2 <;>
        rw [h3, h4] at ho <;> simp only [Except.map, Except.error.injEq, Except.ok.injEq,
          reduceCtorEq] at ho
      · simp only [ho]
      · simp only [hc, ho]
        rfl
  · rfl

theorem frameBody_congr (traj : Trajectory) (origins : Nat) (frames1 : List Frame)
    (types : List String) (hlen : frames1.length = traj.frames.length)
    (hpos : ∀ k : Nat, (frames1[k]?).map (fun f : Frame => f.positions) =
      (traj.frames[k]?).map (fun f : Frame => f.positions))
    (f : Nat) (st : EvalState) :
    frameBody { traj with frames := frames1 } origins frames1 types f st =
      frameBody traj origins traj.frames types f st := by
  unfold frameBody
  split
  · rfl
  · exact forLoop_congr _ _ (fun tau st1 => pairBody_congr traj frames1 types hlen hpos f tau st1)
      _ _

/-- C19 (as amended). `evaluate` resolves the type of a particle from its name in frame 0
only: the accumulation pass reads the names of the first frame once and, of every frame, the
positions; a trajectory with the same positions and the same first frame but other names in
the later frames gives the same accumulators and pair counts. -/
theorem C19_types_from_first_frame (m : MeanSquaredDisplacement) (frames1 : List Frame)
    (hlen : frames1.length = m.traj.frames.length)
    (hpos : ∀ k : Nat, (frames1[k]?).map (fun f : Frame => f.positions) =
      (m.traj.frames[k]?).map (fun f : Frame => f.positions))
    (h0 : (frames1[0]?).map (fun f : Frame => (f.names, f.hasTime)) =
      (m.traj.frames[0]?).map (fun f : Frame => (f.names, f.hasTime))) :
    ({ m with traj := { m.traj with frames := frames1 } } : MeanSquaredDisplacement).accumulate
      = m.accumulate := by
  unfold MeanSquaredDisplacement.accumulate
  simp only [bind, Except.bind, pure, Except.pure, hlen]
  have hinit : initState { m.traj with frames := frames1 } frames1
      = initState m.traj m.traj.frames := by
    simp only [initState, hlen]
  unfold index
  rcases h1 : frames1[0]? with _ | f1
  · rcases h2 : m.traj.frames[0]? with _ | f2
    · rfl
    · rw [h1, h2] at h0
      cases h0
  · rcases h2 : m.traj.frames[0]? with _ | f2
    · rw [h1, h2] at h0
      cases h0
    · rw [h1, h2] at h0
      simp only [Option.map, Option.some.injEq, Prod.mk.injEq] at h0
      obtain ⟨hnames, htime⟩ := h0
      simp only [htime, hnames, hinit]
      split
      · rfl
      · split
        · rfl
        · exact forLoop_congr _ _
            (fun f st => frameBody_congr m.traj m.origins frames1 f2.names hlen hpos f st) _ _

/-- C19, witness: the particle named `A` in frame 0 may be named `B` or `A` in frame 1, the
accumulators are the same. -/
theorem C19_types_from_first_frame_witness :
    (renamedMsd "B").accumulate = (renamedMsd "A").accumulate :=
  C19_types_from_first_frame (renamedMsd "A") (renamedMsd "B").traj.frames rfl
    (fun k => by
      rcases k with _ | _ | k <;> rfl)
    rfl

/-- C19 (counterexample). One particle is named `A` (type index 0) in frame 0 and `B` (type
index 1) in frame 1. The pair of frame 1 and origin 0 samples frame 1, where the name is `B`,
yet its squared displacement 1 is added at lag 1 to row 0, the row of `A`; row 1 stays zero. -/
theorem C19_counterexample_name_changes :
    (renamedMsd "B").traj.typeByName "A" = 0 ∧ (renamedMsd "B").traj.typeByName "B" = 1 ∧
    (renamedMsd "B").accumulate.toOption.map (fun st => st.msd.x) = some [[1, 1], [0, 0]] := by
  decide!

/-! ### Origins, lags and pair counts -/

theorem walk_inv (m : MeanSquaredDisplacement) (hwf : m.WellFormed) (f : Nat)
    (hf : f ≤ m.traj.frames.length) : ∃ st, m.walk f = .ok st ∧ EvalInv m f st := by
  have hpos := hwf.frames_pos
  have h0 : m.traj.frames[0]? = some m.traj.frames[0] := List.getElem?_eq_getElem hpos
  obtain ⟨st, hrun, hinv⟩ := frameLoop_inv m hwf _ h0 f hf
  refine ⟨st, ?_, hinv⟩
  have htime := hwf.has_time _ h0
  have hlt : ¬ 2 ^ 32 ≤ m.traj.frames.length := by
    have := hwf.frames_lt
    omega
  simp only [MeanSquaredDisplacement.walk, index_ok hpos, bind, Except.bind, htime,
    Bool.not_true, Bool.false_eq_true, if_false, hlt, pure, Except.pure, hrun]

theorem registeredFrames_length (s f : Nat) :
    (registeredFrames s (f + 1)).length = originCount s f := by
  induction f with
  | zero => simp [registeredFrames, originCount, List.range_succ]
  | succ f ih =>
    have hstep := origin_step s (f + 1)
    simp only [Nat.add_one_ne_zero, false_or, if_false, Nat.add_sub_cancel] at hstep
    unfold registeredFrames at ih ⊢
    rw [List.range_succ, List.filter_append, List.length_append, ih, ← hstep]
    by_cases hd : (f + 1) % s = 0
    · simp [hd]
    · simp [hd]

theorem lag_count_eq (s f d : Nat) :
    Finset.sum (Finset.range (originCount s f)) (fun tau => if f - tau = d then 1 else 0)
      = if d ≤ f ∧ f - d ≤ f / s then 1 else 0 := by
  have hle := originCount_le s f
  unfold originCount at hle ⊢
  by_cases hc : d ≤ f ∧ f - d ≤ f / s
  · rw [if_pos hc]
    rw [Finset.sum_eq_single_of_mem (f - d) (Finset.mem_range.mpr (by omega))]
    · have : f - (f - d) = d := by omega
      simp [this]
    · intro tau htau hne
      have : tau < f / s + 1 := Finset.mem_range.mp htau
      have hneq : ¬ f - tau = d := by omega
      simp [hneq]
  · rw [if_neg hc]
    apply Finset.sum_eq_zero
    intro tau htau
    have : tau < f / s + 1 := Finset.mem_range.mp htau
    have hneq : ¬ f - tau = d := by
      intro h
      apply hc
      omega
    simp [hneq]

theorem ntimeSpec_eq_lagPairs (s F d : Nat) : ntimeSpec s F d = lagPairs s F d := by
  unfold ntimeSpec lagPairs
  rw [Finset.card_filter]
  exact Finset.sum_congr rfl (fun f _ => lag_count_eq s f d)

theorem lagPairs_spacing_one (F d : Nat) : lagPairs 1 F d = F - d := by
  unfold lagPairs
  have : (Finset.range F).filter (fun f => d ≤ f ∧ f - d ≤ f / 1) = Finset.Ico d F := by
    ext f
    simp only [Finset.mem_filter, Finset.mem_range, Finset.mem_Ico, Nat.div_one]
    omega
  rw [this, Nat.card_Ico]

theorem lagPairs_pos (s F d : Nat) (hd : d < F) : 1 ≤ lagPairs s F d := by
  unfold lagPairs
  apply Finset.card_pos.mpr
  exact ⟨d, by simp [hd]⟩

theorem getElem?_of_getD {ntime : List Nat} {d : Nat} (hd : d < ntime.length) :
    ntime[d]? = some (ntime.getD d 0) := by
  simp [List.getD_eq_getElem?_getD, List.getElem?_eq_getElem hd]

theorem cell_getElem? {tbl : List (List ℚ)} {rows cols k d : Nat} (hs : Shaped tbl rows cols)
    (hk : k < rows) (hd : d < cols) :
    (tbl[k]?).bind (fun row => row[d]?) = some (cell tbl k d) := by
  obtain ⟨hlen, hrows⟩ := hs
  have hk1 : k < tbl.length := by omega
  have hcols : tbl[k].length = cols := hrows _ (List.getElem_mem _)
  have hd1 : d < tbl[k].length := by omega
  simp [cell, List.getD_eq_getElem?_getD, List.getElem?_eq_getElem hk1,
    List.getElem?_eq_getElem hd1]

theorem sqDisp_get (frames : List Frame) (ax : Axis) (d tau i : Nat) :
    (sqDisp frames d tau i).get ax = sqAlong frames ax d tau i := by
  unfold sqDisp sqOf sqAlong
  cases ax <;> simp only [Vector3.get, Vector3.sub] <;> ring

theorem forLoop_ok_inv {σ : Type} (Inv : Nat → σ → Prop) (body : Nat → σ → Except Err σ)
    (hstep : ∀ i st st1, Inv i st → body i st = .ok st1 → Inv (i + 1) st1) :
    ∀ n init st, Inv 0 init → forLoop n body init = .ok st → Inv n st := by
  intro n
  induction n with
  | zero =>
    intro init st h0 h
    simp only [forLoop] at h
    cases h
    exact h0
  | succ n ih =>
    intro init st h0 h
    simp only [forLoop] at h
    rcases hrun : forLoop n body init with e | st1
    · rw [hrun] at h
      cases h
    · rw [hrun] at h
      exact hstep n st1 st (ih init st1 h0 hrun) h

theorem pairBody_counts (traj : Trajectory) (frames : List Frame) (types : List String)
    (f j : Nat) (st st1 : EvalState) (hf : f < frames.length) (hF : frames.length < 2 ^ 32)
    (hj : j < st.t0) (ht0 : st.t0 ≤ f + 1)
    (htime0 : st.time0 = (List.range st.t0).map (fun t => t + 1))
    (hlen : st.ntime.length = frames.length)
    (hcount : st.ntime.getD (f - j) 0 + 1 < 2 ^ 32)
    (h : pairBody traj frames types f j st = .ok st1) :
    st1.t0 = st.t0 ∧ st1.time0 = st.time0 ∧ st1.ntime.length = frames.length ∧
    ∀ b, st1.ntime.getD b 0 = st.ntime.getD b 0 + if f - j = b then 1 else 0 := by
  have hjf : j ≤ f := by omega
  have htime : index st.time0 j = .ok (j + 1) := by
    have hlt : j < st.time0.length := by rw [htime0]; simpa using hj
    rw [index_ok hlt]
    simp [htime0]
  have hdelta : deltaT f (j + 1) = f - j := deltaT_eq hjf (by omega)
  have hdF : f - j < frames.length := by omega
  obtain ⟨nt, hbump, hntlen, hnt⟩ := bump_getD (by rw [hlen]; exact hdF) hcount
  simp only [pairBody, htime, bind, Except.bind, hdelta, if_pos hdF, hbump, pure,
    Except.pure] at h
  rcases hc : index frames (f - j) with e | cur
  · rw [hc] at h
    cases h
  rw [hc] at h
  simp only [] at h
  rcases ho : index frames j with e | origin
  · rw [ho] at h
    cases h
  rw [ho] at h
  simp only [] at h
  rcases hl : forLoop traj.n (atomBody traj types cur.positions origin.positions (f - j))
    st.msd with e | msd
  · rw [hl] at h
    cases h
  rw [hl] at h
  simp only [] at h
  cases h
  refine ⟨rfl, rfl, by rw [hntlen, hlen], ?_⟩
  intro b
  simp only []
  rw [hnt b]
  by_cases hb : b = f - j
  · subst hb
    simp
  · have hb1 : ¬ f - j = b := fun e => hb e.symm
    simp [hb, hb1]

theorem pairLoop_counts (traj : Trajectory) (frames : List Frame) (types : List String)
    (f : Nat) (st : EvalState) (hf : f < frames.length) (hF : frames.length < 2 ^ 32)
    (ht0 : st.t0 ≤ f + 1) (htime0 : st.time0 = (List.range st.t0).map (fun t => t + 1))
    (hlen : st.ntime.length = frames.length) (hcount : ∀ b, st.ntime.getD b 0 ≤ f)
    (j : Nat) (hj : j ≤ st.t0) (st1 : EvalState)
    (h : forLoop j (pairBody traj frames types f) st = .ok st1) :
    st1.t0 = st.t0 ∧ st1.time0 = st.time0 ∧ st1.ntime.length = frames.length ∧
    ∀ b, st1.ntime.getD b 0 = st.ntime.getD b 0 +
      Finset.sum (Finset.range j) (fun tau => if f - tau = b then 1 else 0) := by
  have key := forLoop_ok_inv
    (fun i (s1 : EvalState) => i ≤ st.t0 → (s1.t0 = st.t0 ∧ s1.time0 = st.time0 ∧
      s1.ntime.length = frames.length ∧
      ∀ b, s1.ntime.getD b 0 = st.ntime.getD b 0 +
        Finset.sum (Finset.range i) (fun tau => if f - tau = b then 1 else 0)))
    (pairBody traj frames types f)
    (fun i s1 s2 hinv hbody hi => by
      obtain ⟨h1, h2, h3, h4⟩ := hinv (by omega)
      have hzero : Finset.sum (Finset.range i)
          (fun tau => if f - tau = f - i then 1 else 0) = 0 := by
        apply Finset.sum_eq_zero
        intro tau htau
        have : tau < i := Finset.mem_range.mp htau
        have hne : ¬ f - tau = f - i := by omega
        simp [hne]
      have hc : s1.ntime.getD (f - i) 0 + 1 < 2 ^ 32 := by
        rw [h4, hzero]
        have := hcount (f - i)
        omega
      obtain ⟨g1, g2, g3, g4⟩ := pairBody_counts traj frames types f i s1 s2 hf hF
        (by omega) (by omega) (by rw [h2, h1]; exact htime0) h3 hc hbody
      refine ⟨by rw [g1, h1], by rw [g2, h2], g3, ?_⟩
      intro b
      rw [g4, h4, Finset.sum_range_succ]
      ring)
    j st st1 (fun _ => ⟨rfl, rfl, hlen, by simp⟩) h
  exact key hj

theorem frameBody_counts (traj : Trajectory) (s : Nat) (frames : List Frame)
    (types : List String) (hF : frames.length < 2 ^ 32) (f : Nat) (hf : f < frames.length)
    (st st1 : EvalState) (hinv : CountInv s frames.length f st)
    (h : frameBody traj s frames types f st = .ok st1) :
    CountInv s frames.length (f + 1) st1 := by
  have hT := origin_step s f
  have hTle := originCount_le s f
  rw [← hinv.t0_eq] at hT
  unfold frameBody at h
  split at h
  · cases h
  simp only [] at h
  obtain ⟨stR, hstR, hR0, hRtime, hRntime⟩ :
      ∃ stR : EvalState,
        (if f = 0 ∨ f % s = 0 then
          { st with t0 := (st.t0 + 1) % 2 ^ 32, time0 := st.time0 ++ [(st.t0 + 1) % 2 ^ 32] }
         else st) = stR ∧
        stR.t0 = originCount s f ∧
        stR.time0 = (List.range stR.t0).map (fun t => t + 1) ∧ stR.ntime = st.ntime := by
    by_cases hreg : f = 0 ∨ f % s = 0
    · rw [if_pos hreg] at hT ⊢
      have hmod : (st.t0 + 1) % 2 ^ 32 = st.t0 + 1 := Nat.mod_eq_of_lt (by omega)
      refine ⟨_, rfl, ?_, ?_, rfl⟩
      · simp only [hmod]
        exact hT
      · simp only [hmod, List.range_succ, List.map_append, List.map_cons, List.map_nil]
        rw [← hinv.time0_eq]
    · rw [if_neg hreg] at hT ⊢
      exact ⟨_, rfl, hT, hinv.time0_eq, rfl⟩
  rw [hstR] at h
  obtain ⟨g1, g2, g3, g4⟩ := pairLoop_counts traj frames types f stR hf hF (by omega) hRtime
    (by rw [hRntime]; exact hinv.ntime_len)
    (fun b => by rw [hRntime, hinv.ntime_eq]; exact ntimeSpec_le _ _ _) stR.t0 (Nat.le_refl _)
    st1 h
  refine ⟨g3, ?_, ?_, ?_⟩
  · rw [g1, hR0]
    simp
  · rw [g2, g1]
    exact hRtime
  · intro b
    rw [g4, hRntime, hinv.ntime_eq, hR0]
    simp only [ntimeSpec, Finset.sum_range_succ]

theorem walk_counts (m : MeanSquaredDisplacement) (f : Nat) (hf : f ≤ m.traj.frames.length)
    (st : EvalState) (h : m.walk f = .ok st) :
    CountInv m.origins m.traj.frames.length f st ∧ 0 < m.traj.frames.length ∧
    m.traj.frames.length < 2 ^ 32 := by
  unfold MeanSquaredDisplacement.walk at h
  simp only [bind, Except.bind, pure, Except.pure, throw, throwThe, MonadExceptOf.throw] at h
  rcases h0 : index m.traj.frames 0 with e | frame0
  · rw [h0] at h
    cases h
  rw [h0] at h
  simp only [] at h
  have hpos : 0 < m.traj.frames.length := by
    unfold index at h0
    rcases hg : m.traj.frames[0]? with _ | x
    · rw [hg] at h0
      cases h0
    · exact (List.getElem?_eq_some.mp hg).1
  split at h
  · cases h
  split at h
  · cases h
  rename_i hlt
  have hF : m.traj.frames.length < 2 ^ 32 := by omega
  refine ⟨?_, hpos, hF⟩
  have key := forLoop_ok_inv
    (fun i (s1 : EvalState) => i ≤ m.traj.frames.length →
      CountInv m.origins m.traj.frames.length i s1)
    (frameBody m.traj m.origins m.traj.frames frame0.names)
    (fun i s1 s2 hinv hbody hi =>
      frameBody_counts m.traj m.origins m.traj.frames frame0.names hF i (by omega) s1 s2
        (hinv (by omega)) hbody)
    f (initState m.traj m.traj.frames) st
    (fun _ => ⟨by simp [initState], rfl, rfl, fun b => by
      simp only [initState, ntimeSpec, Finset.range_zero, Finset.sum_empty]
      rw [List.getD_eq_getElem?_getD, List.getElem?_replicate]
      split <;> rfl⟩) h
  exact key hf

theorem accumulate_eq_walk (m : MeanSquaredDisplacement) :
    m.accumulate = m.walk m.traj.frames.length := rfl

theorem forLoop_prefix_ok {σ : Type} (body : Nat → σ → Except Err σ) (init : σ) :
    ∀ n st, forLoop n body init = .ok st → ∀ k, k ≤ n → ∃ st1, forLoop k body init = .ok st1 := by
  intro n
  induction n with
  | zero =>
    intro st h k hk
    have : k = 0 := by omega
    subst this
    exact ⟨st, h⟩
  | succ n ih =>
    intro st h k hk
    by_cases hkn : k = n + 1
    · subst hkn
      exact ⟨st, h⟩
    · simp only [forLoop] at h
      rcases hrun : forLoop n body init with e | st1
      · rw [hrun] at h
        cases h
      · exact ih st1 hrun k (by omega)

theorem walk_prefix_ok (m : MeanSquaredDisplacement) (st : EvalState)
    (h : m.accumulate = .ok st) (k : Nat) (hk : k ≤ m.traj.frames.length) :
    ∃ st1, m.walk k = .ok st1 := by
  rw [accumulate_eq_walk] at h
  unfold MeanSquaredDisplacement.walk at h ⊢
  simp only [bind, Except.bind, pure, Except.pure, throw, throwThe, MonadExceptOf.throw] at h ⊢
  rcases h0 : index m.traj.frames 0 with e | frame0
  · rw [h0] at h
    cases h
  rw [h0] at h
  simp only [] at h ⊢
  split at h
  · cases h
  rename_i ht
  rw [if_neg ht]
  split at h
  · cases h
  rename_i hlt
  rw [if_neg hlt]
  exact forLoop_prefix_ok _ _ _ st h k hk

theorem countInv_origins {s F f : Nat} {st : EvalState} (hinv : CountInv s F (f + 1) st) :
    st.t0 = originCount s f ∧
    ∀ tau, tau < st.t0 → st.time0[tau]? = some (tau + 1) ∧ tau ≤ f := by
  have ht0 : st.t0 = originCount s f := by
    rw [hinv.t0_eq]
    simp
  refine ⟨ht0, fun tau htau => ⟨?_, ?_⟩⟩
  · rw [hinv.time0_eq]
    simp [List.getElem?_map, List.getElem?_range htau]
  · have := originCount_le s f
    omega

/-- While frame `f` is processed the origin list holds, at position `tau`, the value
`tau + 1` of the origin counter at the time the origin was registered, not the index of the
registered frame; there are as many entries as frames up to `f` that are 0 or a multiple of
the spacing, and the lag used for origin position `tau` is
`delta_t = f - (tau + 1) + 1 = f - tau`, computed without unsigned wrap-around. -/
theorem lag_from_origin_counter (m : MeanSquaredDisplacement) (hwf : m.WellFormed)
    (f : Nat) (hf : f < m.traj.frames.length) :
    ∃ st, m.walk (f + 1) = .ok st ∧
      st.t0 = (registeredFrames m.origins (f + 1)).length ∧
      ∀ tau, tau < st.t0 →
        st.time0[tau]? = some (tau + 1) ∧ tau ≤ f ∧ deltaT f (tau + 1) = f - tau := by
  obtain ⟨st, hrun, -⟩ := walk_inv m hwf (f + 1) (by omega)
  obtain ⟨hinv, -, hF⟩ := walk_counts m (f + 1) (by omega) st hrun
  obtain ⟨ht0, htau⟩ := countInv_origins hinv
  refine ⟨st, hrun, by rw [ht0, registeredFrames_length], fun tau h => ?_⟩
  obtain ⟨h1, h2⟩ := htau tau h
  exact ⟨h1, h2, deltaT_eq h2 (by omega)⟩

/-- C15 (evaluation at the failing input). Five frames, spacing 2: the frames registered as
origins are 0, 2 and 4, but the origin list holds the counter values 1, 2 and 3. At frame
`f = 4` and origin position `tau = 2` the registered frame is 4 and the lag of the claim is
`4 - 4 + 1 = 1`; the lag used is `4 - 3 + 1 = 2`. The pair counts of the lags 0 to 4 are
1, 2, 3, 2, 1. -/
theorem C15_lag_not_from_registered_frame :
    registeredFrames spacedMsd.origins 5 = [0, 2, 4] ∧
    (spacedMsd.walk 5).toOption.map (fun st => (st.time0, st.ntime))
      = some ([1, 2, 3], [1, 2, 3, 2, 1]) ∧
    deltaT 4 (([1, 2, 3] : List Nat).getD 2 0) = 2 ∧
    4 - (registeredFrames spacedMsd.origins 5).getD 2 0 + 1 = 1 := by
  decide!

/-- C16. For a well-formed trajectory of `F >= 1` frames and spacing `s >= 1` the
accumulation pass returns, and the accumulator of axis `ax` at type index `k` and lag `d` is
the sum, over the pairs `(f, tau)` with `f < F`, `tau < 1 + floor(f / s)` and `f - tau = d`
and over the particles `i` of type index `k`, of the squared difference along `ax` of the
positions of `i` in frame `d` and in frame `tau`. -/
theorem C16_accumulators_closed_form (m : MeanSquaredDisplacement) (hwf : m.WellFormed) :
    ∃ st, m.accumulate = .ok st ∧
      ∀ ax k d, k < typeSize m.traj.numTypes → d < m.traj.frames.length →
        ((st.msd.get ax)[k]?).bind (fun row => row[d]?) = some
          (Finset.sum (Finset.range m.traj.frames.length) (fun f =>
            Finset.sum (Finset.range (f / m.origins + 1)) (fun tau =>
              if f - tau = d then
                Finset.sum (Finset.range m.traj.n) (fun i =>
                  if typeOf m.traj i = k then sqAlong m.traj.frames ax d tau i else 0)
              else 0))) := by
  obtain ⟨st, hrun, hinv⟩ := accumulate_ok m hwf
  refine ⟨st, hrun, fun ax k d hk hd => ?_⟩
  rw [cell_getElem? (hinv.shaped ax) hk hd, hinv.acc_eq]
  simp only [accSpec, pairSum, originCount, sqDisp_get]

/-- C16, witness: two identical particles over two frames. -/
theorem C16_accumulators_closed_form_witness :
    ∃ st, (copiesMsd 2).accumulate = .ok st ∧
      ∀ ax k d, k < typeSize (copiesMsd 2).traj.numTypes →
        d < (copiesMsd 2).traj.frames.length →
        ((st.msd.get ax)[k]?).bind (fun row => row[d]?) = some
          (Finset.sum (Finset.range (copiesMsd 2).traj.frames.length) (fun f =>
            Finset.sum (Finset.range (f / (copiesMsd 2).origins + 1)) (fun tau =>
              if f - tau = d then
                Finset.sum (Finset.range (copiesMsd 2).traj.n) (fun i =>
                  if typeOf (copiesMsd 2).traj i = k then
                    sqAlong (copiesMsd 2).traj.frames ax d tau i
                  else 0)
              else 0))) :=
  C16_accumulators_closed_form (copiesMsd 2) (copiesMsd_wellFormed 2)

/-- C17. Whenever the accumulation pass completes, whatever the particles and types: every
prefix of the frame walk completes, every pair `(f, tau)` it visits has `tau <= f` and the lag
`delta_t = f - tau <= f < F`, so the unsigned lag is not wrapped and passes the range test;
the pair count of lag `d` is the number of `f` in `[d, F)` with `f - d <= floor(f / s)`, and
`F - d` for spacing 1. For a well-formed trajectory the pass does complete. -/
theorem C17_pair_counts (m : MeanSquaredDisplacement) :
    (m.WellFormed → ∃ st, m.accumulate = .ok st) ∧
    ∀ st, m.accumulate = .ok st →
      (∀ f, f < m.traj.frames.length → ∃ stf, m.walk (f + 1) = .ok stf ∧
        stf.t0 = f / m.origins + 1 ∧
        ∀ tau, tau < stf.t0 → stf.time0[tau]? = some (tau + 1) ∧ tau ≤ f ∧
          deltaT f (tau + 1) = f - tau ∧ f - tau ≤ f ∧ f - tau < m.traj.frames.length) ∧
      (∀ d, d < m.traj.frames.length →
        st.ntime[d]? = some (lagPairs m.origins m.traj.frames.length d)) ∧
      (m.origins = 1 → ∀ d, d < m.traj.frames.length →
        st.ntime[d]? = some (m.traj.frames.length - d)) := by
  refine ⟨fun hwf => ?_, fun st h => ?_⟩
  · obtain ⟨st, hrun, -⟩ := accumulate_ok m hwf
    exact ⟨st, hrun⟩
  · have hw : m.walk m.traj.frames.length = .ok st := h
    obtain ⟨hinv, -, hF⟩ := walk_counts m _ (Nat.le_refl _) st hw
    have hcount : ∀ d, d < m.traj.frames.length →
        st.ntime[d]? = some (lagPairs m.origins m.traj.frames.length d) := by
      intro d hd
      rw [getElem?_of_getD (by rw [hinv.ntime_len]; exact hd), hinv.ntime_eq,
        ntimeSpec_eq_lagPairs]
    refine ⟨fun f hf => ?_, hcount, fun hs d hd => ?_⟩
    · obtain ⟨stf, hstf⟩ := walk_prefix_ok m st h (f + 1) (by omega)
      obtain ⟨hinvf, -, -⟩ := walk_counts m (f + 1) (by omega) stf hstf
      obtain ⟨ht0, htau⟩ := countInv_origins hinvf
      refine ⟨stf, hstf, ht0, fun tau h1 => ?_⟩
      obtain ⟨g1, g2⟩ := htau tau h1
      exact ⟨g1, g2, deltaT_eq g2 (by omega), by omega, by omega⟩
    · rw [hcount d hd, hs, lagPairs_spacing_one]

/-- C17, witness: the compute of two frames and spacing 1 has the pair counts 2 and 1. -/
theorem C17_pair_counts_witness :
    (copiesMsd 1).WellFormed ∧
    ∃ st, (copiesMsd 1).accumulate = .ok st ∧
      (∀ d, d < (copiesMsd 1).traj.frames.length →
        st.ntime[d]? = some (lagPairs (copiesMsd 1).origins (copiesMsd 1).traj.frames.length d)) ∧
      lagPairs 1 2 0 = 2 ∧ lagPairs 1 2 1 = 1 :=
  ⟨copiesMsd_wellFormed 1,
   ((C17_pair_counts (copiesMsd 1)).1 (copiesMsd_wellFormed 1)).elim fun st h =>
     ⟨st, h, ((C17_pair_counts (copiesMsd 1)).2 st h).2.1, by decide, by decide⟩⟩

/-- C18 (as amended). Whenever the accumulation pass completes, every lag index in
`[0, F)` has a pair count of at least 1, the pair of frame `d` and origin position 0, so the
normalization of no output line divides by zero. For a well-formed trajectory the pass does
complete. -/
theorem C18_every_lag_has_a_pair (m : MeanSquaredDisplacement) :
    (m.WellFormed → ∃ st, m.accumulate = .ok st) ∧
    ∀ st, m.accumulate = .ok st → ∀ d, d < m.traj.frames.length →
      ∃ c, st.ntime[d]? = some c ∧ 1 ≤ c ∧ ∀ a, divide a c = some (a / c) := by
  refine ⟨fun hwf => ?_, fun st h d hd => ?_⟩
  · obtain ⟨st, hrun, -⟩ := accumulate_ok m hwf
    exact ⟨st, hrun⟩
  · have hw : m.walk m.traj.frames.length = .ok st := h
    obtain ⟨hinv, -, -⟩ := walk_counts m _ (Nat.le_refl _) st hw
    have hpos := lagPairs_pos m.origins m.traj.frames.length d hd
    refine ⟨lagPairs m.origins m.traj.frames.length d, ?_, hpos, fun a => ?_⟩
    · rw [getElem?_of_getD (by rw [hinv.ntime_len]; exact hd), hinv.ntime_eq,
        ntimeSpec_eq_lagPairs]
    · unfold divide
      rw [if_neg (by omega)]

/-- C18, witness: three frames with the large spacing 5 have the pair counts 1, 1, 1. -/
theorem C18_every_lag_has_a_pair_witness :
    ({ uniformMsd 3 1 with origins := 5 } : MeanSquaredDisplacement).accumulate.toOption.map
        (fun st => st.ntime) = some [1, 1, 1] ∧
    ∀ st, ({ uniformMsd 3 1 with origins := 5 } : MeanSquaredDisplacement).accumulate = .ok st →
      ∀ d, d < 3 → ∃ c, st.ntime[d]? = some c ∧ 1 ≤ c ∧ ∀ a, divide a c = some (a / c) :=
  ⟨by decide!,
   (C18_every_lag_has_a_pair ({ uniformMsd 3 1 with origins := 5 } : MeanSquaredDisplacement)).2⟩

/-- C18 (counterexample). No compute, whatever its frame count `F` and its spacing, ends the
accumulation pass with a pair count of zero at a lag index in `[0, F)`. -/
theorem C18_counterexample_no_empty_lag :
    ¬ ∃ (m : MeanSquaredDisplacement) (st : EvalState) (d : Nat),
      m.accumulate = .ok st ∧ d < m.traj.frames.length ∧ st.ntime[d]? = some 0 := by
  rintro ⟨m, st, d, h, hd, hzero⟩
  have hw : m.walk m.traj.frames.length = .ok st := h
  obtain ⟨hinv, -, -⟩ := walk_counts m _ (Nat.le_refl _) st hw
  have hpos := lagPairs_pos m.origins m.traj.frames.length d hd
  rw [getElem?_of_getD (by rw [hinv.ntime_len]; exact hd), hinv.ntime_eq,
    ntimeSpec_eq_lagPairs] at hzero
  simp only [Option.some.injEq] at hzero
  omega

/-! ### The comment line -/

theorem readLine_congr {g1 g2 : GROTrajectory} (h : SameFormat g1 g2) (line : List Char) :
    g1.readLine line = g2.readLine line := by
  unfold GROTrajectory.readLine
  rw [h.1, h.2]

theorem particleLoop_congr {g1 g2 : GROTrajectory} (h : SameFormat g1 g2) :
    ∀ (todo : Nat) (st : ParticleLoop), g1.particleLoop todo st = g2.particleLoop todo st := by
  intro todo
  induction todo with
  | zero => intro st; rfl
  | succ todo ih =>
    intro st
    simp only [GROTrajectory.particleLoop, GROTrajectory.particleBody, readLine_congr h, ih]

theorem readSnapshot_congr {g1 g2 : GROTrajectory} (h : SameFormat g1 g2) (line : List Char)
    (rest : List (List Char)) : g1.readSnapshot line rest = g2.readSnapshot line rest := by
  unfold GROTrajectory.readSnapshot
  simp only [particleLoop_congr h]

theorem readLoop_congr {g1 g2 : GROTrajectory} (h : SameFormat g1 g2) :
    ∀ (fuel : Nat) (file : List (List Char)) (frames : List Frame),
      g1.readLoop fuel file frames = g2.readLoop fuel file frames := by
  intro fuel
  induction fuel with
  | zero => intro file frames; rfl
  | succ fuel ih =>
    intro file frames
    simp only [GROTrajectory.readLoop, readSnapshot_congr h, ih]

theorem readLoop_append (g : GROTrajectory) :
    ∀ (fuel : Nat) (file : List (List Char)) (frames : List Frame),
      g.readLoop fuel file frames =
        (g.readLoop fuel file []).map (fun later => frames ++ later) := by
  intro fuel
  induction fuel with
  | zero => intro file frames; rfl
  | succ fuel ih =>
    intro file frames
    rcases file with _ | ⟨line, rest⟩
    · simp [GROTrajectory.readLoop, getline, Except.map]
    · simp only [GROTrajectory.readLoop, getline]
      by_cases hl : line.isEmpty = true
      · rw [if_pos hl, if_pos hl]
        exact ih rest frames
      · rw [if_neg hl, if_neg hl]
        rcases hs : g.readSnapshot line rest with e | ⟨frame, rest1⟩
        · rfl
        · simp only []
          rw [ih rest1 (frames ++ [frame]), ih rest1 ([] ++ [frame])]
          rcases g.readLoop fuel rest1 [] with e | later
          · rfl
          · simp [Except.map]

theorem readFromFile_eq (g : GROTrajectory) (text : List Char) :
    g.readFromFile text =
      (g.fileFrames text).map (fun later => { g with frames := g.frames ++ later }) := by
  unfold GROTrajectory.readFromFile GROTrajectory.fileFrames
  rw [readLoop_append]
  rcases g.readLoop ((fileLines text).length + 1) (fileLines text) [] with e | later
  · rfl
  · rfl

theorem attachedFrames_congr {g1 g2 : GROTrajectory} (h : SameFormat g1 g2)
    (fs : String → Option (List Char)) :
    ∀ files : List String, g1.attachedFrames fs files = g2.attachedFrames fs files := by
  intro files
  induction files with
  | nil => rfl
  | cons f files ih =>
    simp only [GROTrajectory.attachedFrames, GROTrajectory.fileFrames, readLoop_congr h, ih]

theorem readFiles_spec (fs : String → Option (List Char)) :
    ∀ (files : List String) (g : GROTrajectory),
      (∀ later, g.attachedFrames fs files = some later →
        GROTrajectory.readFiles fs files g = .ok { g with frames := g.frames ++ later } ∧
        GROTrajectory.afterReadFiles fs files g =
          ({ g with frames := g.frames ++ later }, true)) ∧
      (g.attachedFrames fs files = none →
        (∃ e, GROTrajectory.readFiles fs files g = .error e) ∧
        (GROTrajectory.afterReadFiles fs files g).2 = false ∧
        (GROTrajectory.afterReadFiles fs files g).1.must_read_from_file =
          g.must_read_from_file) := by
  intro files
  induction files with
  | nil =>
    intro g
    refine ⟨fun later h => ?_, fun h => ?_⟩
    · simp only [GROTrajectory.attachedFrames, Option.some.injEq] at h
      subst h
      simp [GROTrajectory.readFiles, GROTrajectory.afterReadFiles]
    · simp [GROTrajectory.attachedFrames] at h
  | cons f files ih =>
    intro g
    rcases hf : fs f with _ | text
    · refine ⟨fun later h => ?_, fun _ => ?_⟩
      · simp [GROTrajectory.attachedFrames, hf] at h
      · simp [GROTrajectory.readFiles, GROTrajectory.afterReadFiles, hf]
    · have hrf := readFromFile_eq g text
      rcases hff : g.fileFrames text with e | frames
      · rw [hff] at hrf
        refine ⟨fun later h => ?_, fun _ => ?_⟩
        · simp [GROTrajectory.attachedFrames, hf, hff] at h
        · simp [GROTrajectory.readFiles, GROTrajectory.afterReadFiles, hf, hrf, Except.map]
      · rw [hff] at hrf
        simp only [Except.map] at hrf
        have hsame : SameFormat { g with frames := g.frames ++ frames } g := ⟨rfl, rfl⟩
        have hat := attachedFrames_congr hsame fs files
        obtain ⟨ih1, ih2⟩ := ih { g with frames := g.frames ++ frames }
        rw [hat] at ih1 ih2
        refine ⟨fun later h => ?_, fun h => ?_⟩
        · simp only [GROTrajectory.attachedFrames, hf, hff, Option.map_eq_some'] at h
          obtain ⟨later1, h1, h2⟩ := h
          subst h2
          obtain ⟨h3, h4⟩ := ih1 later1 h1
          simp only [GROTrajectory.readFiles, GROTrajectory.afterReadFiles, hf, hrf, h3, h4,
            List.append_assoc, and_self]
        · simp only [GROTrajectory.attachedFrames, hf, hff, Option.map_eq_none'] at h
          obtain ⟨h3, h4, h5⟩ := ih2 h
          simp only [GROTrajectory.readFiles, GROTrajectory.afterReadFiles, hf, hrf]
          exact ⟨h3, h4, h5⟩

/-- C14. When every attached file opens and parses, `read` returns with the frames held before
followed by the frames of each attached file in attachment order, the flag cleared and the
files still attached, and a second `read` then holds the files' frames twice; when a file does
not open or does not parse, `read` raises and the object it leaves has its flag unchanged. -/
theorem C14_read_concatenates (g : GROTrajectory) (fs : String → Option (List Char)) :
    (∀ later, g.attachedFrames fs g.files = some later →
      ∃ g1, g.read fs = .ok g1 ∧ g.afterRead fs = g1 ∧
        g1.frames = g.frames ++ later ∧ g1.must_read_from_file = false ∧
        g1.files = g.files ∧
        ∃ g2, g1.read fs = .ok g2 ∧ g2.frames = g.frames ++ later ++ later ∧
          g2.must_read_from_file = false) ∧
    (g.attachedFrames fs g.files = none →
      (∃ e, g.read fs = .error e) ∧
      (g.afterRead fs).must_read_from_file = g.must_read_from_file) := by
  refine ⟨fun later h => ?_, fun h => ?_⟩
  · obtain ⟨h1, h2⟩ := (readFiles_spec fs g.files g).1 later h
    have hsame : SameFormat { g with frames := g.frames ++ later } g := ⟨rfl, rfl⟩
    have h3 : GROTrajectory.attachedFrames { g with frames := g.frames ++ later } fs g.files
        = some later := by
      rw [attachedFrames_congr hsame fs g.files]
      exact h
    obtain ⟨h4, -⟩ := (readFiles_spec fs g.files { g with frames := g.frames ++ later }).1 later h3
    refine ⟨{ g with frames := g.frames ++ later, must_read_from_file := false }, ?_, ?_, rfl,
      rfl, rfl, ?_⟩
    · simp only [GROTrajectory.read, h1]
    · simp only [GROTrajectory.afterRead, h2, if_true]
    · refine ⟨{ g with frames := g.frames ++ later ++ later, must_read_from_file := false },
        ?_, rfl, rfl⟩
      have h5 : GROTrajectory.readFiles fs g.files
          { g with frames := g.frames ++ later, must_read_from_file := false } =
          .ok { g with frames := g.frames ++ later ++ later, must_read_from_file := false } := by
        have hs2 : SameFormat
            { g with frames := g.frames ++ later, must_read_from_file := false } g := ⟨rfl, rfl⟩
        have h6 : GROTrajectory.attachedFrames
            { g with frames := g.frames ++ later, must_read_from_file := false } fs g.files
            = some later := by
          rw [attachedFrames_congr hs2 fs g.files]
          exact h
        exact ((readFiles_spec fs g.files _).1 later h6).1
      simp only [GROTrajectory.read, h5]
  · obtain ⟨⟨e, h1⟩, h2, h3⟩ := (readFiles_spec fs g.files g).2 h
    refine ⟨⟨e, ?_⟩, ?_⟩
    · simp only [GROTrajectory.read, h1]
    · simp only [GROTrajectory.afterRead, h2]
      exact h3

/-- C14 at a reader of precision 3: with `a.gro` and `b.gro` attached and one frame held, the
read appends the frame of `a.gro`, then that of `b.gro`; with a file attached that does not
open, the read raises and leaves the flag set. -/
theorem C14_read_concatenates_witness :
    ((attachedReader ["a.gro", "b.gro"] [laterFrame]).attachedFrames exampleFiles
        (attachedReader ["a.gro", "b.gro"] [laterFrame]).files
        = some [twoParticleFrame, laterFrame] ∧
      ∃ g1, (attachedReader ["a.gro", "b.gro"] [laterFrame]).read exampleFiles = .ok g1 ∧
        (attachedReader ["a.gro", "b.gro"] [laterFrame]).afterRead exampleFiles = g1 ∧
        g1.frames = (attachedReader ["a.gro", "b.gro"] [laterFrame]).frames ++
          [twoParticleFrame, laterFrame] ∧
        g1.must_read_from_file = false ∧
        g1.files = (attachedReader ["a.gro", "b.gro"] [laterFrame]).files ∧
        ∃ g2, g1.read exampleFiles = .ok g2 ∧
          g2.frames = (attachedReader ["a.gro", "b.gro"] [laterFrame]).frames ++
            [twoParticleFrame, laterFrame] ++ [twoParticleFrame, laterFrame] ∧
          g2.must_read_from_file = false) ∧
    ((attachedReader ["a.gro", "c.gro"] []).attachedFrames exampleFiles
        (attachedReader ["a.gro", "c.gro"] []).files = none ∧
      (∃ e, (attachedReader ["a.gro", "c.gro"] []).read exampleFiles = .error e) ∧
      ((attachedReader ["a.gro", "c.gro"] []).afterRead exampleFiles).must_read_from_file =
        (attachedReader ["a.gro", "c.gro"] []).must_read_from_file) :=
  ⟨⟨by decide!,
      (C14_read_concatenates (attachedReader ["a.gro", "b.gro"] [laterFrame]) exampleFiles).1
        [twoParticleFrame, laterFrame] (by decide!)⟩,
    ⟨by decide!,
      (C14_read_concatenates (attachedReader ["a.gro", "c.gro"] []) exampleFiles).2
        (by decide!)⟩⟩

end Mdalyzer
